import Mathlib

/-! Tetris engine: embedding of `src/src/engine.c` and `src/include/engine.h`.

Conventions of the embedding.

* Machine integers are `Int`/`Nat`.  A value converted to `int8_t` goes through
  `toInt8` (two's complement wrap); `uint32_t` arithmetic is taken modulo `2^32`.
* The heap objects of a `Game` are held by value.  The two 16-cell tetromino
  buffers are lists; exchanging the two buffer pointers is exchanging the lists.
* The engine only ever forms `double` values that are multiples of one half and
  of magnitude below `2^9`; such values and their sums, differences, comparisons,
  `fabs` and `round` are exact in binary floating point.  A `double` is therefore
  stored as the integer that is twice its value (`roundHalf`, `fabs`).
* A `for` loop that returns at the first hit is a `List.all` over the iteration
  space written in the order of the loop.
* The host callbacks are functions; the generator gets the number of calls made
  so far (its hidden state) and the structure it has to fill.  `generated` and
  `scoreArgs` are ghost fields recording the calls made to the two callbacks.
* Reading a list outside its bounds yields `0` and writing outside is dropped;
  in C both are undefined, and no statement below depends on them unless said so.
-/

namespace TetrisEngine

/-! ## Data model (engine.h) -/

/-- Width and height of the square that holds a tetromino (`tetrominoMaxSize`). -/
abbrev tetrominoMaxSize : Int := 4

/-- Length of the flat tetromino buffers (`tetrominoArrayMaxSize`). -/
abbrev tetrominoArrayMaxSize : Nat := 16

/-- Conversion of an integer to `int8_t` (two's complement wrap). -/
def toInt8 (v : Int) : Int := (v + 128) % 256 - 128

/-- Read access through the macro `flatArrayAs2D(array, x, y, width)`. -/
def flatArrayAs2D (array : List Nat) (x y width : Int) : Nat :=
  array.getD (y * width + x).toNat 0

/-- Write access through the macro `flatArrayAs2D(array, x, y, width) = v`. -/
def flatArrayAs2DSet (array : List Nat) (x y width : Int) (v : Nat) : List Nat :=
  array.set (y * width + x).toNat v

/-- The structure `NextTetromino`: logical size and the 16-cell buffer. -/
structure NextTetromino where
  size : Int
  pixels : List Nat
deriving DecidableEq

/-- The structure `ActiveTetromino`: logical size, offset on the board, buffer. -/
structure ActiveTetromino where
  size : Int
  x : Int
  y : Int
  pixels : List Nat
deriving DecidableEq

/-- The enumeration `GameStatus`. -/
inductive GameStatus where
  | initGameStatus
  | playGameStatus
  | endMaxScoreStatus
  | endPlayerLoose
deriving DecidableEq

/-- The structure `Game`, with the two ghost fields `generated` and `scoreArgs`. -/
structure Game where
  status : GameStatus
  width : Int
  height : Int
  score : Nat
  maxScore : Nat
  gameField : List Nat
  activeTetromino : ActiveTetromino
  nextTetromino : NextTetromino
  getNextTetromino : Nat → NextTetromino → NextTetromino
  getScoreAddend : Int → Nat
  generated : Nat
  scoreArgs : List Int

/-! ## Creation and start -/

/-- The function `initGame`.  The argument `heap` is the outcome of the six
allocations: `none` when one of them failed, otherwise the indeterminate
contents of the freshly allocated tetromino structures and buffers. -/
def initGame (width height maxScore : Int)
    (getNextTetrominoFunction : Nat → NextTetromino → NextTetromino)
    (getScoreAddendFunction : Int → Nat)
    (heap : Option (ActiveTetromino × NextTetromino)) : Option Game :=
  match heap with
  | none => none
  | some (activeTetromino, nextTetromino) =>
    some
      { status := GameStatus.initGameStatus
        width := width
        height := height
        score := 0
        maxScore := (maxScore % 4294967296).toNat
        gameField := List.replicate (width * height).toNat 0
        activeTetromino := activeTetromino
        nextTetromino := nextTetromino
        getNextTetromino := getNextTetrominoFunction
        getScoreAddend := getScoreAddendFunction
        generated := 0
        scoreArgs := [] }

/-- The function `startGame`. -/
def startGame (game : Game) : Game :=
  let temp := game.activeTetromino.pixels
  let first := game.getNextTetromino game.generated game.nextTetromino
  let size := first.size
  let active : ActiveTetromino :=
    { size := size
      x := toInt8 (game.width.tdiv 2 - size.tdiv 2)
      y := game.height
      pixels := first.pixels }
  let second := game.getNextTetromino (game.generated + 1) { first with pixels := temp }
  { game with
    activeTetromino := active
    nextTetromino := second
    generated := game.generated + 2
    status := GameStatus.playGameStatus }

/-! ## Board access -/

/-- The function `getGameFieldPixel`; `x` and `y` are the `int8_t` parameters. -/
def getGameFieldPixel (game : Game) (x y : Int) : Nat :=
  if x < 0 ∨ x ≥ game.width then 1
  else if y < 0 then 1
  else if y ≥ game.height then 0
  else flatArrayAs2D game.gameField x y game.width

/-- The function `setPixel`; `x` and `y` are the `int8_t` parameters. -/
def setPixel (game : Game) (pixel : Nat) (x y : Int) : Game :=
  if x < 0 ∨ x ≥ game.width then game
  else if y < 0 then game
  else if y ≥ game.height then game
  else { game with gameField := flatArrayAs2DSet game.gameField x y game.width pixel }

/-! ## Collision queries -/

/-- The function `canActiveTetrominoMoveDown`. -/
def canActiveTetrominoMoveDown (game : Game) : Nat :=
  if (List.range tetrominoMaxSize.toNat).all (fun (y : Nat) =>
      (List.range tetrominoMaxSize.toNat).all (fun (x : Nat) =>
        !(decide (flatArrayAs2D game.activeTetromino.pixels x y tetrominoMaxSize ≠ 0) &&
          decide (getGameFieldPixel game (toInt8 (game.activeTetromino.x + x))
            (toInt8 (game.activeTetromino.y + y - 1)) ≠ 0))))
  then 1 else 0

/-- C `round` on a `double` stored as twice its value: halves go away from zero. -/
def roundHalf (twice : Int) : Int :=
  if 0 ≤ twice then (twice + 1) / 2 else -((-twice + 1) / 2)

/-- C `fabs` (on a `double` stored as twice its value). -/
def fabs (v : Int) : Int := if v < 0 then -v else v

/-- Iteration space of `for (c = first; c >= last; --c)`. -/
def countDown (first last : Int) : List Int :=
  (List.range (first - last + 1).toNat).map (fun (i : Nat) => first - (i : Int))

/-- Iteration space of `for (c = first; c <= last; ++c)`. -/
def countUp (first last : Int) : List Int :=
  (List.range (last - first + 1).toNat).map (fun (i : Nat) => first + (i : Int))

/-- One sweep loop over `checkY` at a fixed local column: no visited cell is occupied. -/
def columnFree (game : Game) (x : Int) (ys : List Int) : Bool :=
  ys.all (fun checkY =>
    decide (getGameFieldPixel game (toInt8 (x + game.activeTetromino.x))
      (toInt8 (checkY + game.activeTetromino.y)) = 0))

/-- One sweep loop over `checkX` at a fixed local row: no visited cell is occupied. -/
def rowFree (game : Game) (xs : List Int) (y : Int) : Bool :=
  xs.all (fun checkX =>
    decide (getGameFieldPixel game (toInt8 (checkX + game.activeTetromino.x))
      (toInt8 (y + game.activeTetromino.y)) = 0))

/-- Target cell `(targetX, targetY)` of a clockwise turn, as computed in
`canActiveTetrominoRotateClockwise` and in `rotateClockwise`. -/
def clockwiseTarget (size sourceX sourceY : Int) : Int × Int :=
  let tetrominoCenter := size - 1
  let relativeSourceX := 2 * sourceX - tetrominoCenter
  let relativeSourceY := 2 * sourceY - tetrominoCenter
  let relativeTargetX := relativeSourceY
  let relativeTargetY := -relativeSourceX
  (roundHalf (relativeTargetX + tetrominoCenter), roundHalf (relativeTargetY + tetrominoCenter))

/-- Target cell of a counterclockwise turn, as computed in
`canActiveTetrominoRotateAgainstClockwise` and in `rotateAgainstClockwise`. -/
def againstClockwiseTarget (size sourceX sourceY : Int) : Int × Int :=
  let tetrominoCenter := size - 1
  let relativeSourceX := 2 * sourceX - tetrominoCenter
  let relativeSourceY := 2 * sourceY - tetrominoCenter
  let relativeTargetX := -relativeSourceY
  let relativeTargetY := relativeSourceX
  (roundHalf (relativeTargetX + tetrominoCenter), roundHalf (relativeTargetY + tetrominoCenter))

/-- Body of the two loops of `canActiveTetrominoRotateClockwise` for one source cell. -/
def clockwisePathFree (game : Game) (sourceX sourceY : Int) : Bool :=
  let tetrominoCenter := game.activeTetromino.size - 1
  let relativeSourceX := 2 * sourceX - tetrominoCenter
  let relativeSourceY := 2 * sourceY - tetrominoCenter
  let targetX := (clockwiseTarget game.activeTetromino.size sourceX sourceY).1
  let targetY := (clockwiseTarget game.activeTetromino.size sourceX sourceY).2
  if relativeSourceX > relativeSourceY then
    if fabs relativeSourceX > fabs relativeSourceY then
      columnFree game sourceX (countDown sourceY targetY) &&
        rowFree game (countDown sourceX targetX) targetY
    else
      rowFree game (countDown sourceX targetX) sourceY &&
        columnFree game targetX (countUp sourceY targetY)
  else
    if fabs relativeSourceX > fabs relativeSourceY then
      columnFree game sourceX (countUp sourceY targetY) &&
        rowFree game (countUp sourceX targetX) targetY
    else
      rowFree game (countUp sourceX targetX) sourceY &&
        columnFree game targetX (countDown sourceY targetY)

/-- Body of the two loops of `canActiveTetrominoRotateAgainstClockwise` for one source cell. -/
def againstClockwisePathFree (game : Game) (sourceX sourceY : Int) : Bool :=
  let tetrominoCenter := game.activeTetromino.size - 1
  let relativeSourceX := 2 * sourceX - tetrominoCenter
  let relativeSourceY := 2 * sourceY - tetrominoCenter
  let targetX := (againstClockwiseTarget game.activeTetromino.size sourceX sourceY).1
  let targetY := (againstClockwiseTarget game.activeTetromino.size sourceX sourceY).2
  if relativeSourceX > relativeSourceY then
    if fabs relativeSourceX > fabs relativeSourceY then
      columnFree game sourceX (countUp sourceY targetY) &&
        rowFree game (countDown sourceX targetX) targetY
    else
      rowFree game (countUp sourceX targetX) sourceY &&
        columnFree game targetX (countUp sourceY targetY)
  else
    if fabs relativeSourceX > fabs relativeSourceY then
      columnFree game sourceX (countDown sourceY targetY) &&
        rowFree game (countUp sourceX targetX) targetY
    else
      rowFree game (countDown sourceX targetX) sourceY &&
        columnFree game targetX (countDown sourceY targetY)

/-- The function `canActiveTetrominoRotateClockwise`. -/
def canActiveTetrominoRotateClockwise (game : Game) : Nat :=
  if (List.range game.activeTetromino.size.toNat).all (fun (sourceY : Nat) =>
      (List.range game.activeTetromino.size.toNat).all (fun (sourceX : Nat) =>
        if flatArrayAs2D game.activeTetromino.pixels sourceX sourceY tetrominoMaxSize ≠ 0 then
          clockwisePathFree game sourceX sourceY
        else true))
  then 1 else 0

/-- The function `canActiveTetrominoRotateAgainstClockwise`. -/
def canActiveTetrominoRotateAgainstClockwise (game : Game) : Nat :=
  if (List.range game.activeTetromino.size.toNat).all (fun (sourceY : Nat) =>
      (List.range game.activeTetromino.size.toNat).all (fun (sourceX : Nat) =>
        if flatArrayAs2D game.activeTetromino.pixels sourceX sourceY tetrominoMaxSize ≠ 0 then
          againstClockwisePathFree game sourceX sourceY
        else true))
  then 1 else 0

/-! ## Mutation -/

/-- The function `pushActiveTetrominoInfo`. -/
def pushActiveTetrominoInfo (game : Game) : Game :=
  (List.range game.activeTetromino.size.toNat).foldl (fun g (y : Nat) =>
    (List.range game.activeTetromino.size.toNat).foldl (fun g (x : Nat) =>
      let tetrominoPixel := flatArrayAs2D game.activeTetromino.pixels x y tetrominoMaxSize
      if tetrominoPixel ≠ 0 then
        setPixel g tetrominoPixel (toInt8 (game.activeTetromino.x + x))
          (toInt8 (game.activeTetromino.y + y))
      else g) g) game

/-- The function `popActiveTetrominoInfo`. -/
def popActiveTetrominoInfo (game : Game) : Game :=
  (List.range game.activeTetromino.size.toNat).foldl (fun g (y : Nat) =>
    (List.range game.activeTetromino.size.toNat).foldl (fun g (x : Nat) =>
      if flatArrayAs2D game.activeTetromino.pixels x y tetrominoMaxSize ≠ 0 then
        setPixel g 0 (toInt8 (game.activeTetromino.x + x))
          (toInt8 (game.activeTetromino.y + y))
      else g) g) game

/-- The function `moveActiveTetrominoDown`: result code and new state. -/
def moveActiveTetrominoDown (game : Game) : Nat × Game :=
  let game := popActiveTetrominoInfo game
  if canActiveTetrominoMoveDown game ≠ 0 then
    let game := { game with
      activeTetromino := { game.activeTetromino with y := toInt8 (game.activeTetromino.y - 1) } }
    (1, pushActiveTetrominoInfo game)
  else
    (0, pushActiveTetrominoInfo game)

/-- The buffer `tempTetrominoBuffer` after the two loops of a rotation, for the
target computation `target`. -/
def rotatedBuffer (target : Int → Int → Int → Int × Int) (active : ActiveTetromino) : List Nat :=
  (List.range active.size.toNat).foldl (fun buffer (sourceY : Nat) =>
    (List.range active.size.toNat).foldl (fun buffer (sourceX : Nat) =>
      let tetrominoPixel := flatArrayAs2D active.pixels sourceX sourceY tetrominoMaxSize
      if tetrominoPixel ≠ 0 then
        flatArrayAs2DSet buffer (target active.size sourceX sourceY).1
          (target active.size sourceX sourceY).2 tetrominoMaxSize tetrominoPixel
      else buffer) buffer) (List.replicate tetrominoArrayMaxSize 0)

/-- The function `rotateClockwise`: result code and new state. -/
def rotateClockwise (game : Game) : Nat × Game :=
  let game := popActiveTetrominoInfo game
  if canActiveTetrominoRotateClockwise game ≠ 0 then
    let tempTetrominoBuffer := rotatedBuffer clockwiseTarget game.activeTetromino
    let game := { game with
      activeTetromino := { game.activeTetromino with pixels := tempTetrominoBuffer } }
    (0, pushActiveTetrominoInfo game)
  else
    (1, pushActiveTetrominoInfo game)

/-- The function `rotateAgainstClockwise`: result code and new state. -/
def rotateAgainstClockwise (game : Game) : Nat × Game :=
  let game := popActiveTetrominoInfo game
  if canActiveTetrominoRotateAgainstClockwise game ≠ 0 then
    let tempTetrominoBuffer := rotatedBuffer againstClockwiseTarget game.activeTetromino
    let game := { game with
      activeTetromino := { game.activeTetromino with pixels := tempTetrominoBuffer } }
    (0, pushActiveTetrominoInfo game)
  else
    (1, pushActiveTetrominoInfo game)

/-- C `memmove(array + dst, array + src, n)` on a flat array. -/
def memmove (array : List Nat) (dst src n : Nat) : List Nat :=
  array.take dst ++ (array.drop src).take n ++ array.drop (dst + n)

/-- C `memset(array + dst, v, n)` on a flat array. -/
def memset (array : List Nat) (dst v n : Nat) : List Nat :=
  array.take dst ++ List.replicate n v ++ array.drop (dst + n)

/-- The inner loop of `cleanLines`: the flag `isLineFull` for row `y`. -/
def isLineFull (game : Game) (y : Int) : Bool :=
  (List.range game.width.toNat).all (fun (x : Nat) => decide (getGameFieldPixel game x y ≠ 0))

/-- The `memmove` and the `memset` of `cleanLines` for a full row `y`: the rows
above `y` move down by one row and the top row is filled with zeros. -/
def shiftLinesDown (game : Game) (y : Int) : Game :=
  let moved := memmove game.gameField (y * game.width + 0).toNat
    ((y + 1) * game.width + 0).toNat ((game.height - y - 1) * game.width).toNat
  { game with
    gameField := memset moved ((game.height - 1) * game.width + 0).toNat 0 game.width.toNat }

/-- The outer loop of `cleanLines`, `for (y = height - 1; y >= 0; --y)`, entered
with `y + 1` rows left to visit and the current value of `cleanedLines`. -/
def cleanLinesLoop : Nat → Game → Int → Int × Game
  | 0, game, cleanedLines => (cleanedLines, game)
  | rowsLeft + 1, game, cleanedLines =>
    let y : Int := rowsLeft
    if isLineFull game y then
      cleanLinesLoop rowsLeft (shiftLinesDown game y) (toInt8 (cleanedLines + 1))
    else
      cleanLinesLoop rowsLeft game cleanedLines

/-- The function `cleanLines`: number of cleaned rows and new state. -/
def cleanLines (game : Game) : Int × Game :=
  cleanLinesLoop game.height.toNat game 0

/-- The function `isActiveTetrominoInGameBoard`. -/
def isActiveTetrominoInGameBoard (game : Game) : Nat :=
  if (List.range game.activeTetromino.size.toNat).reverse.all (fun (y : Nat) =>
      (List.range game.activeTetromino.size.toNat).all (fun (x : Nat) =>
        !(decide (flatArrayAs2D game.activeTetromino.pixels x y tetrominoMaxSize ≠ 0) &&
          decide (game.activeTetromino.y + y ≥ game.height))))
  then 1 else 0

/-! ## Public operations -/

/-- The function `tick`: result code and new state. -/
def tick (game : Game) : Nat × Game :=
  let moved := moveActiveTetrominoDown game
  let game := moved.2
  if moved.1 = 0 then
    if isActiveTetrominoInGameBoard game = 0 then
      (3, { game with status := GameStatus.endPlayerLoose })
    else
      let cleaned := cleanLines game
      let cleanedLines := cleaned.1
      let game := cleaned.2
      let scoredAddend := game.getScoreAddend cleanedLines % 4294967296
      let game := { game with scoreArgs := game.scoreArgs ++ [cleanedLines] }
      let scoreCopy := (game.score + scoredAddend) % 4294967296
      if scoreCopy < game.score ∨ scoreCopy > game.maxScore then
        (2, { game with score := game.maxScore, status := GameStatus.endMaxScoreStatus })
      else
        let activeTetrominoArray := game.activeTetromino.pixels
        let active : ActiveTetromino :=
          { size := game.nextTetromino.size
            x := toInt8 (game.width.tdiv 2 - tetrominoMaxSize.tdiv 2)
            y := game.height
            pixels := game.nextTetromino.pixels }
        let next := game.getNextTetromino game.generated
          { game.nextTetromino with pixels := activeTetrominoArray }
        (1, { game with
              score := scoreCopy
              activeTetromino := active
              nextTetromino := next
              generated := game.generated + 1 })
  else
    (0, game)

/-- The function `moveLeft`: result code and new state. -/
def moveLeft (game : Game) : Nat × Game :=
  let game := popActiveTetrominoInfo game
  if (List.range game.activeTetromino.size.toNat).all (fun (y : Nat) =>
      (List.range game.activeTetromino.size.toNat).all (fun (x : Nat) =>
        !(decide (flatArrayAs2D game.activeTetromino.pixels x y tetrominoMaxSize ≠ 0) &&
          decide (getGameFieldPixel game (toInt8 (game.activeTetromino.x + x - 1))
            (toInt8 (game.activeTetromino.y + y)) ≠ 0))))
  then
    let game := { game with
      activeTetromino := { game.activeTetromino with x := toInt8 (game.activeTetromino.x - 1) } }
    (0, pushActiveTetrominoInfo game)
  else
    (1, pushActiveTetrominoInfo game)

/-- The function `moveRight`: result code and new state. -/
def moveRight (game : Game) : Nat × Game :=
  let game := popActiveTetrominoInfo game
  if (List.range game.activeTetromino.size.toNat).all (fun (y : Nat) =>
      (List.range game.activeTetromino.size.toNat).all (fun (x : Nat) =>
        !(decide (flatArrayAs2D game.activeTetromino.pixels x y tetrominoMaxSize ≠ 0) &&
          decide (getGameFieldPixel game (toInt8 (game.activeTetromino.x + x + 1))
            (toInt8 (game.activeTetromino.y + y)) ≠ 0))))
  then
    let game := { game with
      activeTetromino := { game.activeTetromino with x := toInt8 (game.activeTetromino.x + 1) } }
    (0, pushActiveTetrominoInfo game)
  else
    (1, pushActiveTetrominoInfo game)

/-! ## Vocabulary of the statements -/

/-- The state `r` differs from `g` at most in the contents of the game field. -/
def FieldOnly (g r : Game) : Prop := r = { g with gameField := r.gameField }

/-- The game field has the length it was allocated with, `width * height` cells. -/
def BoardOk (g : Game) : Prop := g.gameField.length = (g.width * g.height).toNat

instance (g : Game) : Decidable (BoardOk g) := by unfold BoardOk; infer_instance

/-- The position `(x, y)` lies inside the game field. -/
def InBoard (g : Game) (x y : Int) : Prop := 0 ≤ x ∧ x < g.width ∧ 0 ≤ y ∧ y < g.height

instance (g : Game) (x y : Int) : Decidable (InBoard g x y) := by unfold InBoard; infer_instance

/-- Conditional write of one pixel: the body of the loops of push and pop. -/
def paint {α : Type} (c : α → Prop) [DecidablePred c] (v : α → Nat) (px py : α → Int)
    (g : Game) (a : α) : Game :=
  if c a then setPixel g (v a) (px a) (py a) else g

/-- The value `v` fits the type `int8_t`. -/
def Int8 (v : Int) : Prop := -128 ≤ v ∧ v ≤ 127

instance (v : Int) : Decidable (Int8 v) := by unfold Int8; infer_instance

/-- The fields of the state hold values of their C types: the `int8_t` fields are
in range, the scores are below `2^32`, the game field has `width * height` cells
and the two tetromino buffers have 16 cells. -/
def WellTyped (g : Game) : Prop :=
  Int8 g.width ∧ Int8 g.height ∧ Int8 g.activeTetromino.size ∧ Int8 g.activeTetromino.x ∧
    Int8 g.activeTetromino.y ∧ Int8 g.nextTetromino.size ∧ g.score < 4294967296 ∧
    g.maxScore < 4294967296 ∧ BoardOk g ∧ g.activeTetromino.pixels.length = 16 ∧
    g.nextTetromino.pixels.length = 16

instance (g : Game) : Decidable (WellTyped g) := by unfold WellTyped BoardOk; infer_instance

/-- Pixel of the active tetromino that lies over the board position `(X, Y)`;
`0` where the `size × size` square of the tetromino does not reach. -/
def pieceCell (a : ActiveTetromino) (X Y : Int) : Nat :=
  if 0 ≤ X - a.x ∧ X - a.x < a.size ∧ 0 ≤ Y - a.y ∧ Y - a.y < a.size then
    flatArrayAs2D a.pixels (X - a.x) (Y - a.y) tetrominoMaxSize
  else 0

/-- Iteration space of two nested loops over `0 .. n - 1`, the outer index second. -/
def cells (n : Nat) : List (Nat × Nat) :=
  (List.range n).flatMap (fun y => (List.range n).map (fun x => (x, y)))

/-- The state `r` differs from `g` at most in the game field and the active tetromino. -/
def FrameInput (g r : Game) : Prop :=
  r = { g with gameField := r.gameField, activeTetromino := r.activeTetromino }

/-- States reachable from `initGame` by any sequence of the public operations. -/
inductive Reachable (width height maxScore : Int)
    (getNextTetrominoFunction : Nat → NextTetromino → NextTetromino)
    (getScoreAddendFunction : Int → Nat) : Game → Prop where
  | init (heap : Option (ActiveTetromino × NextTetromino)) (g : Game) :
      initGame width height maxScore getNextTetrominoFunction getScoreAddendFunction heap = some g →
      Reachable width height maxScore getNextTetrominoFunction getScoreAddendFunction g
  | start (g : Game) :
      Reachable width height maxScore getNextTetrominoFunction getScoreAddendFunction g →
      Reachable width height maxScore getNextTetrominoFunction getScoreAddendFunction (startGame g)
  | left (g : Game) :
      Reachable width height maxScore getNextTetrominoFunction getScoreAddendFunction g →
      Reachable width height maxScore getNextTetrominoFunction getScoreAddendFunction (moveLeft g).2
  | right (g : Game) :
      Reachable width height maxScore getNextTetrominoFunction getScoreAddendFunction g →
      Reachable width height maxScore getNextTetrominoFunction getScoreAddendFunction (moveRight g).2
  | clockwise (g : Game) :
      Reachable width height maxScore getNextTetrominoFunction getScoreAddendFunction g →
      Reachable width height maxScore getNextTetrominoFunction getScoreAddendFunction
        (rotateClockwise g).2
  | againstClockwise (g : Game) :
      Reachable width height maxScore getNextTetrominoFunction getScoreAddendFunction g →
      Reachable width height maxScore getNextTetrominoFunction getScoreAddendFunction
        (rotateAgainstClockwise g).2
  | tick (g : Game) :
      Reachable width height maxScore getNextTetrominoFunction getScoreAddendFunction g →
      Reachable width height maxScore getNextTetrominoFunction getScoreAddendFunction (tick g).2

/-- Every occupied cell of the active tetromino lies below the top of the board. -/
def BelowTop (g : Game) : Prop :=
  ∀ lx ly : Nat, (lx : Int) < g.activeTetromino.size → (ly : Int) < g.activeTetromino.size →
    flatArrayAs2D g.activeTetromino.pixels lx ly tetrominoMaxSize ≠ 0 →
    g.activeTetromino.y + ly < g.height

/-- The state in which the tetromino has landed: its footprint erased and written back. -/
def landed (g : Game) : Game := pushActiveTetrominoInfo (popActiveTetrominoInfo g)

/-- The 2 × 2 shape filled with value 1. -/
def squareShape : NextTetromino :=
  { size := 2, pixels := [1, 1, 0, 0, 1, 1, 0, 0, 0, 0, 0, 0, 0, 0, 0, 0] }

/-- A generator that always yields the filled 2 × 2 shape. -/
def squareGenerator : Nat → NextTetromino → NextTetromino := fun _ _ => squareShape

/-- A score function paying 100 points per cleaned line. -/
def hundredPerLine : Int → Nat := fun cleanedLines => (cleanedLines * 100 % 4294967296).toNat

/-- Contents of freshly allocated tetromino structures, here all zero. -/
def zeroHeap : Option (ActiveTetromino × NextTetromino) :=
  some ({ size := 0, x := 0, y := 0, pixels := List.replicate 16 0 },
    { size := 0, pixels := List.replicate 16 0 })

/-- The game `initGame(10, 20, 1000, ...)` of the host example, before `startGame`. -/
def createdGame : Game :=
  { status := GameStatus.initGameStatus
    width := 10
    height := 20
    score := 0
    maxScore := 1000
    gameField := List.replicate 200 0
    activeTetromino := { size := 0, x := 0, y := 0, pixels := List.replicate 16 0 }
    nextTetromino := { size := 0, pixels := List.replicate 16 0 }
    getNextTetromino := squareGenerator
    getScoreAddend := hundredPerLine
    generated := 0
    scoreArgs := [] }

/-- A 4 × 4 game one point below the cap: the square lies on the floor and every
lock is worth 5 points. -/
def capGame : Game :=
  { status := GameStatus.playGameStatus
    width := 4
    height := 4
    score := 999
    maxScore := 1000
    gameField := [0, 1, 1, 0, 0, 1, 1, 0, 0, 0, 0, 0, 0, 0, 0, 0]
    activeTetromino := { size := 2, x := 1, y := 0, pixels := squareShape.pixels }
    nextTetromino := squareShape
    getNextTetromino := squareGenerator
    getScoreAddend := fun _ => 5
    generated := 2
    scoreArgs := [] }

/-- A 4 × 4 game whose middle columns are locked up to row 2; the square rests on
them with its upper row above the board. -/
def topOutGame : Game :=
  { status := GameStatus.playGameStatus
    width := 4
    height := 4
    score := 300
    maxScore := 1000
    gameField := [0, 5, 5, 0, 0, 5, 5, 0, 0, 5, 5, 0, 0, 1, 1, 0]
    activeTetromino := { size := 2, x := 1, y := 3, pixels := squareShape.pixels }
    nextTetromino := squareShape
    getNextTetromino := squareGenerator
    getScoreAddend := hundredPerLine
    generated := 5
    scoreArgs := [0, 0, 0] }

/-- Rows of the board from the floor upward, read with `getGameFieldPixel`. -/
def boardRows (g : Game) : List (List Nat) :=
  (List.range g.height.toNat).map (fun (y : Nat) =>
    (List.range g.width.toNat).map (fun (x : Nat) => getGameFieldPixel g x y))

/-- A row is full when every cell of it is nonzero. -/
def rowFull (row : List Nat) : Bool := row.all (fun p => decide (p ≠ 0))

/-- Number of full rows of the board. -/
def fullRowCount (g : Game) : Nat := (boardRows g).countP rowFull

/-- A 4 × 5 board whose rows 0 and 2 are full and not adjacent. -/
def twoLinesGame : Game :=
  { status := GameStatus.playGameStatus
    width := 4
    height := 5
    score := 0
    maxScore := 1000
    gameField := [1, 1, 1, 1, 1, 0, 1, 1, 2, 2, 2, 2, 0, 3, 0, 0, 0, 0, 0, 0]
    activeTetromino := { size := 2, x := 1, y := 5, pixels := squareShape.pixels }
    nextTetromino := squareShape
    getNextTetromino := squareGenerator
    getScoreAddend := hundredPerLine
    generated := 3
    scoreArgs := [0] }

/-- A 4 × 4 game whose bottom row lacks one cell, filled by the upright bar that
has landed in the last column. -/
def lineGame : Game :=
  { status := GameStatus.playGameStatus
    width := 4
    height := 4
    score := 0
    maxScore := 1000
    gameField := [5, 5, 5, 1, 0, 0, 0, 1, 0, 0, 0, 1, 0, 0, 0, 1]
    activeTetromino :=
      { size := 4, x := 3, y := 0, pixels := [1, 0, 0, 0, 1, 0, 0, 0, 1, 0, 0, 0, 1, 0, 0, 0] }
    nextTetromino := squareShape
    getNextTetromino := squareGenerator
    getScoreAddend := hundredPerLine
    generated := 4
    scoreArgs := [0, 0] }

/-- The shape is well formed: its size is at most 4 and every cell of the 4 × 4
buffer outside the `size × size` square is zero. -/
def ShapeWellFormed (size : Int) (pixels : List Nat) : Prop :=
  size ≤ 4 ∧ ∀ lx : Nat, lx < 4 → ∀ ly : Nat, ly < 4 → (size ≤ lx ∨ size ≤ ly) →
    flatArrayAs2D pixels lx ly tetrominoMaxSize = 0

instance (size : Int) (pixels : List Nat) : Decidable (ShapeWellFormed size pixels) := by
  unfold ShapeWellFormed; infer_instance

/-- The boundary rule of `getGameFieldPixel` read on the board from which the
occupied cells of the active tetromino have been removed. -/
def cellWithoutPiece (g : Game) (X Y : Int) : Nat :=
  if X < 0 ∨ X ≥ g.width then 1
  else if Y < 0 then 1
  else if Y ≥ g.height then 0
  else if pieceCell g.activeTetromino X Y ≠ 0 then 0
  else flatArrayAs2D g.gameField X Y g.width

/-- A 4 × 4 game with an empty board in which the square has just been spawned. -/
def fallingGame : Game :=
  { status := GameStatus.playGameStatus
    width := 4
    height := 4
    score := 0
    maxScore := 1000
    gameField := List.replicate 16 0
    activeTetromino := { size := 2, x := 1, y := 4, pixels := squareShape.pixels }
    nextTetromino := squareShape
    getNextTetromino := squareGenerator
    getScoreAddend := hundredPerLine
    generated := 2
    scoreArgs := [] }

/-- The descent criterion: below every occupied cell of the active tetromino the
board without the tetromino is empty, at the coordinates as `tick` passes them
to `getGameFieldPixel` (narrowed to `int8_t`). -/
def CanDescend (g : Game) : Prop :=
  ∀ lx ly : Nat, (lx : Int) < g.activeTetromino.size → (ly : Int) < g.activeTetromino.size →
    flatArrayAs2D g.activeTetromino.pixels lx ly tetrominoMaxSize ≠ 0 →
    cellWithoutPiece g (toInt8 (g.activeTetromino.x + lx)) (toInt8 (g.activeTetromino.y + ly - 1)) = 0

/-- A 5 × 4 game: a locked hook stands in column 0 and reaches over column 1 in
row 2; the active 3 × 3 tetromino lies on the floor under that cell, merged
into the board. -/
def hookGame : Game :=
  { status := GameStatus.playGameStatus
    width := 5
    height := 4
    score := 0
    maxScore := 1000
    gameField := [2, 1, 1, 0, 0, 2, 0, 1, 1, 0, 2, 2, 0, 0, 0, 0, 0, 0, 0, 0]
    activeTetromino :=
      { size := 3, x := 1, y := 0, pixels := [1, 1, 0, 0, 0, 1, 1, 0, 0, 0, 0, 0, 0, 0, 0, 0] }
    nextTetromino := squareShape
    getNextTetromino := squareGenerator
    getScoreAddend := hundredPerLine
    generated := 3
    scoreArgs := [0] }

/-- The result codes and states of `n` successive calls of `tick`. -/
def tickTimes : Nat → Game → List Nat × Game
  | 0, game => ([], game)
  | n + 1, game =>
    ((tick game).1 :: (tickTimes n (tick game).2).1, (tickTimes n (tick game).2).2)

/-- The test of `tick` on the wrapped sum: the addition wrapped or the sum is above the cap. -/
def capExceeded (g : Game) : Prop :=
  (g.score + g.getScoreAddend (cleanLines (landed g)).1 % 4294967296) % 4294967296 < g.score ∨
    (g.score + g.getScoreAddend (cleanLines (landed g)).1 % 4294967296) % 4294967296 > g.maxScore

/-- The footprint of the active tetromino is merged into the board: every
occupied local cell whose absolute position lies inside the board has its pixel
value stored there. -/
def FootprintMerged (g : Game) : Prop :=
  ∀ lx : Nat, lx < g.activeTetromino.size.toNat → ∀ ly : Nat, ly < g.activeTetromino.size.toNat →
    flatArrayAs2D g.activeTetromino.pixels lx ly tetrominoMaxSize ≠ 0 →
    InBoard g (g.activeTetromino.x + lx) (g.activeTetromino.y + ly) →
    getGameFieldPixel g (g.activeTetromino.x + lx) (g.activeTetromino.y + ly) =
      flatArrayAs2D g.activeTetromino.pixels lx ly tetrominoMaxSize

instance (g : Game) : Decidable (FootprintMerged g) := by
  unfold FootprintMerged; infer_instance

/-- The criterion of a move to the left: left of every occupied cell of the active
tetromino the board without the tetromino is empty, at the coordinates as
`moveLeft` passes them to `getGameFieldPixel` (narrowed to `int8_t`). -/
def CanMoveLeft (g : Game) : Prop :=
  ∀ lx ly : Nat, (lx : Int) < g.activeTetromino.size → (ly : Int) < g.activeTetromino.size →
    flatArrayAs2D g.activeTetromino.pixels lx ly tetrominoMaxSize ≠ 0 →
    cellWithoutPiece g (toInt8 (g.activeTetromino.x + lx - 1)) (toInt8 (g.activeTetromino.y + ly)) = 0

/-- The criterion of a move to the right, as `CanMoveLeft` with `x + lx + 1`. -/
def CanMoveRight (g : Game) : Prop :=
  ∀ lx ly : Nat, (lx : Int) < g.activeTetromino.size → (ly : Int) < g.activeTetromino.size →
    flatArrayAs2D g.activeTetromino.pixels lx ly tetrominoMaxSize ≠ 0 →
    cellWithoutPiece g (toInt8 (g.activeTetromino.x + lx + 1)) (toInt8 (g.activeTetromino.y + ly)) = 0

/-- A 4 × 4 game: the square lies on the floor against the left wall. -/
def leftWallGame : Game :=
  { status := GameStatus.playGameStatus
    width := 4
    height := 4
    score := 0
    maxScore := 1000
    gameField := [1, 1, 0, 0, 1, 1, 0, 0, 0, 0, 0, 0, 0, 0, 0, 0]
    activeTetromino := { size := 2, x := 0, y := 0, pixels := squareShape.pixels }
    nextTetromino := squareShape
    getNextTetromino := squareGenerator
    getScoreAddend := hundredPerLine
    generated := 2
    scoreArgs := [] }

/-- A 4 × 4 game: the upright bar stands in the last column against the right
wall, merged into the board. -/
def barAtWallGame : Game :=
  { status := GameStatus.playGameStatus
    width := 4
    height := 4
    score := 0
    maxScore := 1000
    gameField := [0, 0, 0, 1, 0, 0, 0, 1, 0, 0, 0, 1, 0, 0, 0, 1]
    activeTetromino :=
      { size := 4, x := 3, y := 0, pixels := [1, 0, 0, 0, 1, 0, 0, 0, 1, 0, 0, 0, 1, 0, 0, 0] }
    nextTetromino := squareShape
    getNextTetromino := squareGenerator
    getScoreAddend := hundredPerLine
    generated := 4
    scoreArgs := [0, 0] }

/-- Conditional write into a flat buffer: the body of the loops of a rotation. -/
def store {α : Type} (c : α → Prop) [DecidablePred c] (v : α → Nat) (ix : α → Nat)
    (buffer : List Nat) (a : α) : List Nat :=
  if c a then buffer.set (ix a) (v a) else buffer

/-- A 4 × 4 game with the T-shaped 3 × 3 tetromino on the floor of an otherwise
empty board. -/
def teeGame : Game :=
  { status := GameStatus.playGameStatus
    width := 4
    height := 4
    score := 0
    maxScore := 1000
    gameField := [0, 7, 0, 0, 7, 7, 7, 0, 0, 0, 0, 0, 0, 0, 0, 0]
    activeTetromino :=
      { size := 3, x := 0, y := 0, pixels := [0, 7, 0, 0, 7, 7, 7, 0, 0, 0, 0, 0, 0, 0, 0, 0] }
    nextTetromino := squareShape
    getNextTetromino := squareGenerator
    getScoreAddend := hundredPerLine
    generated := 2
    scoreArgs := [] }

/-- A shape as the generator is required to yield it: its size is in `2 .. 4`,
its buffer has 16 cells and every cell outside the `size × size` square is zero. -/
def GoodShape (size : Int) (pixels : List Nat) : Prop :=
  2 ≤ size ∧ pixels.length = 16 ∧ ShapeWellFormed size pixels

instance (size : Int) (pixels : List Nat) : Decidable (GoodShape size pixels) := by
  unfold GoodShape; infer_instance

/-- The generator yields a good shape at every call, whatever it is handed. -/
def GoodGenerator (generator : Nat → NextTetromino → NextTetromino) : Prop :=
  ∀ (n : Nat) (s : NextTetromino), GoodShape (generator n s).size (generator n s).pixels

/-- States reachable from `initGame` followed by `startGame` by any sequence of
the public operations. -/
inductive Started (width height maxScore : Int)
    (getNextTetrominoFunction : Nat → NextTetromino → NextTetromino)
    (getScoreAddendFunction : Int → Nat) : Game → Prop where
  | afterStart (heap : Option (ActiveTetromino × NextTetromino)) (g : Game) :
      initGame width height maxScore getNextTetrominoFunction getScoreAddendFunction heap = some g →
      Started width height maxScore getNextTetrominoFunction getScoreAddendFunction (startGame g)
  | afterRestart (g : Game) :
      Started width height maxScore getNextTetrominoFunction getScoreAddendFunction g →
      Started width height maxScore getNextTetrominoFunction getScoreAddendFunction (startGame g)
  | afterLeft (g : Game) :
      Started width height maxScore getNextTetrominoFunction getScoreAddendFunction g →
      Started width height maxScore getNextTetrominoFunction getScoreAddendFunction (moveLeft g).2
  | afterRight (g : Game) :
      Started width height maxScore getNextTetrominoFunction getScoreAddendFunction g →
      Started width height maxScore getNextTetrominoFunction getScoreAddendFunction (moveRight g).2
  | afterClockwise (g : Game) :
      Started width height maxScore getNextTetrominoFunction getScoreAddendFunction g →
      Started width height maxScore getNextTetrominoFunction getScoreAddendFunction
        (rotateClockwise g).2
  | afterAgainstClockwise (g : Game) :
      Started width height maxScore getNextTetrominoFunction getScoreAddendFunction g →
      Started width height maxScore getNextTetrominoFunction getScoreAddendFunction
        (rotateAgainstClockwise g).2
  | afterTick (g : Game) :
      Started width height maxScore getNextTetrominoFunction getScoreAddendFunction g →
      Started width height maxScore getNextTetrominoFunction getScoreAddendFunction (tick g).2

/-- States reachable from `initGame` followed by `startGame` by any sequence of
`moveLeft`, `moveRight`, `rotateClockwise`, `rotateAgainstClockwise` and `tick`,
each of them called while the status is Playing. -/
inductive InPlay (width height maxScore : Int)
    (getNextTetrominoFunction : Nat → NextTetromino → NextTetromino)
    (getScoreAddendFunction : Int → Nat) : Game → Prop where
  | first (heap : Option (ActiveTetromino × NextTetromino)) (g : Game) :
      initGame width height maxScore getNextTetrominoFunction getScoreAddendFunction heap = some g →
      InPlay width height maxScore getNextTetrominoFunction getScoreAddendFunction (startGame g)
  | thenLeft (g : Game) :
      InPlay width height maxScore getNextTetrominoFunction getScoreAddendFunction g →
      g.status = GameStatus.playGameStatus →
      InPlay width height maxScore getNextTetrominoFunction getScoreAddendFunction (moveLeft g).2
  | thenRight (g : Game) :
      InPlay width height maxScore getNextTetrominoFunction getScoreAddendFunction g →
      g.status = GameStatus.playGameStatus →
      InPlay width height maxScore getNextTetrominoFunction getScoreAddendFunction (moveRight g).2
  | thenClockwise (g : Game) :
      InPlay width height maxScore getNextTetrominoFunction getScoreAddendFunction g →
      g.status = GameStatus.playGameStatus →
      InPlay width height maxScore getNextTetrominoFunction getScoreAddendFunction
        (rotateClockwise g).2
  | thenAgainstClockwise (g : Game) :
      InPlay width height maxScore getNextTetrominoFunction getScoreAddendFunction g →
      g.status = GameStatus.playGameStatus →
      InPlay width height maxScore getNextTetrominoFunction getScoreAddendFunction
        (rotateAgainstClockwise g).2
  | thenTick (g : Game) :
      InPlay width height maxScore getNextTetrominoFunction getScoreAddendFunction g →
      g.status = GameStatus.playGameStatus →
      InPlay width height maxScore getNextTetrominoFunction getScoreAddendFunction (tick g).2

/-- The invariant of a started game with a good generator: the fields hold
values of their C types, the board is at least 4 × 4, the generator is the one
given to `initGame`, and the active and the next shape are good. -/
def PlayInvariant (generator : Nat → NextTetromino → NextTetromino) (g : Game) : Prop :=
  WellTyped g ∧ 4 ≤ g.width ∧ 4 ≤ g.height ∧ g.getNextTetromino = generator ∧
    GoodShape g.activeTetromino.size g.activeTetromino.pixels ∧
    GoodShape g.nextTetromino.size g.nextTetromino.pixels

/-- The 4 × 4 shape whose bottom row is filled with value 1: the flat bar. -/
def flatBarShape : NextTetromino :=
  { size := 4, pixels := [1, 1, 1, 1, 0, 0, 0, 0, 0, 0, 0, 0, 0, 0, 0, 0] }

/-- A generator that always yields the flat bar. -/
def flatBarGenerator : Nat → NextTetromino → NextTetromino := fun _ _ => flatBarShape

/-- The game `initGame(4, 4, 50, ...)` with the generator of flat bars and 100
points per cleaned line, before `startGame`. -/
def flatBarCreated : Game :=
  { status := GameStatus.initGameStatus
    width := 4
    height := 4
    score := 0
    maxScore := 50
    gameField := List.replicate 16 0
    activeTetromino := { size := 0, x := 0, y := 0, pixels := List.replicate 16 0 }
    nextTetromino := { size := 0, pixels := List.replicate 16 0 }
    getNextTetromino := flatBarGenerator
    getScoreAddend := hundredPerLine
    generated := 0
    scoreArgs := [] }

/-- The local cells read by the two sweep loops of
`canActiveTetrominoRotateClockwise` for one source cell, in the order of the
loops (a loop stops at the first occupied cell). -/
def clockwisePath (size sourceX sourceY : Int) : List (Int × Int) :=
  let tetrominoCenter := size - 1
  let relativeSourceX := 2 * sourceX - tetrominoCenter
  let relativeSourceY := 2 * sourceY - tetrominoCenter
  let targetX := (clockwiseTarget size sourceX sourceY).1
  let targetY := (clockwiseTarget size sourceX sourceY).2
  if relativeSourceX > relativeSourceY then
    if fabs relativeSourceX > fabs relativeSourceY then
      (countDown sourceY targetY).map (fun checkY => (sourceX, checkY)) ++
        (countDown sourceX targetX).map (fun checkX => (checkX, targetY))
    else
      (countDown sourceX targetX).map (fun checkX => (checkX, sourceY)) ++
        (countUp sourceY targetY).map (fun checkY => (targetX, checkY))
  else
    if fabs relativeSourceX > fabs relativeSourceY then
      (countUp sourceY targetY).map (fun checkY => (sourceX, checkY)) ++
        (countUp sourceX targetX).map (fun checkX => (checkX, targetY))
    else
      (countUp sourceX targetX).map (fun checkX => (checkX, sourceY)) ++
        (countDown sourceY targetY).map (fun checkY => (targetX, checkY))

/-- The local cells read by the two sweep loops of
`canActiveTetrominoRotateAgainstClockwise` for one source cell. -/
def againstClockwisePath (size sourceX sourceY : Int) : List (Int × Int) :=
  let tetrominoCenter := size - 1
  let relativeSourceX := 2 * sourceX - tetrominoCenter
  let relativeSourceY := 2 * sourceY - tetrominoCenter
  let targetX := (againstClockwiseTarget size sourceX sourceY).1
  let targetY := (againstClockwiseTarget size sourceX sourceY).2
  if relativeSourceX > relativeSourceY then
    if fabs relativeSourceX > fabs relativeSourceY then
      (countUp sourceY targetY).map (fun checkY => (sourceX, checkY)) ++
        (countDown sourceX targetX).map (fun checkX => (checkX, targetY))
    else
      (countUp sourceX targetX).map (fun checkX => (checkX, sourceY)) ++
        (countUp sourceY targetY).map (fun checkY => (targetX, checkY))
  else
    if fabs relativeSourceX > fabs relativeSourceY then
      (countDown sourceY targetY).map (fun checkY => (sourceX, checkY)) ++
        (countUp sourceX targetX).map (fun checkX => (checkX, targetY))
    else
      (countDown sourceX targetX).map (fun checkX => (checkX, sourceY)) ++
        (countDown sourceY targetY).map (fun checkY => (targetX, checkY))

/-- The cell of the board under the local cell `c` of the active tetromino is
empty, at the coordinates as the rotation checks pass them to
`getGameFieldPixel` (narrowed to `int8_t`). -/
def localCellFree (game : Game) (c : Int × Int) : Bool :=
  decide (getGameFieldPixel game (toInt8 (c.1 + game.activeTetromino.x))
    (toInt8 (c.2 + game.activeTetromino.y)) = 0)

/-- Every occupied cell of the `size × size` square of the active tetromino lies
between the walls and not below the floor. -/
def WithinWalls (g : Game) : Prop :=
  ∀ lx : Nat, lx < g.activeTetromino.size.toNat → ∀ ly : Nat, ly < g.activeTetromino.size.toNat →
    flatArrayAs2D g.activeTetromino.pixels lx ly tetrominoMaxSize ≠ 0 →
    0 ≤ g.activeTetromino.x + lx ∧ g.activeTetromino.x + lx < g.width ∧
      0 ≤ g.activeTetromino.y + ly

instance (g : Game) : Decidable (WithinWalls g) := by
  unfold WithinWalls; infer_instance

/-- The 4 × 4 shape whose left column is filled with value 1: the upright bar. -/
def uprightBarShape : NextTetromino :=
  { size := 4, pixels := [1, 0, 0, 0, 1, 0, 0, 0, 1, 0, 0, 0, 1, 0, 0, 0] }

/-- A generator that always yields the upright bar. -/
def uprightBarGenerator : Nat → NextTetromino → NextTetromino := fun _ _ => uprightBarShape

/-- The game `initGame(4, 127, 1000, ...)` with the generator of upright bars,
before `startGame`: the tallest board the type of `height` permits. -/
def tallCreated : Game :=
  { status := GameStatus.initGameStatus
    width := 4
    height := 127
    score := 0
    maxScore := 1000
    gameField := List.replicate 508 0
    activeTetromino := { size := 0, x := 0, y := 0, pixels := List.replicate 16 0 }
    nextTetromino := { size := 0, pixels := List.replicate 16 0 }
    getNextTetromino := uprightBarGenerator
    getScoreAddend := hundredPerLine
    generated := 0
    scoreArgs := [] }

/-! ## Board access lemmas -/

theorem FieldOnly.refl (g : Game) : FieldOnly g g := rfl

theorem FieldOnly.trans {a b c : Game} (h1 : FieldOnly a b) (h2 : FieldOnly b c) : FieldOnly a c := by
  unfold FieldOnly at *
  rw [h2, h1]

theorem FieldOnly.foldl {α : Type} (f : Game → α → Game) (hf : ∀ g a, FieldOnly g (f g a))
    (l : List α) (g : Game) : FieldOnly g (l.foldl f g) := by
  induction l generalizing g with
  | nil => exact FieldOnly.refl g
  | cons a l ih => exact (hf g a).trans (ih (f g a))

theorem setPixel_fieldOnly (g : Game) (p : Nat) (x y : Int) : FieldOnly g (setPixel g p x y) := by
  unfold setPixel FieldOnly
  split_ifs <;> rfl

theorem setPixel_boardOk {g : Game} (hb : BoardOk g) (p : Nat) (x y : Int) :
    BoardOk (setPixel g p x y) := by
  unfold setPixel BoardOk at *
  split_ifs <;> simp [flatArrayAs2DSet, hb]

theorem cellIndex_inj (w x y x' y' : Int) (hx : 0 ≤ x) (hxw : x < w) (hx' : 0 ≤ x') (hxw' : x' < w)
    (hy : 0 ≤ y) (hy' : 0 ≤ y') (h : (y * w + x).toNat = (y' * w + x').toNat) : x = x' ∧ y = y' := by
  have h1 : 0 ≤ y * w := mul_nonneg hy (by omega)
  have h2 : 0 ≤ y' * w := mul_nonneg hy' (by omega)
  have h3 : y * w + x = y' * w + x' := by omega
  rcases lt_trichotomy y y' with hlt | heq | hgt
  · have : (y + 1) * w ≤ y' * w := Int.mul_le_mul_of_nonneg_right (by omega) (by omega)
    have : (y + 1) * w = y * w + w := by ring
    omega
  · subst heq; omega
  · have : (y' + 1) * w ≤ y * w := Int.mul_le_mul_of_nonneg_right (by omega) (by omega)
    have : (y' + 1) * w = y' * w + w := by ring
    omega

theorem cellIndex_lt (w h x y : Int) (hx : 0 ≤ x) (hxw : x < w) (hy : 0 ≤ y) (hyh : y < h) :
    (y * w + x).toNat < (w * h).toNat := by
  have h1 : 0 ≤ y * w := mul_nonneg hy (by omega)
  have : (y + 1) * w ≤ h * w := Int.mul_le_mul_of_nonneg_right (by omega) (by omega)
  have : (y + 1) * w = y * w + w := by ring
  have : h * w = w * h := by ring
  omega

theorem getGameFieldPixel_setPixel {g : Game} (hb : BoardOk g) (p : Nat) (x y X Y : Int) :
    getGameFieldPixel (setPixel g p x y) X Y =
      if X = x ∧ Y = y ∧ InBoard g x y then p else getGameFieldPixel g X Y := by
  unfold BoardOk at hb
  by_cases hin : InBoard g x y
  · obtain ⟨h1, h2, h3, h4⟩ := hin
    have hset : setPixel g p x y =
        { g with gameField := flatArrayAs2DSet g.gameField x y g.width p } := by
      unfold setPixel; simp [not_lt.mpr h1, not_le.mpr h2, not_lt.mpr h3, not_le.mpr h4]
    rw [hset]
    unfold getGameFieldPixel
    simp only [InBoard, h1, h2, h3, h4, and_self, and_true]
    by_cases hX : X < 0 ∨ X ≥ g.width
    · have : ¬ (X = x ∧ Y = y) := by rintro ⟨rfl, rfl⟩; omega
      simp [hX, this]
    by_cases hY : Y < 0
    · have : ¬ (X = x ∧ Y = y) := by rintro ⟨rfl, rfl⟩; omega
      simp [hX, hY, this]
    by_cases hY2 : Y ≥ g.height
    · have : ¬ (X = x ∧ Y = y) := by rintro ⟨rfl, rfl⟩; omega
      simp [hX, hY, hY2, this]
    simp only [hX, hY, hY2, if_false]
    unfold flatArrayAs2D flatArrayAs2DSet
    rw [List.getD_eq_getElem?_getD, List.getD_eq_getElem?_getD, List.getElem?_set]
    by_cases heq : X = x ∧ Y = y
    · obtain ⟨rfl, rfl⟩ := heq
      have := cellIndex_lt g.width g.height X Y h1 h2 h3 h4
      simp [hb, this]
    · have hne : (y * g.width + x).toNat ≠ (Y * g.width + X).toNat := by
        intro h
        have := cellIndex_inj g.width x y X Y h1 h2 (by omega) (by omega) h3 (by omega) h
        exact heq ⟨this.1.symm, this.2.symm⟩
      simp [hne, heq]
  · have hset : setPixel g p x y = g := by
      unfold setPixel InBoard at *
      split_ifs <;> first | rfl | omega
    simp [hset, hin]

theorem mem_cells (n : Nat) (p : Nat × Nat) : p ∈ cells n ↔ p.1 < n ∧ p.2 < n := by
  obtain ⟨x, y⟩ := p
  simp only [cells, List.mem_flatMap, List.mem_map, List.mem_range, Prod.mk.injEq]
  constructor
  · rintro ⟨b, hb, a, ha, rfl, rfl⟩; exact ⟨ha, hb⟩
  · rintro ⟨ha, hb⟩; exact ⟨y, hb, x, ha, rfl, rfl⟩

theorem foldl_nested_aux {β : Type} (f : β → Nat × Nat → β) (xs ys : List Nat) (g : β) :
    ys.foldl (fun g y => xs.foldl (fun g x => f g (x, y)) g) g =
      (ys.flatMap (fun y => xs.map (fun x => (x, y)))).foldl f g := by
  induction ys generalizing g with
  | nil => rfl
  | cons y ys ih =>
    simp only [List.foldl_cons, List.flatMap_cons, List.foldl_append, List.foldl_map]
    exact ih _

theorem foldl_nested {β : Type} (f : β → Nat × Nat → β) (n : Nat) (g : β) :
    (List.range n).foldl (fun g y => (List.range n).foldl (fun g x => f g (x, y)) g) g =
      (cells n).foldl f g :=
  foldl_nested_aux f _ _ g

theorem all_nested (f : Nat × Nat → Bool) (n : Nat) :
    ((List.range n).all (fun y => (List.range n).all (fun x => f (x, y)))) = (cells n).all f := by
  rw [Bool.eq_iff_iff]
  simp only [List.all_eq_true, mem_cells, List.mem_range]
  constructor
  · rintro h ⟨x, y⟩ ⟨hx, hy⟩; exact h y hy x hx
  · intro h y hy x hx; exact h (x, y) ⟨hx, hy⟩

section paintLemmas
variable {α : Type} (c : α → Prop) [DecidablePred c] (v : α → Nat) (px py : α → Int)

theorem paint_fieldOnly (g : Game) (a : α) : FieldOnly g (paint c v px py g a) := by
  unfold paint; split_ifs
  · exact setPixel_fieldOnly _ _ _ _
  · exact FieldOnly.refl g

theorem paint_boardOk {g : Game} (hb : BoardOk g) (a : α) : BoardOk (paint c v px py g a) := by
  unfold paint; split_ifs
  · exact setPixel_boardOk hb _ _ _
  · exact hb

theorem foldl_paint_fieldOnly (l : List α) (g : Game) :
    FieldOnly g (l.foldl (paint c v px py) g) :=
  FieldOnly.foldl _ (paint_fieldOnly c v px py) l g

theorem foldl_paint_boardOk (l : List α) {g : Game} (hb : BoardOk g) :
    BoardOk (l.foldl (paint c v px py) g) := by
  induction l generalizing g with
  | nil => exact hb
  | cons a l ih => exact ih (paint_boardOk c v px py hb a)

theorem foldl_paint_miss (l : List α) {g : Game} (hb : BoardOk g) (X Y : Int)
    (hmiss : ∀ a ∈ l, c a → ¬ (px a = X ∧ py a = Y)) :
    getGameFieldPixel (l.foldl (paint c v px py) g) X Y = getGameFieldPixel g X Y := by
  induction l generalizing g with
  | nil => rfl
  | cons a l ih =>
    rw [List.foldl_cons, ih (paint_boardOk c v px py hb a)
      (fun b hbm => hmiss b (List.mem_cons_of_mem _ hbm))]
    unfold paint
    split_ifs with hc
    · rw [getGameFieldPixel_setPixel hb]
      have := hmiss a (List.mem_cons_self _ _) hc
      rw [if_neg]
      rintro ⟨h1, h2, -⟩
      exact this ⟨h1.symm, h2.symm⟩
    · rfl

theorem foldl_paint_hit (l : List α) {g : Game} (hb : BoardOk g) (X Y : Int) (val : Nat)
    (hin : InBoard g X Y) (hex : ∃ a ∈ l, c a ∧ px a = X ∧ py a = Y)
    (hsame : ∀ b ∈ l, c b → px b = X → py b = Y → v b = val) :
    getGameFieldPixel (l.foldl (paint c v px py) g) X Y = val := by
  induction l generalizing g with
  | nil => obtain ⟨a, ha, -⟩ := hex; cases ha
  | cons b l ih =>
    rw [List.foldl_cons]
    have hb' := paint_boardOk c v px py hb b
    have hfo := paint_fieldOnly c v px py g b
    have hin' : InBoard (paint c v px py g b) X Y := by
      unfold InBoard at *
      rw [congrArg Game.width hfo, congrArg Game.height hfo]
      exact hin
    by_cases hlater : ∃ d ∈ l, c d ∧ px d = X ∧ py d = Y
    · exact ih hb' hin' hlater (fun e he => hsame e (List.mem_cons_of_mem _ he))
    · have hmiss : ∀ d ∈ l, c d → ¬ (px d = X ∧ py d = Y) := by
        intro d hd hcd hxy
        exact hlater ⟨d, hd, hcd, hxy.1, hxy.2⟩
      rw [foldl_paint_miss c v px py l hb' _ _ hmiss]
      obtain ⟨a, ha, hca, hxa, hya⟩ := hex
      have hab : a = b := by
        rcases List.mem_cons.mp ha with h | h
        · exact h
        · exact absurd ⟨hxa, hya⟩ (hmiss a h hca)
      subst hab
      unfold paint
      rw [if_pos hca, getGameFieldPixel_setPixel hb, if_pos ⟨hxa.symm, hya.symm, by rw [hxa, hya]; exact hin⟩]
      exact hsame a (List.mem_cons_self _ _) hca hxa hya

end paintLemmas

theorem push_eq_foldl (g : Game) :
    pushActiveTetrominoInfo g = (cells g.activeTetromino.size.toNat).foldl
      (paint (fun p : Nat × Nat => flatArrayAs2D g.activeTetromino.pixels p.1 p.2 tetrominoMaxSize ≠ 0)
        (fun p => flatArrayAs2D g.activeTetromino.pixels p.1 p.2 tetrominoMaxSize)
        (fun p => toInt8 (g.activeTetromino.x + p.1)) (fun p => toInt8 (g.activeTetromino.y + p.2))) g := by
  rw [← foldl_nested]
  rfl

theorem pop_eq_foldl (g : Game) :
    popActiveTetrominoInfo g = (cells g.activeTetromino.size.toNat).foldl
      (paint (fun p : Nat × Nat => flatArrayAs2D g.activeTetromino.pixels p.1 p.2 tetrominoMaxSize ≠ 0)
        (fun _ => 0)
        (fun p => toInt8 (g.activeTetromino.x + p.1)) (fun p => toInt8 (g.activeTetromino.y + p.2))) g := by
  rw [← foldl_nested]
  rfl

theorem push_fieldOnly (g : Game) : FieldOnly g (pushActiveTetrominoInfo g) := by
  rw [push_eq_foldl]; exact foldl_paint_fieldOnly _ _ _ _ _ _

theorem pop_fieldOnly (g : Game) : FieldOnly g (popActiveTetrominoInfo g) := by
  rw [pop_eq_foldl]; exact foldl_paint_fieldOnly _ _ _ _ _ _

theorem push_boardOk {g : Game} (hb : BoardOk g) : BoardOk (pushActiveTetrominoInfo g) := by
  rw [push_eq_foldl]; exact foldl_paint_boardOk _ _ _ _ _ hb

theorem pop_boardOk {g : Game} (hb : BoardOk g) : BoardOk (popActiveTetrominoInfo g) := by
  rw [pop_eq_foldl]; exact foldl_paint_boardOk _ _ _ _ _ hb

theorem toInt8_of_int8 {v : Int} (h : Int8 v) : toInt8 v = v := by
  unfold Int8 at h; unfold toInt8; omega

/-- A local coordinate added to an `int8_t` offset and narrowed lands on a board
coordinate only when the sum itself is that coordinate. -/
theorem toInt8_offset_eq {o X : Int} {l : Nat} (ho : Int8 o) (hl : (l : Int) ≤ 127)
    (hX0 : 0 ≤ X) (hX1 : X ≤ 127) : toInt8 (o + l) = X ↔ o + l = X := by
  unfold Int8 at ho; unfold toInt8; omega

theorem pieceCell_of_mem {a : ActiveTetromino} {X Y : Int} (p : Nat × Nat)
    (hp : p ∈ cells a.size.toNat) (hx : a.x + p.1 = X) (hy : a.y + p.2 = Y) :
    pieceCell a X Y = flatArrayAs2D a.pixels p.1 p.2 tetrominoMaxSize := by
  rw [mem_cells] at hp
  have h1 : X - a.x = p.1 := by omega
  have h2 : Y - a.y = p.2 := by omega
  unfold pieceCell
  rw [h1, h2, if_pos]
  omega

/-- Board after `pushActiveTetrominoInfo`: the pixels of the tetromino where it
is occupied, the old cell elsewhere. -/
theorem getGameFieldPixel_push {g : Game} (hb : BoardOk g) (hx : Int8 g.activeTetromino.x)
    (hy : Int8 g.activeTetromino.y) (hs : g.activeTetromino.size ≤ 127) (hw : g.width ≤ 127)
    (hh : g.height ≤ 127) {X Y : Int} (hin : InBoard g X Y) :
    getGameFieldPixel (pushActiveTetrominoInfo g) X Y =
      if pieceCell g.activeTetromino X Y ≠ 0 then pieceCell g.activeTetromino X Y
      else getGameFieldPixel g X Y := by
  have hXY := hin
  unfold InBoard at hXY
  have key : ∀ p ∈ cells g.activeTetromino.size.toNat,
      (toInt8 (g.activeTetromino.x + p.1) = X ↔ g.activeTetromino.x + p.1 = X) ∧
      (toInt8 (g.activeTetromino.y + p.2) = Y ↔ g.activeTetromino.y + p.2 = Y) := by
    intro p hp
    rw [mem_cells] at hp
    exact ⟨toInt8_offset_eq hx (by omega) (by omega) (by omega),
      toInt8_offset_eq hy (by omega) (by omega) (by omega)⟩
  rw [push_eq_foldl]
  split_ifs with hc
  · apply foldl_paint_hit _ _ _ _ _ hb X Y _ hin
    · refine ⟨((X - g.activeTetromino.x).toNat, (Y - g.activeTetromino.y).toNat), ?_, ?_, ?_, ?_⟩
      · unfold pieceCell at hc
        split_ifs at hc with h
        · rw [mem_cells]; simp only; omega
        · exact absurd rfl hc
      · unfold pieceCell at hc
        split_ifs at hc with h
        · simp only
          rw [Int.toNat_of_nonneg h.1, Int.toNat_of_nonneg h.2.2.1]
          exact hc
        · exact absurd rfl hc
      · unfold pieceCell at hc
        split_ifs at hc with h
        · simp only
          rw [Int.toNat_of_nonneg h.1]
          rw [show g.activeTetromino.x + (X - g.activeTetromino.x) = X by ring]
          unfold toInt8; omega
        · exact absurd rfl hc
      · unfold pieceCell at hc
        split_ifs at hc with h
        · simp only
          rw [Int.toNat_of_nonneg h.2.2.1]
          rw [show g.activeTetromino.y + (Y - g.activeTetromino.y) = Y by ring]
          unfold toInt8; omega
        · exact absurd rfl hc
    · intro b hbm _ hbx hby
      exact (pieceCell_of_mem b hbm ((key b hbm).1.mp hbx) ((key b hbm).2.mp hby)).symm
  · apply foldl_paint_miss _ _ _ _ _ hb
    intro b hbm hcb hxy
    apply hc
    rw [pieceCell_of_mem b hbm ((key b hbm).1.mp hxy.1) ((key b hbm).2.mp hxy.2)]
    exact hcb

/-- Board after `popActiveTetrominoInfo`: empty where the tetromino is occupied,
the old cell elsewhere. -/
theorem getGameFieldPixel_pop {g : Game} (hb : BoardOk g) (hx : Int8 g.activeTetromino.x)
    (hy : Int8 g.activeTetromino.y) (hs : g.activeTetromino.size ≤ 127) (hw : g.width ≤ 127)
    (hh : g.height ≤ 127) {X Y : Int} (hin : InBoard g X Y) :
    getGameFieldPixel (popActiveTetrominoInfo g) X Y =
      if pieceCell g.activeTetromino X Y ≠ 0 then 0 else getGameFieldPixel g X Y := by
  have hXY := hin
  unfold InBoard at hXY
  have key : ∀ p ∈ cells g.activeTetromino.size.toNat,
      (toInt8 (g.activeTetromino.x + p.1) = X ↔ g.activeTetromino.x + p.1 = X) ∧
      (toInt8 (g.activeTetromino.y + p.2) = Y ↔ g.activeTetromino.y + p.2 = Y) := by
    intro p hp
    rw [mem_cells] at hp
    exact ⟨toInt8_offset_eq hx (by omega) (by omega) (by omega),
      toInt8_offset_eq hy (by omega) (by omega) (by omega)⟩
  rw [pop_eq_foldl]
  split_ifs with hc
  · apply foldl_paint_hit _ _ _ _ _ hb X Y _ hin
    · refine ⟨((X - g.activeTetromino.x).toNat, (Y - g.activeTetromino.y).toNat), ?_, ?_, ?_, ?_⟩
      · unfold pieceCell at hc
        split_ifs at hc with h
        · rw [mem_cells]; simp only; omega
        · exact absurd rfl hc
      · unfold pieceCell at hc
        split_ifs at hc with h
        · simp only
          rw [Int.toNat_of_nonneg h.1, Int.toNat_of_nonneg h.2.2.1]
          exact hc
        · exact absurd rfl hc
      · unfold pieceCell at hc
        split_ifs at hc with h
        · simp only
          rw [Int.toNat_of_nonneg h.1]
          rw [show g.activeTetromino.x + (X - g.activeTetromino.x) = X by ring]
          unfold toInt8; omega
        · exact absurd rfl hc
      · unfold pieceCell at hc
        split_ifs at hc with h
        · simp only
          rw [Int.toNat_of_nonneg h.2.2.1]
          rw [show g.activeTetromino.y + (Y - g.activeTetromino.y) = Y by ring]
          unfold toInt8; omega
        · exact absurd rfl hc
    · intro b _ _ _ _
      rfl
  · apply foldl_paint_miss _ _ _ _ _ hb
    intro b hbm hcb hxy
    apply hc
    rw [pieceCell_of_mem b hbm ((key b hbm).1.mp hxy.1) ((key b hbm).2.mp hxy.2)]
    exact hcb

theorem FieldOnly.frameInput {g r : Game} (h : FieldOnly g r) : FrameInput g r := by
  unfold FieldOnly at h; unfold FrameInput
  rw [h]

theorem FrameInput.id_frame (g : Game) : FrameInput g g := rfl

theorem FrameInput.comp {a b c : Game} (h1 : FrameInput a b) (h2 : FrameInput b c) :
    FrameInput a c := by
  unfold FrameInput at *
  rw [h2, h1]

theorem FrameInput.setActive (g : Game) (a : ActiveTetromino) :
    FrameInput g { g with activeTetromino := a } := rfl

theorem moveActiveTetrominoDown_frame (g : Game) : FrameInput g (moveActiveTetrominoDown g).2 := by
  unfold moveActiveTetrominoDown
  simp only []
  split_ifs
  · exact ((pop_fieldOnly g).frameInput.comp (FrameInput.setActive _ _)).comp
      (push_fieldOnly _).frameInput
  · exact (pop_fieldOnly g).frameInput.comp (push_fieldOnly _).frameInput

theorem moveLeft_frame (g : Game) : FrameInput g (moveLeft g).2 := by
  unfold moveLeft
  simp only []
  split_ifs
  · exact ((pop_fieldOnly g).frameInput.comp (FrameInput.setActive _ _)).comp
      (push_fieldOnly _).frameInput
  · exact (pop_fieldOnly g).frameInput.comp (push_fieldOnly _).frameInput

theorem moveRight_frame (g : Game) : FrameInput g (moveRight g).2 := by
  unfold moveRight
  simp only []
  split_ifs
  · exact ((pop_fieldOnly g).frameInput.comp (FrameInput.setActive _ _)).comp
      (push_fieldOnly _).frameInput
  · exact (pop_fieldOnly g).frameInput.comp (push_fieldOnly _).frameInput

theorem rotateClockwise_frame (g : Game) : FrameInput g (rotateClockwise g).2 := by
  unfold rotateClockwise
  simp only []
  split_ifs
  · exact ((pop_fieldOnly g).frameInput.comp (FrameInput.setActive _ _)).comp
      (push_fieldOnly _).frameInput
  · exact (pop_fieldOnly g).frameInput.comp (push_fieldOnly _).frameInput

theorem rotateAgainstClockwise_frame (g : Game) : FrameInput g (rotateAgainstClockwise g).2 := by
  unfold rotateAgainstClockwise
  simp only []
  split_ifs
  · exact ((pop_fieldOnly g).frameInput.comp (FrameInput.setActive _ _)).comp
      (push_fieldOnly _).frameInput
  · exact (pop_fieldOnly g).frameInput.comp (push_fieldOnly _).frameInput

theorem cleanLinesLoop_fieldOnly (n : Nat) (g : Game) (c : Int) :
    FieldOnly g (cleanLinesLoop n g c).2 := by
  induction n generalizing g c with
  | zero => exact FieldOnly.refl g
  | succ n ih =>
    unfold cleanLinesLoop
    simp only []
    split_ifs
    · exact FieldOnly.trans (show FieldOnly g (shiftLinesDown g _) from rfl) (ih _ _)
    · exact ih _ _

theorem cleanLines_fieldOnly (g : Game) : FieldOnly g (cleanLines g).2 :=
  cleanLinesLoop_fieldOnly _ g 0

/-- The score after `tick` is the cap, or the old score, or the checked sum. -/
theorem tick_score_le (g : Game) (h : g.score ≤ g.maxScore) :
    (tick g).2.score ≤ (tick g).2.maxScore ∧ (tick g).2.maxScore = g.maxScore := by
  have h1 := moveActiveTetrominoDown_frame g
  have h2 := cleanLines_fieldOnly (moveActiveTetrominoDown g).2
  have hs1 := congrArg Game.score h1
  have hm1 := congrArg Game.maxScore h1
  have hs2 := congrArg Game.score h2
  have hm2 := congrArg Game.maxScore h2
  simp only [] at hs1 hm1 hs2 hm2
  unfold tick
  simp only []
  split_ifs with ha hb hc
  · simp only [hs1, hm1, h, and_self]
  · simp only [hm2, hm1, le_refl, and_self]
  · simp only [hm2, hm1, hs2, hs1, and_true] at hc ⊢
    omega
  · simp only [hs1, hm1, h, and_self]

theorem FieldOnly.status_eq {g r : Game} (h : FieldOnly g r) : r.status = g.status :=
  (congrArg Game.status (show r = _ from h) : _)

theorem FieldOnly.width_eq {g r : Game} (h : FieldOnly g r) : r.width = g.width :=
  (congrArg Game.width (show r = _ from h) : _)

theorem FieldOnly.height_eq {g r : Game} (h : FieldOnly g r) : r.height = g.height :=
  (congrArg Game.height (show r = _ from h) : _)

theorem FieldOnly.score_eq {g r : Game} (h : FieldOnly g r) : r.score = g.score :=
  (congrArg Game.score (show r = _ from h) : _)

theorem FieldOnly.maxScore_eq {g r : Game} (h : FieldOnly g r) : r.maxScore = g.maxScore :=
  (congrArg Game.maxScore (show r = _ from h) : _)

theorem FieldOnly.activeTetromino_eq {g r : Game} (h : FieldOnly g r) : r.activeTetromino = g.activeTetromino :=
  (congrArg Game.activeTetromino (show r = _ from h) : _)

theorem FieldOnly.nextTetromino_eq {g r : Game} (h : FieldOnly g r) : r.nextTetromino = g.nextTetromino :=
  (congrArg Game.nextTetromino (show r = _ from h) : _)

theorem FieldOnly.getNextTetromino_eq {g r : Game} (h : FieldOnly g r) : r.getNextTetromino = g.getNextTetromino :=
  (congrArg Game.getNextTetromino (show r = _ from h) : _)

theorem FieldOnly.getScoreAddend_eq {g r : Game} (h : FieldOnly g r) : r.getScoreAddend = g.getScoreAddend :=
  (congrArg Game.getScoreAddend (show r = _ from h) : _)

theorem FieldOnly.generated_eq {g r : Game} (h : FieldOnly g r) : r.generated = g.generated :=
  (congrArg Game.generated (show r = _ from h) : _)

theorem FieldOnly.scoreArgs_eq {g r : Game} (h : FieldOnly g r) : r.scoreArgs = g.scoreArgs :=
  (congrArg Game.scoreArgs (show r = _ from h) : _)

theorem FrameInput.status_kept {g r : Game} (h : FrameInput g r) : r.status = g.status :=
  (congrArg Game.status (show r = _ from h) : _)

theorem FrameInput.width_kept {g r : Game} (h : FrameInput g r) : r.width = g.width :=
  (congrArg Game.width (show r = _ from h) : _)

theorem FrameInput.height_kept {g r : Game} (h : FrameInput g r) : r.height = g.height :=
  (congrArg Game.height (show r = _ from h) : _)

theorem FrameInput.score_kept {g r : Game} (h : FrameInput g r) : r.score = g.score :=
  (congrArg Game.score (show r = _ from h) : _)

theorem FrameInput.maxScore_kept {g r : Game} (h : FrameInput g r) : r.maxScore = g.maxScore :=
  (congrArg Game.maxScore (show r = _ from h) : _)

theorem FrameInput.nextTetromino_kept {g r : Game} (h : FrameInput g r) : r.nextTetromino = g.nextTetromino :=
  (congrArg Game.nextTetromino (show r = _ from h) : _)

theorem FrameInput.getNextTetromino_kept {g r : Game} (h : FrameInput g r) : r.getNextTetromino = g.getNextTetromino :=
  (congrArg Game.getNextTetromino (show r = _ from h) : _)

theorem FrameInput.getScoreAddend_kept {g r : Game} (h : FrameInput g r) : r.getScoreAddend = g.getScoreAddend :=
  (congrArg Game.getScoreAddend (show r = _ from h) : _)

theorem FrameInput.generated_kept {g r : Game} (h : FrameInput g r) : r.generated = g.generated :=
  (congrArg Game.generated (show r = _ from h) : _)

theorem FrameInput.scoreArgs_kept {g r : Game} (h : FrameInput g r) : r.scoreArgs = g.scoreArgs :=
  (congrArg Game.scoreArgs (show r = _ from h) : _)

theorem isActiveTetrominoInGameBoard_eq_one_iff (g : Game) :
    isActiveTetrominoInGameBoard g = 1 ↔ BelowTop g := by
  unfold isActiveTetrominoInGameBoard BelowTop
  simp only [List.all_reverse, List.all_eq_true, List.mem_range]
  simp only [Bool.not_eq_true', Bool.and_eq_false_imp, decide_eq_true_eq]
  simp only [decide_eq_false_iff_not, not_le]
  constructor
  · intro h lx ly hx hy hp
    split_ifs at h with h'
    exact h' ly (by omega) lx (by omega) hp
  · intro h
    rw [if_pos]
    intro y hy x hx hp
    exact h x y (by omega) (by omega) hp

theorem isActiveTetrominoInGameBoard_eq_zero_iff (g : Game) :
    isActiveTetrominoInGameBoard g = 0 ↔ ¬ BelowTop g := by
  rw [← isActiveTetrominoInGameBoard_eq_one_iff]
  unfold isActiveTetrominoInGameBoard
  split_ifs <;> simp

theorem isActiveTetrominoInGameBoard_congr {g r : Game}
    (ha : r.activeTetromino = g.activeTetromino) (hh : r.height = g.height) :
    isActiveTetrominoInGameBoard r = isActiveTetrominoInGameBoard g := by
  unfold isActiveTetrominoInGameBoard
  rw [ha, hh]

theorem moveActiveTetrominoDown_blocked {g : Game}
    (h : canActiveTetrominoMoveDown (popActiveTetrominoInfo g) = 0) :
    moveActiveTetrominoDown g = (0, pushActiveTetrominoInfo (popActiveTetrominoInfo g)) := by
  unfold moveActiveTetrominoDown
  simp only [h, ne_eq, not_true_eq_false, if_false]

theorem moveActiveTetrominoDown_free {g : Game}
    (h : canActiveTetrominoMoveDown (popActiveTetrominoInfo g) ≠ 0) :
    moveActiveTetrominoDown g = (1, pushActiveTetrominoInfo
      { popActiveTetrominoInfo g with
        activeTetromino := { (popActiveTetrominoInfo g).activeTetromino with
          y := toInt8 ((popActiveTetrominoInfo g).activeTetromino.y - 1) } }) := by
  unfold moveActiveTetrominoDown
  simp only [h, ne_eq, not_false_eq_true, if_true]

theorem landed_fieldOnly (g : Game) : FieldOnly g (landed g) :=
  (pop_fieldOnly g).trans (push_fieldOnly _)

theorem tick_lost {g : Game} (h : canActiveTetrominoMoveDown (popActiveTetrominoInfo g) = 0)
    (htop : ¬ BelowTop g) :
    tick g = (3, { landed g with status := GameStatus.endPlayerLoose }) := by
  have hfo := landed_fieldOnly g
  have h0 : isActiveTetrominoInGameBoard (landed g) = 0 := by
    rw [isActiveTetrominoInGameBoard_congr hfo.activeTetromino_eq hfo.height_eq]
    exact (isActiveTetrominoInGameBoard_eq_zero_iff g).mpr htop
  unfold tick
  simp only [moveActiveTetrominoDown_blocked h]
  unfold landed at h0
  simp only [h0, if_true]
  rfl

theorem tick_landed {g : Game} (h : canActiveTetrominoMoveDown (popActiveTetrominoInfo g) = 0)
    (htop : BelowTop g) :
    tick g =
      if (g.score + g.getScoreAddend (cleanLines (landed g)).1 % 4294967296) % 4294967296 < g.score ∨
          (g.score + g.getScoreAddend (cleanLines (landed g)).1 % 4294967296) % 4294967296 >
            g.maxScore then
        (2, { (cleanLines (landed g)).2 with
              scoreArgs := g.scoreArgs ++ [(cleanLines (landed g)).1]
              score := g.maxScore
              status := GameStatus.endMaxScoreStatus })
      else
        (1, { (cleanLines (landed g)).2 with
              scoreArgs := g.scoreArgs ++ [(cleanLines (landed g)).1]
              score := (g.score + g.getScoreAddend (cleanLines (landed g)).1 % 4294967296) %
                4294967296
              activeTetromino :=
                { size := g.nextTetromino.size
                  x := toInt8 (g.width.tdiv 2 - tetrominoMaxSize.tdiv 2)
                  y := g.height
                  pixels := g.nextTetromino.pixels }
              nextTetromino := g.getNextTetromino g.generated
                { g.nextTetromino with pixels := g.activeTetromino.pixels }
              generated := g.generated + 1 }) := by
  have hfo := landed_fieldOnly g
  have hfc := cleanLines_fieldOnly (landed g)
  have h1 : isActiveTetrominoInGameBoard (landed g) ≠ 0 := by
    rw [isActiveTetrominoInGameBoard_congr hfo.activeTetromino_eq hfo.height_eq,
      (isActiveTetrominoInGameBoard_eq_one_iff g).mpr htop]
    decide
  have hall := hfo.trans hfc
  unfold tick
  simp only [moveActiveTetrominoDown_blocked h]
  unfold landed at h1 hall ⊢
  simp only [h1, if_false, if_true]
  simp only [hall.score_eq, hall.maxScore_eq, hall.getScoreAddend_eq, hall.width_eq,
    hall.height_eq, hall.nextTetromino_eq, hall.activeTetromino_eq, hall.getNextTetromino_eq,
    hall.generated_eq, hall.scoreArgs_eq, hall.status_eq]

theorem tick_moved {g : Game} (h : canActiveTetrominoMoveDown (popActiveTetrominoInfo g) ≠ 0) :
    tick g = (0, (moveActiveTetrominoDown g).2) := by
  unfold tick
  simp only [moveActiveTetrominoDown_free h]
  simp

theorem initGame_createdGame :
    initGame 10 20 1000 squareGenerator hundredPerLine zeroHeap = some createdGame := rfl

/-- C1. Score cap invariant: in every state reachable from `initGame` by any
sequence of `startGame`, `moveLeft`, `moveRight`, `rotateClockwise`,
`rotateAgainstClockwise` and `tick`, for every score function and every shape
generator, `score ≤ maxScore`, both being unsigned 32-bit values. -/
theorem score_le_maxScore_of_reachable (width height maxScore : Int)
    (getNextTetrominoFunction : Nat → NextTetromino → NextTetromino)
    (getScoreAddendFunction : Int → Nat) (g : Game)
    (h : Reachable width height maxScore getNextTetrominoFunction getScoreAddendFunction g) :
    g.score ≤ g.maxScore ∧ g.score < 4294967296 ∧ g.maxScore < 4294967296 := by
  suffices hs : g.score ≤ g.maxScore ∧ g.maxScore < 4294967296 by omega
  induction h with
  | init heap g hg =>
    unfold initGame at hg
    cases heap with
    | none => cases hg
    | some p =>
      obtain ⟨a, n⟩ := p
      simp only [Option.some.injEq] at hg
      subst hg
      simp only [zero_le, true_and]
      omega
  | start g _ ih => exact ih
  | left g _ ih =>
    rw [(moveLeft_frame g).score_kept, (moveLeft_frame g).maxScore_kept]; exact ih
  | right g _ ih =>
    rw [(moveRight_frame g).score_kept, (moveRight_frame g).maxScore_kept]; exact ih
  | clockwise g _ ih =>
    rw [(rotateClockwise_frame g).score_kept, (rotateClockwise_frame g).maxScore_kept]; exact ih
  | againstClockwise g _ ih =>
    rw [(rotateAgainstClockwise_frame g).score_kept, (rotateAgainstClockwise_frame g).maxScore_kept]
    exact ih
  | tick g _ ih =>
    have := tick_score_le g ih.1
    exact ⟨this.1, by rw [this.2]; exact ih.2⟩

/-- Witness of C1: the state after `initGame`, `startGame` and one `tick` of the
host example. -/
theorem score_le_maxScore_of_reachable_witness :
    (tick (startGame createdGame)).2.score ≤ (tick (startGame createdGame)).2.maxScore ∧
      (tick (startGame createdGame)).2.score < 4294967296 ∧
      (tick (startGame createdGame)).2.maxScore < 4294967296 :=
  score_le_maxScore_of_reachable 10 20 1000 squareGenerator hundredPerLine _
    (Reachable.tick _ (Reachable.start _ (Reachable.init zeroHeap _ initGame_createdGame)))

/-- C4. Boundary rule of `getGameFieldPixel`: the result is 1 (occupied) when
`x < 0` or `x ≥ width`; otherwise 1 when `y < 0`; otherwise 0 (empty) when
`y ≥ height`; otherwise the stored cell at `(x, y)`.  Outside the board the
result is the same for every board of the same dimensions, and a position
diagonally above the board (`x` out of range, `y ≥ height`) is occupied. -/
theorem getGameFieldPixel_boundary (g : Game) (x y : Int) :
    ((x < 0 ∨ x ≥ g.width) → getGameFieldPixel g x y = 1) ∧
    (0 ≤ x → x < g.width → y < 0 → getGameFieldPixel g x y = 1) ∧
    (0 ≤ x → x < g.width → 0 ≤ y → y ≥ g.height → getGameFieldPixel g x y = 0) ∧
    (InBoard g x y → getGameFieldPixel g x y = g.gameField.getD (y * g.width + x).toNat 0) ∧
    (∀ r : Game, r.width = g.width → r.height = g.height → ¬ InBoard g x y →
      getGameFieldPixel r x y = getGameFieldPixel g x y) ∧
    ((x < 0 ∨ x ≥ g.width) → y ≥ g.height → getGameFieldPixel g x y ≠ 0) := by
  unfold getGameFieldPixel InBoard flatArrayAs2D
  refine ⟨?_, ?_, ?_, ?_, ?_, ?_⟩
  · intro h; rw [if_pos h]
  · intro h1 h2 h3
    rw [if_neg (by omega), if_pos h3]
  · intro h1 h2 h3 h4
    rw [if_neg (by omega), if_neg (by omega), if_pos h4]
  · rintro ⟨h1, h2, h3, h4⟩
    rw [if_neg (by omega), if_neg (by omega), if_neg (by omega)]
  · intro r hw hh hout
    rw [hw, hh]
    split_ifs <;> first | rfl | omega
  · intro h _
    rw [if_pos h]; decide

theorem landed_boardOk {g : Game} (hb : BoardOk g) : BoardOk (landed g) :=
  push_boardOk (pop_boardOk hb)

/-- Board of the landed state: the pixels of the tetromino where it is occupied,
the cell of the board elsewhere. -/
theorem getGameFieldPixel_landed {g : Game} (hty : WellTyped g) {X Y : Int} (hin : InBoard g X Y) :
    getGameFieldPixel (landed g) X Y =
      if pieceCell g.activeTetromino X Y ≠ 0 then pieceCell g.activeTetromino X Y
      else getGameFieldPixel g X Y := by
  obtain ⟨hw, hh, hs, hx, hy, -, -, -, hb, -, -⟩ := hty
  have hfo := pop_fieldOnly g
  have hin' : InBoard (popActiveTetrominoInfo g) X Y := by
    unfold InBoard at *
    rw [hfo.width_eq, hfo.height_eq]; exact hin
  unfold landed
  rw [getGameFieldPixel_push (pop_boardOk hb) (by rw [hfo.activeTetromino_eq]; exact hx)
    (by rw [hfo.activeTetromino_eq]; exact hy) (by rw [hfo.activeTetromino_eq]; exact hs.2)
    (by rw [hfo.width_eq]; exact hw.2) (by rw [hfo.height_eq]; exact hh.2) hin',
    hfo.activeTetromino_eq, getGameFieldPixel_pop hb hx hy hs.2 hw.2 hh.2 hin]
  split_ifs <;> rfl

/-- C6. Win by cap: for every state (values of the C types) in which the active
tetromino cannot move down and lies entirely below the top of the board, with
delta the result of the score function for the cleared-row count, `tick`
returns 2, sets `score = maxScore` and `status = endMaxScoreStatus` if and only
if `score + delta`, taken as natural numbers, exceeds `maxScore`; in that case
the active and the next tetromino are not replaced and the generator is not
called. -/
theorem tick_wonMaxScore_iff (g : Game) (hs : g.score < 4294967296)
    (hm : g.maxScore < 4294967296)
    (hdown : canActiveTetrominoMoveDown (popActiveTetrominoInfo g) = 0) (htop : BelowTop g) :
    (((tick g).1 = 2 ∧ (tick g).2.score = g.maxScore ∧
        (tick g).2.status = GameStatus.endMaxScoreStatus) ↔
      g.score + g.getScoreAddend (cleanLines (landed g)).1 % 4294967296 > g.maxScore) ∧
    (g.score + g.getScoreAddend (cleanLines (landed g)).1 % 4294967296 > g.maxScore →
      (tick g).2.activeTetromino = g.activeTetromino ∧
      (tick g).2.nextTetromino = g.nextTetromino ∧ (tick g).2.generated = g.generated) := by
  have hall := (landed_fieldOnly g).trans (cleanLines_fieldOnly (landed g))
  rw [tick_landed hdown htop]
  have hd : g.getScoreAddend (cleanLines (landed g)).1 % 4294967296 < 4294967296 :=
    Nat.mod_lt _ (by decide)
  generalize g.getScoreAddend (cleanLines (landed g)).1 % 4294967296 = delta at hd ⊢
  have hcond : ((g.score + delta) % 4294967296 < g.score ∨
      (g.score + delta) % 4294967296 > g.maxScore) ↔ g.score + delta > g.maxScore := by
    omega
  by_cases hc : g.score + delta > g.maxScore
  · rw [if_pos (hcond.mpr hc)]
    simp only [hc, and_self, true_iff, iff_true, forall_true_left, true_and]
    exact ⟨hall.activeTetromino_eq, hall.nextTetromino_eq, hall.generated_eq⟩
  · rw [if_neg (fun h => hc (hcond.mp h))]
    simp only [hc, iff_false, false_implies, and_true]
    intro h
    exact absurd h.1 (by decide)

/-- Witness of C6: score `maxScore - 1` and a delta of 5. -/
theorem tick_wonMaxScore_iff_witness :
    (tick capGame).1 = 2 ∧ (tick capGame).2.score = capGame.maxScore ∧
      (tick capGame).2.status = GameStatus.endMaxScoreStatus :=
  (tick_wonMaxScore_iff capGame (by decide) (by decide) (by decide)
    ((isActiveTetrominoInGameBoard_eq_one_iff capGame).mp (by decide))).1.mpr (by decide)

/-- C7. Loss by top-out: for every state (values of the C types) in which the
active tetromino cannot move down and at least one of its occupied cells has
absolute row `y + ly ≥ height`, `tick` returns 3 and sets
`status = endPlayerLoose`; the score, the active tetromino, the next tetromino
and the records of the callbacks are unchanged, no row is cleared, and every
cell of the board holds the pixel of the tetromino where the tetromino is
occupied and its old value elsewhere. -/
theorem tick_lostTopOut (g : Game) (hty : WellTyped g)
    (hdown : canActiveTetrominoMoveDown (popActiveTetrominoInfo g) = 0)
    (htop : ∃ lx ly : Nat, (lx : Int) < g.activeTetromino.size ∧
      (ly : Int) < g.activeTetromino.size ∧
      flatArrayAs2D g.activeTetromino.pixels lx ly tetrominoMaxSize ≠ 0 ∧
      g.activeTetromino.y + ly ≥ g.height) :
    (tick g).1 = 3 ∧ (tick g).2.status = GameStatus.endPlayerLoose ∧
    (tick g).2.score = g.score ∧ (tick g).2.maxScore = g.maxScore ∧
    (tick g).2.activeTetromino = g.activeTetromino ∧
    (tick g).2.nextTetromino = g.nextTetromino ∧
    (tick g).2.generated = g.generated ∧ (tick g).2.scoreArgs = g.scoreArgs ∧
    (tick g).2.width = g.width ∧ (tick g).2.height = g.height ∧
    (tick g).2.gameField.length = g.gameField.length ∧
    (∀ X Y : Int, InBoard g X Y →
      getGameFieldPixel (tick g).2 X Y =
        if pieceCell g.activeTetromino X Y ≠ 0 then pieceCell g.activeTetromino X Y
        else getGameFieldPixel g X Y) := by
  have hntop : ¬ BelowTop g := by
    obtain ⟨lx, ly, h1, h2, h3, h4⟩ := htop
    intro hb
    have := hb lx ly h1 h2 h3
    omega
  have hfo := landed_fieldOnly g
  have hbl := landed_boardOk hty.2.2.2.2.2.2.2.2.1
  rw [tick_lost hdown hntop]
  refine ⟨rfl, rfl, hfo.score_eq, hfo.maxScore_eq, hfo.activeTetromino_eq, hfo.nextTetromino_eq,
    hfo.generated_eq, hfo.scoreArgs_eq, hfo.width_eq, hfo.height_eq, ?_, ?_⟩
  · have hb := hty.2.2.2.2.2.2.2.2.1
    unfold BoardOk at hb hbl
    simp only
    rw [hbl, hb, hfo.width_eq, hfo.height_eq]
  · intro X Y hin
    rw [← getGameFieldPixel_landed hty hin]
    rfl

/-- Witness of C7: the square resting on a stack with its upper row above the board. -/
theorem tick_lostTopOut_witness :
    (tick topOutGame).1 = 3 ∧ (tick topOutGame).2.status = GameStatus.endPlayerLoose ∧
      (tick topOutGame).2.score = 300 :=
  have h := tick_lostTopOut topOutGame (by decide) (by decide) ⟨0, 1, by decide⟩
  ⟨h.1, h.2.1, h.2.2.1⟩

theorem memset_memmove_rows (F : List Nat) (W H y : Nat) (hlen : F.length = W * H) (hy : y < H) :
    memset (memmove F (y * W) ((y + 1) * W) ((H - y - 1) * W)) ((H - 1) * W) 0 W =
      F.take (y * W) ++ F.drop ((y + 1) * W) ++ List.replicate W 0 := by
  have e1 : (y + 1) * W + (H - y - 1) * W = W * H := by
    rw [← Nat.add_mul, Nat.mul_comm]; congr 1; omega
  have e3 : (H - 1) * W + W = W * H := by
    have : H - 1 + 1 = H := by omega
    calc (H - 1) * W + W = (H - 1 + 1) * W := by ring
      _ = W * H := by rw [this, Nat.mul_comm]
  have e4 : y * W + (H - y - 1) * W = (H - 1) * W := by
    rw [← Nat.add_mul]; congr 1; omega
  have e5 : y * W + W = (y + 1) * W := by ring
  have hdl : (F.drop ((y + 1) * W)).length = (H - y - 1) * W := by
    rw [List.length_drop, hlen]; omega
  have htl : (F.take (y * W)).length = y * W := by
    rw [List.length_take, hlen]; omega
  have hA : (F.take (y * W) ++ F.drop ((y + 1) * W)).length = (H - 1) * W := by
    rw [List.length_append, htl, hdl, e4]
  have hlast : (F.drop ((H - 1) * W)).length = W := by
    rw [List.length_drop, hlen]; omega
  have hd : List.drop ((H - 1) * W + W)
      (F.take (y * W) ++ F.drop ((y + 1) * W) ++ F.drop ((H - 1) * W)) = [] :=
    List.drop_of_length_le (by rw [List.length_append, hA, hlast])
  unfold memmove
  rw [List.take_of_length_le (le_of_eq hdl), e4]
  unfold memset
  rw [List.take_left' hA, hd, List.append_nil]

theorem getD_shifted_rows (F : List Nat) (W H y x Y : Nat) (hlen : F.length = W * H) (hy : y < H)
    (hx : x < W) (hY : Y < H) :
    (F.take (y * W) ++ F.drop ((y + 1) * W) ++ List.replicate W 0).getD (Y * W + x) 0 =
      if Y < y then F.getD (Y * W + x) 0
      else if Y + 1 < H then F.getD ((Y + 1) * W + x) 0 else 0 := by
  have hyW : (y + 1) * W ≤ W * H := by
    rw [Nat.mul_comm W H]; exact Nat.mul_le_mul_right W hy
  have e5 : (y + 1) * W = y * W + W := by ring
  have e6 : (Y + 1) * W = Y * W + W := by ring
  have htl : (F.take (y * W)).length = y * W := by
    rw [List.length_take, hlen]; omega
  have hdl : (F.drop ((y + 1) * W)).length = W * H - (y + 1) * W := by
    rw [List.length_drop, hlen]
  simp only [List.getD_eq_getElem?_getD]
  by_cases h1 : Y < y
  · have : (Y + 1) * W ≤ y * W := Nat.mul_le_mul_right W h1
    rw [if_pos h1, List.append_assoc, List.getElem?_append_left (by omega),
      List.getElem?_take_of_lt (by omega)]
  · rw [if_neg h1]
    have hge : y * W ≤ Y * W := Nat.mul_le_mul_right W (by omega)
    by_cases h2 : Y + 1 < H
    · have : (Y + 2) * W ≤ H * W := Nat.mul_le_mul_right W (by omega)
      have e7 : (Y + 2) * W = Y * W + W + W := by ring
      have e8 : H * W = W * H := Nat.mul_comm _ _
      rw [if_pos h2, List.append_assoc, List.getElem?_append_right (by omega),
        List.getElem?_append_left (by omega), List.getElem?_drop, htl]
      congr 2
      omega
    · have hYH : Y = H - 1 := by omega
      have e9 : (H - 1) * W + W = W * H := by
        have : H - 1 + 1 = H := by omega
        calc (H - 1) * W + W = (H - 1 + 1) * W := by ring
          _ = W * H := by rw [this, Nat.mul_comm]
      subst hYH
      rw [if_neg h2, List.getElem?_append_right (by rw [List.length_append, htl, hdl]; omega)]
      rw [List.getElem?_replicate, if_pos (by rw [List.length_append, htl, hdl]; omega)]
      rfl

theorem shiftLinesDown_fieldOnly (g : Game) (y : Int) : FieldOnly g (shiftLinesDown g y) := rfl

theorem shiftLinesDown_gameField {g : Game} (hb : BoardOk g) (hw : 0 ≤ g.width) {y : Nat}
    (hy : y < g.height.toNat) :
    (shiftLinesDown g y).gameField =
      g.gameField.take (y * g.width.toNat) ++ g.gameField.drop ((y + 1) * g.width.toNat) ++
        List.replicate g.width.toNat 0 := by
  unfold BoardOk at hb
  obtain ⟨W, hW⟩ := Int.eq_ofNat_of_zero_le hw
  obtain ⟨H, hH⟩ := Int.eq_ofNat_of_zero_le (show 0 ≤ g.height by omega)
  rw [hW, hH] at hb
  rw [hH] at hy
  simp only [Int.toNat_ofNat] at hy
  have i1 : ((y : Int) * (W : Int) + 0).toNat = y * W := by
    rw [add_zero, ← Nat.cast_mul, Int.toNat_ofNat]
  have i2 : (((y : Int) + 1) * (W : Int) + 0).toNat = (y + 1) * W := by
    rw [add_zero, ← Nat.cast_one, ← Nat.cast_add, ← Nat.cast_mul, Int.toNat_ofNat]
  have i3 : (((H : Int) - (y : Int) - 1) * (W : Int)).toNat = (H - y - 1) * W := by
    rw [show (H : Int) - (y : Int) - 1 = ((H - y - 1 : Nat) : Int) by omega, ← Nat.cast_mul,
      Int.toNat_ofNat]
  have i4 : (((H : Int) - 1) * (W : Int) + 0).toNat = (H - 1) * W := by
    rw [show (H : Int) - 1 = ((H - 1 : Nat) : Int) by omega, add_zero, ← Nat.cast_mul,
      Int.toNat_ofNat]
  have hlen : g.gameField.length = W * H := by
    rw [hb, ← Nat.cast_mul, Int.toNat_ofNat]
  unfold shiftLinesDown
  simp only [hW, hH, i1, i2, i3, i4, Int.toNat_ofNat]
  exact memset_memmove_rows g.gameField W H y hlen hy

theorem shiftLinesDown_boardOk {g : Game} (hb : BoardOk g) (hw : 0 ≤ g.width) {y : Nat}
    (hy : y < g.height.toNat) : BoardOk (shiftLinesDown g y) := by
  have hgf := shiftLinesDown_gameField hb hw hy
  unfold BoardOk at *
  rw [hgf, (shiftLinesDown_fieldOnly g y).width_eq, (shiftLinesDown_fieldOnly g y).height_eq, ← hb]
  obtain ⟨W, hW⟩ := Int.eq_ofNat_of_zero_le hw
  obtain ⟨H, hH⟩ := Int.eq_ofNat_of_zero_le (show 0 ≤ g.height by omega)
  rw [hW, hH] at hb
  rw [hH] at hy
  simp only [Int.toNat_ofNat] at hy
  have hlen : g.gameField.length = W * H := by
    rw [hb, ← Nat.cast_mul, Int.toNat_ofNat]
  have hyW : (y + 1) * W ≤ W * H := by
    rw [Nat.mul_comm W H]; exact Nat.mul_le_mul_right W hy
  have e5 : (y + 1) * W = y * W + W := by ring
  simp only [List.length_append, List.length_take, List.length_drop, List.length_replicate, hW,
    Int.toNat_ofNat, hlen]
  omega

theorem getGameFieldPixel_natCast {g : Game} {x Y : Nat} (hx : x < g.width.toNat)
    (hY : Y < g.height.toNat) :
    getGameFieldPixel g x Y = g.gameField.getD (Y * g.width.toNat + x) 0 := by
  unfold getGameFieldPixel flatArrayAs2D
  rw [if_neg (by omega), if_neg (by omega), if_neg (by omega)]
  congr 1
  obtain ⟨W, hW⟩ := Int.eq_ofNat_of_zero_le (show 0 ≤ g.width by omega)
  rw [hW, Int.toNat_ofNat, ← Nat.cast_mul, ← Nat.cast_add, Int.toNat_ofNat]

/-- Cells of the board after one row has been removed. -/
theorem getGameFieldPixel_shiftLinesDown {g : Game} (hb : BoardOk g) {y x Y : Nat}
    (hy : y < g.height.toNat) (hx : x < g.width.toNat) (hY : Y < g.height.toNat) :
    getGameFieldPixel (shiftLinesDown g y) x Y =
      if Y < y then getGameFieldPixel g x Y
      else if Y + 1 < g.height.toNat then getGameFieldPixel g x ((Y + 1 : Nat) : Int) else 0 := by
  have hw : 0 ≤ g.width := by omega
  have hfo := shiftLinesDown_fieldOnly g y
  rw [getGameFieldPixel_natCast (by rw [hfo.width_eq]; exact hx) (by rw [hfo.height_eq]; exact hY),
    shiftLinesDown_gameField hb hw hy, hfo.width_eq]
  have hlen : g.gameField.length = g.width.toNat * g.height.toNat := by
    unfold BoardOk at hb
    obtain ⟨W, hW⟩ := Int.eq_ofNat_of_zero_le hw
    obtain ⟨H, hH⟩ := Int.eq_ofNat_of_zero_le (show 0 ≤ g.height by omega)
    rw [hb, hW, hH, ← Nat.cast_mul, Int.toNat_ofNat, Int.toNat_ofNat, Int.toNat_ofNat]
  rw [getD_shifted_rows g.gameField g.width.toNat g.height.toNat y x Y hlen hy hx hY]
  split_ifs with h1 h2
  · rw [getGameFieldPixel_natCast hx hY]
  · rw [getGameFieldPixel_natCast hx h2]
  · rfl

theorem range_map_eraseIdx {α : Type} (f g : Nat → α) (z : α) (H y : Nat) (hy : y < H)
    (hf : ∀ Y, Y < H → f Y = if Y < y then g Y else if Y + 1 < H then g (Y + 1) else z) :
    (List.range H).map f = ((List.range H).map g).eraseIdx y ++ [z] := by
  apply List.ext_getElem?
  intro n
  have hlen : (((List.range H).map g).eraseIdx y).length = H - 1 := by
    rw [List.length_eraseIdx, List.length_map, List.length_range, if_pos hy]
  rw [List.getElem?_map, List.getElem?_append, hlen, List.getElem?_eraseIdx, List.getElem?_map,
    List.getElem?_map]
  by_cases hn : n < H
  · rw [List.getElem?_range hn, Option.map_some', hf n hn]
    by_cases h1 : n < H - 1
    · rw [if_pos h1]
      by_cases h2 : n < y
      · rw [if_pos h2, if_pos h2, Option.map_some']
      · rw [if_neg h2, if_neg h2, if_pos (by omega), List.getElem?_range (by omega),
          Option.map_some']
    · rw [if_neg h1, if_neg (by omega), if_neg (by omega)]
      have : n - (H - 1) = 0 := by omega
      rw [this]
      rfl
  · have hnone : (List.range H)[n]? = none := by
      rw [List.getElem?_eq_none]; rw [List.length_range]; omega
    rw [hnone, Option.map_none', if_neg (by omega)]
    rw [List.getElem?_eq_none]
    simp only [List.length_singleton]
    omega

theorem boardRows_shiftLinesDown {g : Game} (hb : BoardOk g) {y : Nat} (hy : y < g.height.toNat) :
    boardRows (shiftLinesDown g y) =
      (boardRows g).eraseIdx y ++ [List.replicate g.width.toNat 0] := by
  have hfo := shiftLinesDown_fieldOnly g y
  unfold boardRows
  rw [hfo.width_eq, hfo.height_eq]
  apply range_map_eraseIdx _ _ _ _ _ hy
  intro Y hY
  split_ifs with h1 h2
  · apply List.map_congr_left
    intro x hx
    rw [List.mem_range] at hx
    rw [getGameFieldPixel_shiftLinesDown hb hy hx hY, if_pos h1]
  · apply List.map_congr_left
    intro x hx
    rw [List.mem_range] at hx
    rw [getGameFieldPixel_shiftLinesDown hb hy hx hY, if_neg h1, if_pos h2]
  · rw [List.eq_replicate_iff]
    refine ⟨by simp, ?_⟩
    intro b hbm
    rw [List.mem_map] at hbm
    obtain ⟨x, hx, rfl⟩ := hbm
    rw [List.mem_range] at hx
    rw [getGameFieldPixel_shiftLinesDown hb hy hx hY, if_neg h1, if_neg h2]

theorem isLineFull_eq_rowFull (g : Game) (y : Nat) (hy : y < g.height.toNat) :
    isLineFull g y = rowFull ((boardRows g).getD y []) := by
  unfold isLineFull rowFull boardRows
  rw [List.getD_eq_getElem?_getD, List.getElem?_map, List.getElem?_range hy, Option.map_some',
    Option.getD_some, List.all_map]
  rfl

theorem boardRows_length (g : Game) : (boardRows g).length = g.height.toNat := by
  unfold boardRows; simp

/-- Invariant of the loop of `cleanLines`: with the rows `L` still to visit below
the rows `U` already visited, the loop adds the number of full rows of `L` to
the count and leaves the other rows of `L`, then `U`, then one zero row for
each full row of `L`. -/
theorem cleanLinesLoop_spec (n : Nat) :
    ∀ (g : Game) (c : Int) (L U : List (List Nat)), BoardOk g → 0 ≤ g.width →
      boardRows g = L ++ U →
      L.length = n → 0 ≤ c → c + n ≤ 127 →
      (cleanLinesLoop n g c).1 = c + L.countP rowFull ∧
      boardRows (cleanLinesLoop n g c).2 =
        L.filter (fun r => !rowFull r) ++ U ++
          List.replicate (L.countP rowFull) (List.replicate g.width.toNat 0) ∧
      BoardOk (cleanLinesLoop n g c).2 := by
  induction n with
  | zero =>
    intro g c L U hb hw hrows hL _ _
    rw [List.length_eq_zero] at hL
    subst hL
    unfold cleanLinesLoop
    simp [hrows, hb]
  | succ n ih =>
    intro g c L U hb hw hrows hL hc hcn
    obtain ⟨L', r, rfl⟩ : ∃ L' r, L = L' ++ [r] := by
      rcases List.eq_nil_or_concat L with h | ⟨L', r, h⟩
      · subst h; simp at hL
      · exact ⟨L', r, by rw [h, List.concat_eq_append]⟩
    have hL' : L'.length = n := by
      rw [List.length_append, List.length_singleton] at hL; omega
    have hy : n < g.height.toNat := by
      rw [← boardRows_length, hrows]
      simp only [List.length_append, List.length_singleton]
      omega
    have hrow : (boardRows g).getD n [] = r := by
      rw [hrows, List.append_assoc, List.getD_eq_getElem?_getD,
        List.getElem?_append_right (by omega), hL']
      simp
    unfold cleanLinesLoop
    simp only [isLineFull_eq_rowFull g n hy, hrow]
    by_cases hfull : rowFull r = true
    · rw [if_pos hfull]
      have hrows' : boardRows (shiftLinesDown g n) =
          L' ++ (U ++ [List.replicate g.width.toNat 0]) := by
        rw [boardRows_shiftLinesDown hb hy, hrows, List.append_assoc,
          List.eraseIdx_append_of_length_le (by omega), hL', Nat.sub_self]
        simp
      have h8 : toInt8 (c + 1) = c + 1 := by unfold toInt8; omega
      have := ih (shiftLinesDown g n) (toInt8 (c + 1)) L' _
        (shiftLinesDown_boardOk hb hw hy)
        (by rw [(shiftLinesDown_fieldOnly g n).width_eq]; exact hw) hrows' hL' (by rw [h8]; omega)
        (by rw [h8]; omega)
      rw [(shiftLinesDown_fieldOnly g n).width_eq] at this
      refine ⟨?_, ?_, this.2.2⟩
      · rw [this.1, h8, List.countP_append]
        simp [hfull]; ring
      · rw [this.2.1, List.filter_append, List.countP_append]
        simp [hfull, List.replicate_succ]
    · rw [if_neg hfull]
      have hrows' : boardRows g = L' ++ ([r] ++ U) := by
        rw [hrows, List.append_assoc]
      have := ih g c L' _ hb hw hrows' hL' hc (by omega)
      refine ⟨?_, ?_, this.2.2⟩
      · rw [this.1, List.countP_append]
        simp [hfull]
      · rw [this.2.1, List.filter_append, List.countP_append]
        simp [hfull]

theorem cleanLines_spec {g : Game} (hb : BoardOk g) (hw : 0 ≤ g.width) (hh : g.height ≤ 127) :
    (cleanLines g).1 = fullRowCount g ∧
    boardRows (cleanLines g).2 =
      (boardRows g).filter (fun r => !rowFull r) ++
        List.replicate (fullRowCount g) (List.replicate g.width.toNat 0) ∧
    BoardOk (cleanLines g).2 := by
  have := cleanLinesLoop_spec g.height.toNat g 0 (boardRows g) [] hb hw (by simp)
    (boardRows_length g) (le_refl 0) (by omega)
  unfold cleanLines fullRowCount
  simpa using this

theorem boardRows_congr {g r : Game} (hw : r.width = g.width) (hh : r.height = g.height)
    (hf : r.gameField = g.gameField) : boardRows r = boardRows g := by
  unfold boardRows getGameFieldPixel
  rw [hw, hh, hf]

/-- C2. `cleanLines` returns exactly the number of full rows of the board it is
called on (a row is full when every cell of it is nonzero), for every board of
non-negative width whose height is an `int8_t` value, in particular for width
and height at least 4, and for every arrangement of the full rows. -/
theorem cleanLines_returns_fullRowCount (g : Game) (hb : BoardOk g) (hw : 0 ≤ g.width)
    (hh : g.height ≤ 127) : (cleanLines g).1 = fullRowCount g :=
  (cleanLines_spec hb hw hh).1

/-- Witness of C2: two full rows that are not adjacent. -/
theorem cleanLines_returns_fullRowCount_witness :
    4 ≤ twoLinesGame.width ∧ 4 ≤ twoLinesGame.height ∧ (cleanLines twoLinesGame).1 = 2 :=
  ⟨by decide, by decide,
    (cleanLines_returns_fullRowCount twoLinesGame (by decide) (by decide) (by decide)).trans
      (by decide)⟩

/-- C3. After `cleanLines` the rows of the board, from the floor upward, are the
rows of the original board that are not full, in their original order and with
their pixel values, followed by one all-zero row for each full row; width and
height are unchanged. -/
theorem cleanLines_rows (g : Game) (hb : BoardOk g) (hw : 0 ≤ g.width) (hh : g.height ≤ 127) :
    boardRows (cleanLines g).2 =
      (boardRows g).filter (fun r => !rowFull r) ++
        List.replicate (fullRowCount g) (List.replicate g.width.toNat 0) ∧
    (cleanLines g).2.width = g.width ∧ (cleanLines g).2.height = g.height :=
  ⟨(cleanLines_spec hb hw hh).2.1, (cleanLines_fieldOnly g).width_eq,
    (cleanLines_fieldOnly g).height_eq⟩

/-- Witness of C3: rows 0 and 2 vanish, rows 1, 3 and 4 drop to the floor. -/
theorem cleanLines_rows_witness :
    boardRows (cleanLines twoLinesGame).2 =
      [[1, 0, 1, 1], [0, 3, 0, 0], [0, 0, 0, 0], [0, 0, 0, 0], [0, 0, 0, 0]] :=
  (cleanLines_rows twoLinesGame (by decide) (by decide) (by decide)).1.trans (by decide)

/-- C8. Lock scoring: for every state (values of the C types, width not
negative) in which the active tetromino cannot move down and all its occupied
cells are below the top, `tick` passes to the score function exactly the number
of full rows of the board with the landed tetromino merged in, the rows of the
board become the rows that were not full followed by zero rows, and, when
`score + delta ≤ maxScore`, the score becomes exactly `score + delta`, the
result is 1 and the status is unchanged. -/
theorem tick_lock_scoring (g : Game) (hty : WellTyped g) (hw : 0 ≤ g.width)
    (hdown : canActiveTetrominoMoveDown (popActiveTetrominoInfo g) = 0) (htop : BelowTop g) :
    (tick g).2.scoreArgs = g.scoreArgs ++ [(fullRowCount (landed g) : Int)] ∧
    boardRows (tick g).2 =
      (boardRows (landed g)).filter (fun r => !rowFull r) ++
        List.replicate (fullRowCount (landed g)) (List.replicate g.width.toNat 0) ∧
    (g.score + g.getScoreAddend (fullRowCount (landed g)) % 4294967296 ≤ g.maxScore →
      (tick g).1 = 1 ∧
      (tick g).2.score = g.score + g.getScoreAddend (fullRowCount (landed g)) % 4294967296 ∧
      (tick g).2.status = g.status) := by
  obtain ⟨-, hh, -, -, -, -, hs, hm, hb, -, -⟩ := hty
  have hfo := landed_fieldOnly g
  have hsp := cleanLines_spec (landed_boardOk hb) (by rw [hfo.width_eq]; exact hw)
    (by rw [hfo.height_eq]; exact hh.2)
  have hall := hfo.trans (cleanLines_fieldOnly (landed g))
  rw [hfo.width_eq] at hsp
  rw [tick_landed hdown htop, hsp.1]
  have hd : g.getScoreAddend (fullRowCount (landed g)) % 4294967296 < 4294967296 :=
    Nat.mod_lt _ (by decide)
  generalize g.getScoreAddend (fullRowCount (landed g)) % 4294967296 = delta at hd ⊢
  have hrows : ∀ r : Game, r.width = (cleanLines (landed g)).2.width →
      r.height = (cleanLines (landed g)).2.height →
      r.gameField = (cleanLines (landed g)).2.gameField →
      boardRows r = (boardRows (landed g)).filter (fun r => !rowFull r) ++
        List.replicate (fullRowCount (landed g)) (List.replicate g.width.toNat 0) := by
    intro r h1 h2 h3
    rw [boardRows_congr h1 h2 h3, hsp.2.1]
  split_ifs with hc
  · refine ⟨rfl, hrows _ rfl rfl rfl, ?_⟩
    intro hle
    omega
  · refine ⟨rfl, hrows _ rfl rfl rfl, ?_⟩
    intro hle
    refine ⟨rfl, ?_, hall.status_eq⟩
    show (g.score + delta) % 4294967296 = g.score + delta
    omega

/-- Witness of C8: the bottom row is one cell short of full and the landed bar
fills that cell; the count passed to the score function is 1 and the score
rises by the score of one line. -/
theorem tick_lock_scoring_witness :
    (tick lineGame).2.scoreArgs = [0, 0, 1] ∧ (tick lineGame).1 = 1 ∧
      (tick lineGame).2.score = lineGame.score + hundredPerLine 1 :=
  have h := tick_lock_scoring lineGame (by decide) (by decide) (by decide)
    ((isActiveTetrominoInGameBoard_eq_one_iff lineGame).mp (by decide))
  have hk : fullRowCount (landed lineGame) = 1 := by decide
  ⟨by rw [h.1, hk]; rfl, (h.2.2 (by rw [hk]; decide)).1,
    by rw [(h.2.2 (by rw [hk]; decide)).2.1, hk]; rfl⟩

theorem getGameFieldPixel_pop_eq {g : Game} (hty : WellTyped g) (X Y : Int) :
    getGameFieldPixel (popActiveTetrominoInfo g) X Y = cellWithoutPiece g X Y := by
  obtain ⟨hw, hh, hs, hx, hy, -, -, -, hb, -, -⟩ := hty
  by_cases hin : InBoard g X Y
  · rw [getGameFieldPixel_pop hb hx hy hs.2 hw.2 hh.2 hin]
    unfold cellWithoutPiece getGameFieldPixel
    unfold InBoard at hin
    have h1 : ¬ (X < 0 ∨ X ≥ g.width) := by omega
    have h2 : ¬ Y < 0 := by omega
    have h3 : ¬ Y ≥ g.height := by omega
    simp only [h1, h2, h3, if_false]
  · have hfo := pop_fieldOnly g
    unfold cellWithoutPiece getGameFieldPixel
    rw [hfo.width_eq, hfo.height_eq]
    unfold InBoard at hin
    split_ifs <;> first | rfl | omega

theorem canActiveTetrominoMoveDown_ne_zero_iff (g : Game) :
    canActiveTetrominoMoveDown g ≠ 0 ↔
      ∀ lx : Nat, lx < 4 → ∀ ly : Nat, ly < 4 →
        flatArrayAs2D g.activeTetromino.pixels lx ly tetrominoMaxSize ≠ 0 →
        getGameFieldPixel g (toInt8 (g.activeTetromino.x + lx))
          (toInt8 (g.activeTetromino.y + ly - 1)) = 0 := by
  unfold canActiveTetrominoMoveDown
  simp only [List.all_eq_true, List.mem_range]
  simp only [Bool.not_eq_true', Bool.and_eq_false_imp, decide_eq_true_eq]
  simp only [decide_eq_false_iff_not, not_not]
  have h4 : tetrominoMaxSize.toNat = 4 := rfl
  rw [h4]
  constructor
  · intro h lx hx ly hy hp
    split_ifs at h with h'
    · exact h' ly hy lx hx hp
    · exact absurd rfl h
  · intro h
    rw [if_pos]
    · decide
    · intro y hy x hx hp
      exact h x hx y hy hp

theorem canActiveTetrominoMoveDown_pop_iff {g : Game} (hty : WellTyped g)
    (hwf : ShapeWellFormed g.activeTetromino.size g.activeTetromino.pixels) :
    canActiveTetrominoMoveDown (popActiveTetrominoInfo g) ≠ 0 ↔ CanDescend g := by
  have hfo := pop_fieldOnly g
  rw [canActiveTetrominoMoveDown_ne_zero_iff, hfo.activeTetromino_eq]
  unfold CanDescend
  constructor
  · intro h lx ly hx hy hp
    rw [← getGameFieldPixel_pop_eq hty]
    exact h lx (by have := hwf.1; omega) ly (by have := hwf.1; omega) hp
  · intro h lx hx ly hy hp
    rw [getGameFieldPixel_pop_eq hty]
    by_cases hout : g.activeTetromino.size ≤ lx ∨ g.activeTetromino.size ≤ ly
    · exact absurd (hwf.2 lx hx ly hy hout) hp
    · exact h lx ly (by omega) (by omega) hp

theorem tick_ne_zero_of_blocked {g : Game}
    (h : canActiveTetrominoMoveDown (popActiveTetrominoInfo g) = 0) : (tick g).1 ≠ 0 := by
  by_cases htop : BelowTop g
  · rw [tick_landed h htop]
    split_ifs <;> simp
  · rw [tick_lost h htop]
    simp

theorem tick_eq_zero_iff (g : Game) :
    (tick g).1 = 0 ↔ canActiveTetrominoMoveDown (popActiveTetrominoInfo g) ≠ 0 := by
  constructor
  · intro h hc
    exact tick_ne_zero_of_blocked hc h
  · intro h
    rw [tick_moved h]

/-- The state after a successful descent. -/
theorem tick_moved_state {g : Game}
    (h : canActiveTetrominoMoveDown (popActiveTetrominoInfo g) ≠ 0) :
    (tick g).2 = pushActiveTetrominoInfo
      { popActiveTetrominoInfo g with
        activeTetromino := { g.activeTetromino with y := toInt8 (g.activeTetromino.y - 1) } } := by
  rw [tick_moved h, moveActiveTetrominoDown_free h, (pop_fieldOnly g).activeTetromino_eq]

/-- The descent criterion of the code: for every state (values of the C types)
whose active shape is well formed, `tick` returns 0 and lowers the tetromino by
one row (`y` becomes `y - 1` as an `int8_t` value, which is `y - 1` unless
`y = -128`) if and only if, on the board with the footprint of the tetromino
removed, the cell read by `getGameFieldPixel` is empty for every occupied local
cell `(lx, ly)`, the coordinates `x + lx` and `y + ly - 1` being narrowed to
`int8_t` as the call does; otherwise the descent attempt leaves `y` unchanged. -/
theorem tick_descent_criterion (g : Game) (hty : WellTyped g)
    (hwf : ShapeWellFormed g.activeTetromino.size g.activeTetromino.pixels) :
    (((tick g).1 = 0 ∧ (tick g).2.activeTetromino.y = toInt8 (g.activeTetromino.y - 1)) ↔
      CanDescend g) ∧
    (CanDescend g → -128 < g.activeTetromino.y →
      (tick g).2.activeTetromino.y = g.activeTetromino.y - 1) ∧
    (¬ CanDescend g →
      (moveActiveTetrominoDown g).1 = 0 ∧
      (moveActiveTetrominoDown g).2.activeTetromino.y = g.activeTetromino.y) := by
  have hiff := canActiveTetrominoMoveDown_pop_iff hty hwf
  have hy' : ∀ h : canActiveTetrominoMoveDown (popActiveTetrominoInfo g) ≠ 0,
      (tick g).2.activeTetromino.y = toInt8 (g.activeTetromino.y - 1) := by
    intro h
    rw [tick_moved_state h, (push_fieldOnly _).activeTetromino_eq]
  refine ⟨⟨?_, ?_⟩, ?_, ?_⟩
  · rintro ⟨h0, -⟩
    exact hiff.mp ((tick_eq_zero_iff g).mp h0)
  · intro hc
    exact ⟨(tick_eq_zero_iff g).mpr (hiff.mpr hc), hy' (hiff.mpr hc)⟩
  · intro hc hlow
    rw [hy' (hiff.mpr hc)]
    have := hty.2.2.2.2.1
    unfold Int8 at this
    unfold toInt8
    omega
  · intro hc
    have hz : canActiveTetrominoMoveDown (popActiveTetrominoInfo g) = 0 := by
      by_contra hne
      exact hc (hiff.mp hne)
    rw [moveActiveTetrominoDown_blocked hz]
    exact ⟨rfl, (landed_fieldOnly g).activeTetromino_eq ▸ rfl⟩

/-- Example of the descent criterion: the freshly spawned square above an empty
board. -/
theorem tick_descent_criterion_witness :
    (tick fallingGame).1 = 0 ∧ (tick fallingGame).2.activeTetromino.y = 3 :=
  have h := tick_descent_criterion fallingGame (by decide) (by decide)
  have hc : CanDescend fallingGame :=
    (canActiveTetrominoMoveDown_pop_iff (by decide) (by decide)).mp (by decide)
  ⟨(h.1.mpr hc).1, h.2.1 hc (by decide)⟩

theorem toInt8_int8 (v : Int) : Int8 (toInt8 v) := by
  unfold Int8 toInt8; omega

/-- Board after the footprint has been erased and the tetromino `a` written in its
place: the pixels of `a`, empty at the cells left, the old cell elsewhere. -/
theorem getGameFieldPixel_push_replaced {g : Game} (hty : WellTyped g) (a : ActiveTetromino)
    (hax : Int8 a.x) (hay : Int8 a.y) (has : a.size ≤ 127) {X Y : Int} (hin : InBoard g X Y) :
    getGameFieldPixel
        (pushActiveTetrominoInfo { popActiveTetrominoInfo g with activeTetromino := a }) X Y =
      if pieceCell a X Y ≠ 0 then pieceCell a X Y
      else if pieceCell g.activeTetromino X Y ≠ 0 then 0
      else getGameFieldPixel g X Y := by
  obtain ⟨hw, hh, hs, hx, hy, -, -, -, hb, -, -⟩ := hty
  have hfo := pop_fieldOnly g
  have key := @getGameFieldPixel_push { popActiveTetrominoInfo g with activeTetromino := a }
    (pop_boardOk hb) hax hay has (by simp only [hfo.width_eq]; exact hw.2)
    (by simp only [hfo.height_eq]; exact hh.2) X Y
    (by unfold InBoard at *; simp only [hfo.width_eq, hfo.height_eq]; exact hin)
  rw [key]
  have hpop : getGameFieldPixel { popActiveTetrominoInfo g with activeTetromino := a } X Y =
      getGameFieldPixel (popActiveTetrominoInfo g) X Y := rfl
  rw [hpop, getGameFieldPixel_pop hb hx hy hs.2 hw.2 hh.2 hin]

/-- Board after a successful descent. -/
theorem getGameFieldPixel_tick_moved {g : Game} (hty : WellTyped g)
    (h : canActiveTetrominoMoveDown (popActiveTetrominoInfo g) ≠ 0) {X Y : Int}
    (hin : InBoard g X Y) :
    getGameFieldPixel (tick g).2 X Y =
      if pieceCell (tick g).2.activeTetromino X Y ≠ 0 then
        pieceCell (tick g).2.activeTetromino X Y
      else if pieceCell g.activeTetromino X Y ≠ 0 then 0
      else getGameFieldPixel g X Y := by
  have hact : (tick g).2.activeTetromino =
      { g.activeTetromino with y := toInt8 (g.activeTetromino.y - 1) } := by
    rw [tick_moved_state h, (push_fieldOnly _).activeTetromino_eq]
  rw [hact, tick_moved_state h]
  exact getGameFieldPixel_push_replaced hty
    { g.activeTetromino with y := toInt8 (g.activeTetromino.y - 1) } hty.2.2.2.1
    (toInt8_int8 _) hty.2.2.1.2 hin

/-- C10. Frame of a descent: whenever `tick` returns 0, the status, the score,
the cap, the dimensions, the next shape, the callbacks and their records, and
the `x`, size and pixel buffer of the active tetromino are unchanged; `y` is
lowered by one (as an `int8_t` value, which is `y - 1` unless `y = -128`);
every board cell outside the old and the new footprint is unchanged, and the
footprint is merged into the board at the new position. -/
theorem tick_moved_frame (g : Game) (hty : WellTyped g) (h : (tick g).1 = 0) :
    (tick g).2.status = g.status ∧ (tick g).2.score = g.score ∧
    (tick g).2.maxScore = g.maxScore ∧ (tick g).2.width = g.width ∧
    (tick g).2.height = g.height ∧ (tick g).2.nextTetromino = g.nextTetromino ∧
    (tick g).2.generated = g.generated ∧ (tick g).2.scoreArgs = g.scoreArgs ∧
    (tick g).2.getNextTetromino = g.getNextTetromino ∧
    (tick g).2.getScoreAddend = g.getScoreAddend ∧
    (tick g).2.activeTetromino.x = g.activeTetromino.x ∧
    (tick g).2.activeTetromino.size = g.activeTetromino.size ∧
    (tick g).2.activeTetromino.pixels = g.activeTetromino.pixels ∧
    (tick g).2.activeTetromino.y = toInt8 (g.activeTetromino.y - 1) ∧
    (-128 < g.activeTetromino.y → (tick g).2.activeTetromino.y = g.activeTetromino.y - 1) ∧
    (tick g).2.gameField.length = g.gameField.length ∧
    (∀ X Y : Int, InBoard g X Y → pieceCell g.activeTetromino X Y = 0 →
      pieceCell (tick g).2.activeTetromino X Y = 0 →
      getGameFieldPixel (tick g).2 X Y = getGameFieldPixel g X Y) ∧
    (∀ X Y : Int, InBoard g X Y → pieceCell (tick g).2.activeTetromino X Y ≠ 0 →
      getGameFieldPixel (tick g).2 X Y = pieceCell (tick g).2.activeTetromino X Y) := by
  have hfree := (tick_eq_zero_iff g).mp h
  have hfr : FrameInput g (tick g).2 := by
    rw [tick_moved hfree]; exact moveActiveTetrominoDown_frame g
  have hact : (tick g).2.activeTetromino =
      { g.activeTetromino with y := toInt8 (g.activeTetromino.y - 1) } := by
    rw [tick_moved_state hfree, (push_fieldOnly _).activeTetromino_eq]
  have hlen : (tick g).2.gameField.length = g.gameField.length := by
    have hb := hty.2.2.2.2.2.2.2.2.1
    have hb' : BoardOk (tick g).2 := by
      rw [tick_moved_state hfree]
      exact push_boardOk (show BoardOk _ from pop_boardOk hb)
    unfold BoardOk at hb hb'
    rw [hb', hb, hfr.width_kept, hfr.height_kept]
  refine ⟨hfr.status_kept, hfr.score_kept, hfr.maxScore_kept, hfr.width_kept, hfr.height_kept,
    hfr.nextTetromino_kept, hfr.generated_kept, hfr.scoreArgs_kept, hfr.getNextTetromino_kept,
    hfr.getScoreAddend_kept, by rw [hact], by rw [hact], by rw [hact], by rw [hact], ?_, hlen,
    ?_, ?_⟩
  · intro hlow
    rw [hact]
    have := hty.2.2.2.2.1
    unfold Int8 at this
    unfold toInt8
    simp only
    omega
  · intro X Y hin hold hnew
    rw [getGameFieldPixel_tick_moved hty hfree hin, if_neg (by rw [hnew]; exact fun h => h rfl),
      if_neg (by rw [hold]; exact fun h => h rfl)]
  · intro X Y hin hnew
    rw [getGameFieldPixel_tick_moved hty hfree hin, if_pos hnew]

/-- Witness of C10: the freshly spawned square above an empty board enters the
top row. -/
theorem tick_moved_frame_witness :
    (tick fallingGame).2.score = fallingGame.score ∧
      (tick fallingGame).2.activeTetromino.y = 3 ∧
      getGameFieldPixel (tick fallingGame).2 1 3 = 1 :=
  have h := tick_moved_frame fallingGame (by decide) (by decide)
  ⟨h.2.1, h.2.2.2.2.2.2.2.2.2.2.2.2.2.2.1 (by decide),
    (h.2.2.2.2.2.2.2.2.2.2.2.2.2.2.2.2.2 1 3 (by decide) (by decide)).trans (by decide)⟩

/-- C5 at the failing input: `rotateClockwise` reports success although the
local cell `(0, 0)` of the tetromino turns onto the board cell `(1, 2)`, which
`getGameFieldPixel` reports occupied (value 2) on the board without the
tetromino; the sweep for that cell never reads its target, and afterwards the
tetromino covers the locked cell, whose value is overwritten. -/
theorem rotateClockwise_covers_locked_cell :
    WellTyped hookGame ∧
    ShapeWellFormed hookGame.activeTetromino.size hookGame.activeTetromino.pixels ∧
    (rotateClockwise hookGame).1 = 0 ∧
    getGameFieldPixel (popActiveTetrominoInfo hookGame) 1 2 = 2 ∧
    clockwiseTarget 3 0 0 = (0, 2) ∧
    pieceCell (rotateClockwise hookGame).2.activeTetromino 1 2 = 1 ∧
    getGameFieldPixel (rotateClockwise hookGame).2 1 2 = 1 := by
  decide

theorem roundHalf_two_mul (k : Int) : roundHalf (2 * k) = k := by
  unfold roundHalf; split_ifs <;> omega

theorem clockwiseTarget_eq (size sx sy : Int) :
    clockwiseTarget size sx sy = (sy, size - 1 - sx) := by
  unfold clockwiseTarget
  simp only
  rw [show 2 * sy - (size - 1) + (size - 1) = 2 * sy by ring,
    show -(2 * sx - (size - 1)) + (size - 1) = 2 * (size - 1 - sx) by ring,
    roundHalf_two_mul, roundHalf_two_mul]

theorem againstClockwiseTarget_eq (size sx sy : Int) :
    againstClockwiseTarget size sx sy = (size - 1 - sy, sx) := by
  unfold againstClockwiseTarget
  simp only
  rw [show -(2 * sy - (size - 1)) + (size - 1) = 2 * (size - 1 - sy) by ring,
    show 2 * sx - (size - 1) + (size - 1) = 2 * sx by ring,
    roundHalf_two_mul, roundHalf_two_mul]

theorem mem_countDown (a b v : Int) : v ∈ countDown a b ↔ b ≤ v ∧ v ≤ a := by
  unfold countDown
  simp only [List.mem_map, List.mem_range]
  constructor
  · rintro ⟨i, hi, rfl⟩; omega
  · intro h; exact ⟨(a - v).toNat, by omega, by omega⟩

theorem mem_countUp (a b v : Int) : v ∈ countUp a b ↔ a ≤ v ∧ v ≤ b := by
  unfold countUp
  simp only [List.mem_map, List.mem_range]
  constructor
  · rintro ⟨i, hi, rfl⟩; omega
  · intro h; exact ⟨(v - a).toNat, by omega, by omega⟩

theorem columnFree_at {g : Game} {x : Int} {ys : List Int} (h : columnFree g x ys = true)
    {v : Int} (hv : v ∈ ys) :
    getGameFieldPixel g (toInt8 (x + g.activeTetromino.x)) (toInt8 (v + g.activeTetromino.y)) = 0 := by
  unfold columnFree at h
  rw [List.all_eq_true] at h
  exact of_decide_eq_true (h v hv)

theorem rowFree_at {g : Game} {xs : List Int} {y : Int} (h : rowFree g xs y = true)
    {v : Int} (hv : v ∈ xs) :
    getGameFieldPixel g (toInt8 (v + g.activeTetromino.x)) (toInt8 (y + g.activeTetromino.y)) = 0 := by
  unfold rowFree at h
  rw [List.all_eq_true] at h
  exact of_decide_eq_true (h v hv)

theorem fabs_gt_iff (a b : Int) :
    fabs a > fabs b ↔ (b < a ∧ -a < b) ∨ (a < b ∧ a < -b) := by
  unfold fabs; split_ifs <;> omega

/-- The sweep of a counterclockwise turn always reads its target cell. -/
theorem againstClockwisePathFree_target {g : Game} {sx sy : Int}
    (h : againstClockwisePathFree g sx sy = true) :
    getGameFieldPixel g (toInt8 (g.activeTetromino.size - 1 - sy + g.activeTetromino.x))
      (toInt8 (sx + g.activeTetromino.y)) = 0 := by
  unfold againstClockwisePathFree at h
  simp only [againstClockwiseTarget_eq] at h
  by_cases h1 : 2 * sx - (g.activeTetromino.size - 1) > 2 * sy - (g.activeTetromino.size - 1)
  · rw [if_pos h1] at h
    by_cases h2 : fabs (2 * sx - (g.activeTetromino.size - 1)) >
        fabs (2 * sy - (g.activeTetromino.size - 1))
    · rw [if_pos h2, Bool.and_eq_true] at h
      rw [fabs_gt_iff] at h2
      exact rowFree_at h.2 ((mem_countDown _ _ _).mpr (by omega))
    · rw [if_neg h2, Bool.and_eq_true] at h
      exact columnFree_at h.2 ((mem_countUp _ _ _).mpr (by omega))
  · rw [if_neg h1] at h
    by_cases h2 : fabs (2 * sx - (g.activeTetromino.size - 1)) >
        fabs (2 * sy - (g.activeTetromino.size - 1))
    · rw [if_pos h2, Bool.and_eq_true] at h
      rw [fabs_gt_iff] at h2
      exact rowFree_at h.2 ((mem_countUp _ _ _).mpr (by omega))
    · rw [if_neg h2, Bool.and_eq_true] at h
      exact columnFree_at h.2 ((mem_countDown _ _ _).mpr (by omega))

/-- The sweep of a clockwise turn reads its target cell, except for a source cell
on the diagonal below the centre (`sx = sy` and `2 * sx < size - 1`). -/
theorem clockwisePathFree_target {g : Game} {sx sy : Int}
    (h : clockwisePathFree g sx sy = true)
    (hd : ¬ (sx = sy ∧ 2 * sx < g.activeTetromino.size - 1)) :
    getGameFieldPixel g (toInt8 (sy + g.activeTetromino.x))
      (toInt8 (g.activeTetromino.size - 1 - sx + g.activeTetromino.y)) = 0 := by
  unfold clockwisePathFree at h
  simp only [clockwiseTarget_eq] at h
  by_cases h1 : 2 * sx - (g.activeTetromino.size - 1) > 2 * sy - (g.activeTetromino.size - 1)
  · rw [if_pos h1] at h
    by_cases h2 : fabs (2 * sx - (g.activeTetromino.size - 1)) >
        fabs (2 * sy - (g.activeTetromino.size - 1))
    · rw [if_pos h2, Bool.and_eq_true] at h
      exact rowFree_at h.2 ((mem_countDown _ _ _).mpr (by omega))
    · rw [if_neg h2, Bool.and_eq_true] at h
      rw [fabs_gt_iff] at h2
      exact columnFree_at h.2 ((mem_countUp _ _ _).mpr (by omega))
  · rw [if_neg h1] at h
    by_cases h2 : fabs (2 * sx - (g.activeTetromino.size - 1)) >
        fabs (2 * sy - (g.activeTetromino.size - 1))
    · rw [if_pos h2, Bool.and_eq_true] at h
      exact rowFree_at h.2 ((mem_countUp _ _ _).mpr (by omega))
    · rw [if_neg h2, Bool.and_eq_true] at h
      rw [fabs_gt_iff] at h2
      exact columnFree_at h.2 ((mem_countDown _ _ _).mpr (by omega))

/-- The four outcomes of `tick`. -/
theorem tick_cases (g : Game) :
    ((tick g).1 = 0 ∧ canActiveTetrominoMoveDown (popActiveTetrominoInfo g) ≠ 0 ∧
      FrameInput g (tick g).2) ∨
    ((tick g).1 = 3 ∧ canActiveTetrominoMoveDown (popActiveTetrominoInfo g) = 0 ∧
      ¬ BelowTop g ∧ tick g = (3, { landed g with status := GameStatus.endPlayerLoose })) ∨
    ((tick g).1 = 2 ∧ canActiveTetrominoMoveDown (popActiveTetrominoInfo g) = 0 ∧
      BelowTop g ∧ capExceeded g ∧
      tick g = (2, { (cleanLines (landed g)).2 with
              scoreArgs := g.scoreArgs ++ [(cleanLines (landed g)).1]
              score := g.maxScore
              status := GameStatus.endMaxScoreStatus })) ∨
    ((tick g).1 = 1 ∧ canActiveTetrominoMoveDown (popActiveTetrominoInfo g) = 0 ∧
      BelowTop g ∧ ¬ capExceeded g ∧
      tick g = (1, { (cleanLines (landed g)).2 with
              scoreArgs := g.scoreArgs ++ [(cleanLines (landed g)).1]
              score := (g.score + g.getScoreAddend (cleanLines (landed g)).1 % 4294967296) %
                4294967296
              activeTetromino :=
                { size := g.nextTetromino.size
                  x := toInt8 (g.width.tdiv 2 - tetrominoMaxSize.tdiv 2)
                  y := g.height
                  pixels := g.nextTetromino.pixels }
              nextTetromino := g.getNextTetromino g.generated
                { g.nextTetromino with pixels := g.activeTetromino.pixels }
              generated := g.generated + 1 })) := by
  by_cases hdown : canActiveTetrominoMoveDown (popActiveTetrominoInfo g) = 0
  · by_cases htop : BelowTop g
    · have h := tick_landed hdown htop
      by_cases hc : capExceeded g
      · right; right; left
        unfold capExceeded at hc
        rw [if_pos hc] at h
        exact ⟨by rw [h], hdown, htop, hc, h⟩
      · right; right; right
        have hc' := hc
        unfold capExceeded at hc
        rw [if_neg hc] at h
        exact ⟨by rw [h], hdown, htop, hc', h⟩
    · right; left
      have h := tick_lost hdown htop
      exact ⟨by rw [h], hdown, htop, h⟩
  · left
    refine ⟨(tick_eq_zero_iff g).mpr hdown, hdown, ?_⟩
    rw [tick_moved hdown]
    exact moveActiveTetrominoDown_frame g

/-- C division by 2, which truncates toward zero, in terms of the floor division. -/
theorem tdiv_two (w : Int) : w.tdiv 2 = if 0 ≤ w then w / 2 else -((-w) / 2) := by
  split_ifs with h
  · exact Int.tdiv_eq_ediv h (by decide)
  · have h1 : w.tdiv 2 = -((-w).tdiv 2) := by rw [Int.neg_tdiv, neg_neg]
    rw [h1, Int.tdiv_eq_ediv (by omega) (by decide)]

/-- C11. Promotion of the next piece: whenever `tick` returns 1, the new active
shape has exactly the size and the pixel buffer that the next shape had before
the call, and the new next shape is exactly what the generator produces for
this call; the generator is called once and is handed the structure that holds
the old size field and the buffer the active tetromino had, so the two buffers
exchange roles. -/
theorem tick_promotes_next (g : Game) (h : (tick g).1 = 1) :
    (tick g).2.activeTetromino.size = g.nextTetromino.size ∧
    (tick g).2.activeTetromino.pixels = g.nextTetromino.pixels ∧
    (tick g).2.nextTetromino =
      g.getNextTetromino g.generated
        { size := g.nextTetromino.size, pixels := g.activeTetromino.pixels } ∧
    (tick g).2.generated = g.generated + 1 ∧
    (tick g).2.getNextTetromino = g.getNextTetromino := by
  have hall := (landed_fieldOnly g).trans (cleanLines_fieldOnly (landed g))
  rcases tick_cases g with h0 | h3 | h2 | h1
  · rw [h0.1] at h; cases h
  · rw [h3.1] at h; cases h
  · rw [h2.1] at h; cases h
  · rw [h1.2.2.2.2]
    exact ⟨rfl, rfl, rfl, rfl, hall.getNextTetromino_eq⟩

/-- Witness of C11: the bar of `lineGame` locks and the square is promoted. -/
theorem tick_promotes_next_witness :
    (tick lineGame).2.activeTetromino.size = 2 ∧
      (tick lineGame).2.activeTetromino.pixels = squareShape.pixels ∧
      (tick lineGame).2.nextTetromino = squareShape :=
  have h := tick_promotes_next lineGame (by decide)
  ⟨h.1, h.2.1, h.2.2.1⟩

/-- C12 at the failing input: in the host example the first square is spawned by
`startGame` at `x = 10 / 2 - 2 / 2 = 4`, and the square promoted by the 21st
`tick`, which returns 1, is spawned at `x = 10 / 2 - 4 / 2 = 3` although its
size is 2 as well; `y` is the height in both cases. -/
theorem tick_spawn_not_centred :
    (startGame createdGame).activeTetromino.size = 2 ∧
    (startGame createdGame).activeTetromino.x = 4 ∧
    (tickTimes 21 (startGame createdGame)).1 = List.replicate 20 0 ++ [1] ∧
    (tickTimes 21 (startGame createdGame)).2.activeTetromino.size = 2 ∧
    (tickTimes 21 (startGame createdGame)).2.activeTetromino.x = 3 ∧
    (tickTimes 21 (startGame createdGame)).2.activeTetromino.y = 20 ∧
    createdGame.width.tdiv 2 -
      (tickTimes 21 (startGame createdGame)).2.activeTetromino.size.tdiv 2 = 4 := by
  decide

/-- What the code does at a spawn after a lock: whenever `tick` returns 1 the new
active tetromino is placed at `x = width / 2 - tetrominoMaxSize / 2`, whatever
its size, and at `y = height`. -/
theorem tick_spawn_position (g : Game) (hw : Int8 g.width) (h : (tick g).1 = 1) :
    (tick g).2.activeTetromino.x = g.width.tdiv 2 - 2 ∧
    (tick g).2.activeTetromino.y = g.height := by
  rcases tick_cases g with h0 | h3 | h2 | h1
  · rw [h0.1] at h; cases h
  · rw [h3.1] at h; cases h
  · rw [h2.1] at h; cases h
  · rw [h1.2.2.2.2]
    refine ⟨?_, rfl⟩
    show toInt8 (g.width.tdiv 2 - tetrominoMaxSize.tdiv 2) = g.width.tdiv 2 - 2
    have h2 : tetrominoMaxSize.tdiv 2 = 2 := by decide
    rw [h2, tdiv_two]
    unfold Int8 at hw
    unfold toInt8
    split_ifs <;> omega

/-- C13. `startGame` invokes the generator exactly twice (calls number
`generated` and `generated + 1`); afterwards the active shape, size and pixels,
is the first generated shape, the next shape is the second generated shape
(produced from the structure holding the first size and the other buffer),
`x = width / 2 - size / 2` with the division of C, `y = height`, the status is
`playGameStatus`, and the board, the score and the cap are unchanged.  The
width and the generated size are `int8_t` values. -/
theorem startGame_spec (g : Game) (hw : Int8 g.width)
    (hs : Int8 (g.getNextTetromino g.generated g.nextTetromino).size) :
    (startGame g).generated = g.generated + 2 ∧
    (startGame g).activeTetromino.size =
      (g.getNextTetromino g.generated g.nextTetromino).size ∧
    (startGame g).activeTetromino.pixels =
      (g.getNextTetromino g.generated g.nextTetromino).pixels ∧
    (startGame g).nextTetromino =
      g.getNextTetromino (g.generated + 1)
        { size := (g.getNextTetromino g.generated g.nextTetromino).size
          pixels := g.activeTetromino.pixels } ∧
    (startGame g).activeTetromino.x =
      g.width.tdiv 2 - (startGame g).activeTetromino.size.tdiv 2 ∧
    (startGame g).activeTetromino.y = g.height ∧
    (startGame g).status = GameStatus.playGameStatus ∧
    (startGame g).gameField = g.gameField ∧ (startGame g).score = g.score ∧
    (startGame g).maxScore = g.maxScore ∧ (startGame g).width = g.width ∧
    (startGame g).height = g.height ∧ (startGame g).scoreArgs = g.scoreArgs := by
  refine ⟨rfl, rfl, rfl, rfl, ?_, rfl, rfl, rfl, rfl, rfl, rfl, rfl, rfl⟩
  show toInt8 (g.width.tdiv 2 - (g.getNextTetromino g.generated g.nextTetromino).size.tdiv 2) =
    g.width.tdiv 2 - (g.getNextTetromino g.generated g.nextTetromino).size.tdiv 2
  rw [tdiv_two, tdiv_two]
  unfold Int8 at hw hs
  unfold toInt8
  split_ifs <;> omega

/-- Witness of C13: the host example, a 10 × 20 board and the filled 2 × 2 shape;
the active tetromino has size 2, `x = 4` and `y = 20`. -/
theorem startGame_spec_witness :
    initGame 10 20 1000 squareGenerator hundredPerLine zeroHeap = some createdGame ∧
      (startGame createdGame).activeTetromino.size = 2 ∧
      (startGame createdGame).activeTetromino.x = 4 ∧
      (startGame createdGame).activeTetromino.y = 20 ∧
      (startGame createdGame).generated = 2 :=
  have h := startGame_spec createdGame (by decide) (by decide)
  ⟨rfl, h.2.1, h.2.2.2.2.1.trans (by decide), h.2.2.2.2.2.1, h.1⟩

/-- C14. Drop scenario: with width 10, height 20, cap 1000, the generator that
always yields the filled 2 × 2 shape and the score function `n ↦ 100 * n`,
whatever the allocated structures contain, after `initGame` and `startGame` the
first 20 calls of `tick` return 0, the 21st returns 1, the score is still 0,
the status is still `playGameStatus`, and the two bottom rows of the board hold
value 1 in columns 4 and 5 while every other cell is empty. -/
theorem drop_scenario (active : ActiveTetromino) (next : NextTetromino) :
    ∃ g : Game,
      initGame 10 20 1000 squareGenerator hundredPerLine (some (active, next)) = some g ∧
      (tickTimes 21 (startGame g)).1 = List.replicate 20 0 ++ [1] ∧
      (tickTimes 21 (startGame g)).2.score = 0 ∧
      (tickTimes 21 (startGame g)).2.status = GameStatus.playGameStatus ∧
      boardRows (tickTimes 21 (startGame g)).2 =
        [0, 0, 0, 0, 1, 1, 0, 0, 0, 0] :: [0, 0, 0, 0, 1, 1, 0, 0, 0, 0] ::
          List.replicate 18 (List.replicate 10 0) := by
  refine ⟨_, rfl, ?_⟩
  have hstart : startGame
      { status := GameStatus.initGameStatus
        width := 10
        height := 20
        score := 0
        maxScore := ((1000 : Int) % 4294967296).toNat
        gameField := List.replicate ((10 : Int) * 20).toNat 0
        activeTetromino := active
        nextTetromino := next
        getNextTetromino := squareGenerator
        getScoreAddend := hundredPerLine
        generated := 0
        scoreArgs := [] } = { startGame createdGame with generated := 2 } := rfl
  rw [hstart]
  decide

/-- C19. Score is monotone: for every state with `score ≤ maxScore` and every
operation among `moveLeft`, `moveRight`, `rotateClockwise`,
`rotateAgainstClockwise` and `tick`, for any score function and any generator,
the score after the operation is at least the score before it. -/
theorem score_monotone (g : Game) (h : g.score ≤ g.maxScore) :
    g.score ≤ (moveLeft g).2.score ∧ g.score ≤ (moveRight g).2.score ∧
    g.score ≤ (rotateClockwise g).2.score ∧ g.score ≤ (rotateAgainstClockwise g).2.score ∧
    g.score ≤ (tick g).2.score := by
  refine ⟨le_of_eq (moveLeft_frame g).score_kept.symm, le_of_eq (moveRight_frame g).score_kept.symm,
    le_of_eq (rotateClockwise_frame g).score_kept.symm,
    le_of_eq (rotateAgainstClockwise_frame g).score_kept.symm, ?_⟩
  have hall := (landed_fieldOnly g).trans (cleanLines_fieldOnly (landed g))
  rcases tick_cases g with h0 | h3 | h2 | h1
  · exact le_of_eq h0.2.2.score_kept.symm
  · rw [h3.2.2.2]
    exact le_of_eq (landed_fieldOnly g).score_eq.symm
  · rw [h2.2.2.2.2]
    exact h
  · have hc := h1.2.2.2.1
    unfold capExceeded at hc
    rw [h1.2.2.2.2]
    show g.score ≤
      (g.score + g.getScoreAddend (cleanLines (landed g)).1 % 4294967296) % 4294967296
    omega

/-- Witness of C19: the lock of `capGame` raises the score from 999 to the cap. -/
theorem score_monotone_witness :
    capGame.score ≤ (tick capGame).2.score ∧ (tick capGame).2.score = 1000 :=
  ⟨(score_monotone capGame (by decide)).2.2.2.2, by decide⟩

/-- C20. Result code and status agree: for every state with status
`playGameStatus`, `tick` returns one of 0, 1, 2, 3, and afterwards the status is
`playGameStatus` exactly when the result is 0 or 1, `endMaxScoreStatus` exactly
when it is 2 and `endPlayerLoose` exactly when it is 3.  No operation sets the
status to `initGameStatus` (it is `initGameStatus` afterwards only if it was
before), and only `startGame` sets it to `playGameStatus`. -/
theorem tick_result_status (g : Game) (hplay : g.status = GameStatus.playGameStatus) :
    ((tick g).1 = 0 ∨ (tick g).1 = 1 ∨ (tick g).1 = 2 ∨ (tick g).1 = 3) ∧
    ((tick g).2.status = GameStatus.playGameStatus ↔ ((tick g).1 = 0 ∨ (tick g).1 = 1)) ∧
    ((tick g).2.status = GameStatus.endMaxScoreStatus ↔ (tick g).1 = 2) ∧
    ((tick g).2.status = GameStatus.endPlayerLoose ↔ (tick g).1 = 3) ∧
    (∀ s : Game,
      (startGame s).status = GameStatus.playGameStatus ∧
      ((moveLeft s).2.status = s.status ∧ (moveRight s).2.status = s.status ∧
        (rotateClockwise s).2.status = s.status ∧
        (rotateAgainstClockwise s).2.status = s.status) ∧
      ((tick s).2.status = GameStatus.initGameStatus → s.status = GameStatus.initGameStatus) ∧
      ((tick s).2.status = GameStatus.playGameStatus → s.status = GameStatus.playGameStatus)) := by
  have hall := (landed_fieldOnly g).trans (cleanLines_fieldOnly (landed g))
  refine ⟨?_, ?_, ?_, ?_, ?_⟩
  · rcases tick_cases g with h0 | h3 | h2 | h1
    · exact Or.inl h0.1
    · exact Or.inr (Or.inr (Or.inr h3.1))
    · exact Or.inr (Or.inr (Or.inl h2.1))
    · exact Or.inr (Or.inl h1.1)
  · rcases tick_cases g with h0 | h3 | h2 | h1
    · rw [h0.2.2.status_kept, hplay, h0.1]; simp
    · rw [h3.2.2.2]; simp
    · rw [h2.2.2.2.2]; simp
    · rw [h1.2.2.2.2]
      simp only [hall.status_eq, hplay, true_iff]
      exact Or.inr trivial
  · rcases tick_cases g with h0 | h3 | h2 | h1
    · rw [h0.2.2.status_kept, hplay, h0.1]; simp
    · rw [h3.2.2.2]; simp
    · rw [h2.2.2.2.2]; simp
    · rw [h1.2.2.2.2]
      simp only [hall.status_eq, hplay]
      simp
  · rcases tick_cases g with h0 | h3 | h2 | h1
    · rw [h0.2.2.status_kept, hplay, h0.1]; simp
    · rw [h3.2.2.2]; simp
    · rw [h2.2.2.2.2]; simp
    · rw [h1.2.2.2.2]
      simp only [hall.status_eq, hplay]
      simp
  · intro s
    have hs := (landed_fieldOnly s).trans (cleanLines_fieldOnly (landed s))
    refine ⟨rfl, ⟨(moveLeft_frame s).status_kept, (moveRight_frame s).status_kept,
      (rotateClockwise_frame s).status_kept, (rotateAgainstClockwise_frame s).status_kept⟩, ?_, ?_⟩
    · rcases tick_cases s with h0 | h3 | h2 | h1
      · rw [h0.2.2.status_kept]; exact id
      · rw [h3.2.2.2]; intro h; cases h
      · rw [h2.2.2.2.2]; intro h; cases h
      · rw [h1.2.2.2.2]; simp only [hs.status_eq]; exact id
    · rcases tick_cases s with h0 | h3 | h2 | h1
      · rw [h0.2.2.status_kept]; exact id
      · rw [h3.2.2.2]; intro h; cases h
      · rw [h2.2.2.2.2]; intro h; cases h
      · rw [h1.2.2.2.2]; simp only [hs.status_eq]; exact id

/-- Witness of C20: the three locking outcomes and the descent. -/
theorem tick_result_status_witness :
    ((tick fallingGame).1 = 0 ∧ (tick fallingGame).2.status = GameStatus.playGameStatus) ∧
      ((tick capGame).2.status = GameStatus.endMaxScoreStatus ↔ (tick capGame).1 = 2) ∧
      ((tick topOutGame).2.status = GameStatus.endPlayerLoose ↔ (tick topOutGame).1 = 3) :=
  ⟨⟨by decide, (tick_result_status fallingGame rfl).2.1.mpr (Or.inl (by decide))⟩,
    (tick_result_status capGame rfl).2.2.1, (tick_result_status topOutGame rfl).2.2.2.1⟩

theorem cleanLinesLoop_of_no_full (n : Nat) (g : Game) (c : Int)
    (h : ∀ y : Nat, y < n → isLineFull g y = false) : cleanLinesLoop n g c = (c, g) := by
  induction n with
  | zero => rfl
  | succ n ih =>
    unfold cleanLinesLoop
    simp only [h n (Nat.lt_succ_self n)]
    exact ih (fun y hy => h y (Nat.lt_succ_of_lt hy))

theorem cleanLines_of_no_full {g : Game} (h : fullRowCount g = 0) : cleanLines g = (0, g) := by
  unfold cleanLines
  apply cleanLinesLoop_of_no_full
  intro y hy
  rw [isLineFull_eq_rowFull g y hy]
  unfold fullRowCount at h
  rw [List.countP_eq_zero] at h
  have hmem : (boardRows g).getD y [] ∈ boardRows g := by
    rw [List.getD_eq_getElem?_getD, List.getElem?_eq_getElem (by rw [boardRows_length]; exact hy)]
    exact List.getElem_mem _
  exact Bool.eq_false_iff.mpr (h _ hmem)

theorem rowFull_replicate_zero {n : Nat} (hn : 0 < n) : rowFull (List.replicate n 0) = false := by
  obtain ⟨m, rfl⟩ : ∃ m, n = m + 1 := ⟨n - 1, by omega⟩
  rfl

theorem fullRowCount_cleanLines {g : Game} (hb : BoardOk g) (hw : 0 < g.width)
    (hh : g.height ≤ 127) : fullRowCount (cleanLines g).2 = 0 := by
  unfold fullRowCount
  rw [(cleanLines_spec hb (by omega) hh).2.1, List.countP_eq_zero]
  intro r hr
  rw [List.mem_append] at hr
  rcases hr with hr | hr
  · rw [List.mem_filter] at hr
    simpa using hr.2
  · rw [List.eq_of_mem_replicate hr, rowFull_replicate_zero (by omega)]
    decide

/-- C18. `cleanLines` is idempotent: on a board with no full row it returns 0 and
leaves the state, hence every cell, as it is; after any call of `cleanLines` on
a board of positive width (in particular width at least 4) no row is full, so
an immediately repeated call returns 0 and leaves the board unchanged. -/
theorem cleanLines_idempotent (g : Game) (hb : BoardOk g) (hw : 0 < g.width)
    (hh : g.height ≤ 127) :
    (fullRowCount g = 0 → cleanLines g = (0, g)) ∧
    fullRowCount (cleanLines g).2 = 0 ∧
    cleanLines (cleanLines g).2 = (0, (cleanLines g).2) :=
  ⟨cleanLines_of_no_full, fullRowCount_cleanLines hb hw hh,
    cleanLines_of_no_full (fullRowCount_cleanLines hb hw hh)⟩

/-- Witness of C18: the board with two full rows; the second call finds none. -/
theorem cleanLines_idempotent_witness :
    (cleanLines twoLinesGame).1 = 2 ∧
      (cleanLines (cleanLines twoLinesGame).2).1 = 0 ∧
      (cleanLines (cleanLines twoLinesGame).2).2.gameField =
        (cleanLines twoLinesGame).2.gameField :=
  have h := cleanLines_idempotent twoLinesGame (by decide) (by decide) (by decide)
  ⟨by decide, by rw [h.2.2], by rw [h.2.2]⟩

theorem pieceCell_of_merged {g : Game} (hm : FootprintMerged g) {X Y : Int}
    (hin : InBoard g X Y) (hp : pieceCell g.activeTetromino X Y ≠ 0) :
    getGameFieldPixel g X Y = pieceCell g.activeTetromino X Y := by
  unfold pieceCell at hp ⊢
  split_ifs at hp ⊢ with h
  · have hx : g.activeTetromino.x + ((X - g.activeTetromino.x).toNat : Int) = X := by omega
    have hy : g.activeTetromino.y + ((Y - g.activeTetromino.y).toNat : Int) = Y := by omega
    have h1 : ((X - g.activeTetromino.x).toNat : Int) = X - g.activeTetromino.x := by omega
    have h2 : ((Y - g.activeTetromino.y).toNat : Int) = Y - g.activeTetromino.y := by omega
    have := hm (X - g.activeTetromino.x).toNat (by omega) (Y - g.activeTetromino.y).toNat
      (by omega) (by rw [h1, h2]; exact hp) (by rw [hx, hy]; exact hin)
    rw [hx, hy, h1, h2] at this
    exact this
  · exact absurd rfl hp

/-- Erasing the footprint and writing it back restores every cell of a board
into which the footprint was merged. -/
theorem getGameFieldPixel_landed_of_merged {g : Game} (hty : WellTyped g)
    (hm : FootprintMerged g) (X Y : Int) :
    getGameFieldPixel (landed g) X Y = getGameFieldPixel g X Y := by
  by_cases hin : InBoard g X Y
  · rw [getGameFieldPixel_landed hty hin]
    split_ifs with hp
    · exact (pieceCell_of_merged hm hin hp).symm
    · rfl
  · have hfo := landed_fieldOnly g
    unfold getGameFieldPixel
    rw [hfo.width_eq, hfo.height_eq]
    unfold InBoard at hin
    split_ifs <;> first | rfl | omega

theorem gameField_ext {g r : Game} (hg : BoardOk g) (hr : BoardOk r) (hw : r.width = g.width)
    (hh : r.height = g.height) (hpos : 0 ≤ g.width)
    (hcells : ∀ X Y : Int, InBoard g X Y → getGameFieldPixel r X Y = getGameFieldPixel g X Y) :
    r.gameField = g.gameField := by
  unfold BoardOk at hg hr
  have hlen : r.gameField.length = g.gameField.length := by rw [hg, hr, hw, hh]
  apply List.ext_getElem hlen
  intro i h1 h2
  obtain ⟨W, hW⟩ := Int.eq_ofNat_of_zero_le hpos
  have hWH : g.gameField.length = (g.width * g.height).toNat := hg
  have hhpos : 0 < g.height ∧ 0 < W := by
    rw [hW] at hWH
    rw [hWH] at h2
    constructor
    · by_contra hneg
      have : (W : Int) * g.height ≤ 0 := Int.mul_nonpos_of_nonneg_of_nonpos (by omega) (by omega)
      omega
    · by_contra hneg
      have : W = 0 := by omega
      subst this
      simp at h2
  obtain ⟨H, hH⟩ := Int.eq_ofNat_of_zero_le (show 0 ≤ g.height by omega)
  have hlenWH : g.gameField.length = W * H := by
    rw [hWH, hW, hH, ← Nat.cast_mul, Int.toNat_ofNat]
  have hX : i % W < g.width.toNat := by
    rw [hW, Int.toNat_ofNat]; exact Nat.mod_lt _ hhpos.2
  have hY : i / W < g.height.toNat := by
    rw [hH, Int.toNat_ofNat]
    rw [hlenWH] at h2
    exact Nat.div_lt_of_lt_mul h2
  have hidx : i / W * g.width.toNat + i % W = i := by
    rw [hW, Int.toNat_ofNat, Nat.mul_comm]; exact Nat.div_add_mod i W
  generalize i % W = X at hX hidx
  generalize i / W = Y at hY hidx
  have hc := hcells (X : Int) (Y : Int) (by unfold InBoard; omega)
  rw [getGameFieldPixel_natCast (by rw [hw]; exact hX) (by rw [hh]; exact hY),
    getGameFieldPixel_natCast hX hY, hw, hidx] at hc
  rw [List.getD_eq_getElem _ _ h1, List.getD_eq_getElem _ _ h2] at hc
  exact hc

/-- Erasing the footprint and writing it back leaves the game field as it is when
the footprint was merged into it. -/
theorem landed_gameField_of_merged {g : Game} (hty : WellTyped g) (hm : FootprintMerged g)
    (hpos : 0 ≤ g.width) : (landed g).gameField = g.gameField :=
  gameField_ext hty.2.2.2.2.2.2.2.2.1 (landed_boardOk hty.2.2.2.2.2.2.2.2.1)
    (landed_fieldOnly g).width_eq (landed_fieldOnly g).height_eq hpos
    (fun X Y _ => getGameFieldPixel_landed_of_merged hty hm X Y)

theorem moveLeft_check_iff {g : Game} (hty : WellTyped g) :
    ((List.range (popActiveTetrominoInfo g).activeTetromino.size.toNat).all (fun (y : Nat) =>
      (List.range (popActiveTetrominoInfo g).activeTetromino.size.toNat).all (fun (x : Nat) =>
        !(decide (flatArrayAs2D (popActiveTetrominoInfo g).activeTetromino.pixels x y
              tetrominoMaxSize ≠ 0) &&
          decide (getGameFieldPixel (popActiveTetrominoInfo g)
            (toInt8 ((popActiveTetrominoInfo g).activeTetromino.x + x - 1))
            (toInt8 ((popActiveTetrominoInfo g).activeTetromino.y + y)) ≠ 0)))) = true) ↔
      CanMoveLeft g := by
  rw [(pop_fieldOnly g).activeTetromino_eq]
  unfold CanMoveLeft
  simp only [List.all_eq_true, List.mem_range]
  simp only [Bool.not_eq_true', Bool.and_eq_false_imp, decide_eq_true_eq]
  simp only [decide_eq_false_iff_not, not_not, getGameFieldPixel_pop_eq hty]
  constructor
  · intro h lx ly hx hy hp
    exact h ly (by omega) lx (by omega) hp
  · intro h y hy x hx hp
    exact h x y (by omega) (by omega) hp

theorem moveRight_check_iff {g : Game} (hty : WellTyped g) :
    ((List.range (popActiveTetrominoInfo g).activeTetromino.size.toNat).all (fun (y : Nat) =>
      (List.range (popActiveTetrominoInfo g).activeTetromino.size.toNat).all (fun (x : Nat) =>
        !(decide (flatArrayAs2D (popActiveTetrominoInfo g).activeTetromino.pixels x y
              tetrominoMaxSize ≠ 0) &&
          decide (getGameFieldPixel (popActiveTetrominoInfo g)
            (toInt8 ((popActiveTetrominoInfo g).activeTetromino.x + x + 1))
            (toInt8 ((popActiveTetrominoInfo g).activeTetromino.y + y)) ≠ 0)))) = true) ↔
      CanMoveRight g := by
  rw [(pop_fieldOnly g).activeTetromino_eq]
  unfold CanMoveRight
  simp only [List.all_eq_true, List.mem_range]
  simp only [Bool.not_eq_true', Bool.and_eq_false_imp, decide_eq_true_eq]
  simp only [decide_eq_false_iff_not, not_not, getGameFieldPixel_pop_eq hty]
  constructor
  · intro h lx ly hx hy hp
    exact h ly (by omega) lx (by omega) hp
  · intro h y hy x hx hp
    exact h x y (by omega) (by omega) hp

/-- The two outcomes of `moveLeft`. -/
theorem moveLeft_cases {g : Game} (hty : WellTyped g) :
    (CanMoveLeft g ∧ moveLeft g = (0, pushActiveTetrominoInfo
      { popActiveTetrominoInfo g with
        activeTetromino := { g.activeTetromino with x := toInt8 (g.activeTetromino.x - 1) } })) ∨
    (¬ CanMoveLeft g ∧ moveLeft g = (1, landed g)) := by
  by_cases hc : CanMoveLeft g
  · left
    refine ⟨hc, ?_⟩
    unfold moveLeft
    simp only []
    rw [if_pos ((moveLeft_check_iff hty).mpr hc)]
    simp only [(pop_fieldOnly g).activeTetromino_eq]
  · right
    refine ⟨hc, ?_⟩
    unfold moveLeft
    simp only [if_neg (fun h => hc ((moveLeft_check_iff hty).mp h))]
    rfl

/-- The two outcomes of `moveRight`. -/
theorem moveRight_cases {g : Game} (hty : WellTyped g) :
    (CanMoveRight g ∧ moveRight g = (0, pushActiveTetrominoInfo
      { popActiveTetrominoInfo g with
        activeTetromino := { g.activeTetromino with x := toInt8 (g.activeTetromino.x + 1) } })) ∨
    (¬ CanMoveRight g ∧ moveRight g = (1, landed g)) := by
  by_cases hc : CanMoveRight g
  · left
    refine ⟨hc, ?_⟩
    unfold moveRight
    simp only []
    rw [if_pos ((moveRight_check_iff hty).mpr hc)]
    simp only [(pop_fieldOnly g).activeTetromino_eq]
  · right
    refine ⟨hc, ?_⟩
    unfold moveRight
    simp only [if_neg (fun h => hc ((moveRight_check_iff hty).mp h))]
    rfl

/-- The criterion of the code for a horizontal move: for every state (values of
the C types), `moveLeft` returns 0 and moves the tetromino one column to the
left (`x` becomes `x - 1` as an `int8_t` value, which is `x - 1` unless
`x = -128`) if and only if, on the board with the footprint removed, the cell
read by `getGameFieldPixel` is empty for every occupied local cell, the
coordinates `x + lx - 1` and `y + ly` being narrowed to `int8_t` as the call
does; otherwise it returns 1 and leaves the active tetromino unchanged, and
every board cell unchanged when the footprint was merged on entry.  `moveRight`
is the same with `x + lx + 1` and `x + 1` (which is `x + 1` unless `x = 127`).
In both outcomes `y`, the size and the pixels are unchanged. -/
theorem horizontal_move (g : Game) (hty : WellTyped g) :
    ((((moveLeft g).1 = 0 ∧
          (moveLeft g).2.activeTetromino.x = toInt8 (g.activeTetromino.x - 1)) ↔
        CanMoveLeft g) ∧
      (CanMoveLeft g → -128 < g.activeTetromino.x →
        (moveLeft g).2.activeTetromino.x = g.activeTetromino.x - 1) ∧
      (¬ CanMoveLeft g →
        (moveLeft g).1 = 1 ∧ (moveLeft g).2.activeTetromino = g.activeTetromino ∧
        (FootprintMerged g →
          (∀ X Y : Int, getGameFieldPixel (moveLeft g).2 X Y = getGameFieldPixel g X Y) ∧
          (0 ≤ g.width → (moveLeft g).2.gameField = g.gameField))) ∧
      (moveLeft g).2.activeTetromino.y = g.activeTetromino.y ∧
      (moveLeft g).2.activeTetromino.size = g.activeTetromino.size ∧
      (moveLeft g).2.activeTetromino.pixels = g.activeTetromino.pixels) ∧
    ((((moveRight g).1 = 0 ∧
          (moveRight g).2.activeTetromino.x = toInt8 (g.activeTetromino.x + 1)) ↔
        CanMoveRight g) ∧
      (CanMoveRight g → g.activeTetromino.x < 127 →
        (moveRight g).2.activeTetromino.x = g.activeTetromino.x + 1) ∧
      (¬ CanMoveRight g →
        (moveRight g).1 = 1 ∧ (moveRight g).2.activeTetromino = g.activeTetromino ∧
        (FootprintMerged g →
          (∀ X Y : Int, getGameFieldPixel (moveRight g).2 X Y = getGameFieldPixel g X Y) ∧
          (0 ≤ g.width → (moveRight g).2.gameField = g.gameField))) ∧
      (moveRight g).2.activeTetromino.y = g.activeTetromino.y ∧
      (moveRight g).2.activeTetromino.size = g.activeTetromino.size ∧
      (moveRight g).2.activeTetromino.pixels = g.activeTetromino.pixels) := by
  have hx := hty.2.2.2.1
  unfold Int8 at hx
  constructor
  · rcases moveLeft_cases hty with ⟨hc, he⟩ | ⟨hc, he⟩
    · rw [he]
      simp only [(push_fieldOnly _).activeTetromino_eq, hc, and_self, true_and, not_true_eq_false,
        false_implies, iff_true, forall_true_left]
      refine ⟨fun hlow => ?_, trivial⟩
      unfold toInt8
      omega
    · rw [he]
      simp only [(landed_fieldOnly g).activeTetromino_eq, hc, false_implies, not_false_eq_true,
        forall_true_left, true_and, and_true, iff_false, not_and]
      refine ⟨fun h => absurd h (by decide), fun hm =>
        ⟨getGameFieldPixel_landed_of_merged hty hm, landed_gameField_of_merged hty hm⟩⟩
  · rcases moveRight_cases hty with ⟨hc, he⟩ | ⟨hc, he⟩
    · rw [he]
      simp only [(push_fieldOnly _).activeTetromino_eq, hc, and_self, true_and, not_true_eq_false,
        false_implies, iff_true, forall_true_left]
      refine ⟨fun hlow => ?_, trivial⟩
      unfold toInt8
      omega
    · rw [he]
      simp only [(landed_fieldOnly g).activeTetromino_eq, hc, false_implies, not_false_eq_true,
        forall_true_left, true_and, and_true, iff_false, not_and]
      refine ⟨fun h => absurd h (by decide), fun hm =>
        ⟨getGameFieldPixel_landed_of_merged hty hm, landed_gameField_of_merged hty hm⟩⟩

/-- Example of a horizontal move: against the left wall the square cannot move
left and the board stays as it is; it can move right, to `x = 1`. -/
theorem horizontal_move_witness :
    ((moveLeft leftWallGame).1 = 1 ∧
        (moveLeft leftWallGame).2.gameField = leftWallGame.gameField) ∧
      ((moveRight leftWallGame).1 = 0 ∧ (moveRight leftWallGame).2.activeTetromino.x = 1) :=
  have h := horizontal_move leftWallGame (by decide)
  have hl : ¬ CanMoveLeft leftWallGame :=
    fun hc => absurd (h.1.1.mpr hc).1 (by decide)
  have hr : CanMoveRight leftWallGame := h.2.1.mp ⟨by decide, by decide⟩
  ⟨⟨(h.1.2.2.1 hl).1, ((h.1.2.2.1 hl).2.2 (by decide)).2 (by decide)⟩,
    ⟨(h.2.1.mpr hr).1, h.2.2.1 hr (by decide)⟩⟩

/-- The two outcomes of `rotateClockwise`. -/
theorem rotateClockwise_cases (g : Game) :
    (canActiveTetrominoRotateClockwise (popActiveTetrominoInfo g) ≠ 0 ∧
      rotateClockwise g = (0, pushActiveTetrominoInfo
        { popActiveTetrominoInfo g with
          activeTetromino := { g.activeTetromino with
            pixels := rotatedBuffer clockwiseTarget g.activeTetromino } })) ∨
    (canActiveTetrominoRotateClockwise (popActiveTetrominoInfo g) = 0 ∧
      rotateClockwise g = (1, landed g)) := by
  by_cases hc : canActiveTetrominoRotateClockwise (popActiveTetrominoInfo g) = 0
  · right
    refine ⟨hc, ?_⟩
    unfold rotateClockwise
    simp only [hc, ne_eq, not_true_eq_false, if_false]
    rfl
  · left
    refine ⟨hc, ?_⟩
    unfold rotateClockwise
    simp only []
    rw [if_pos hc]
    simp only [(pop_fieldOnly g).activeTetromino_eq]

/-- The two outcomes of `rotateAgainstClockwise`. -/
theorem rotateAgainstClockwise_cases (g : Game) :
    (canActiveTetrominoRotateAgainstClockwise (popActiveTetrominoInfo g) ≠ 0 ∧
      rotateAgainstClockwise g = (0, pushActiveTetrominoInfo
        { popActiveTetrominoInfo g with
          activeTetromino := { g.activeTetromino with
            pixels := rotatedBuffer againstClockwiseTarget g.activeTetromino } })) ∨
    (canActiveTetrominoRotateAgainstClockwise (popActiveTetrominoInfo g) = 0 ∧
      rotateAgainstClockwise g = (1, landed g)) := by
  by_cases hc : canActiveTetrominoRotateAgainstClockwise (popActiveTetrominoInfo g) = 0
  · right
    refine ⟨hc, ?_⟩
    unfold rotateAgainstClockwise
    simp only [hc, ne_eq, not_true_eq_false, if_false]
    rfl
  · left
    refine ⟨hc, ?_⟩
    unfold rotateAgainstClockwise
    simp only []
    rw [if_pos hc]
    simp only [(pop_fieldOnly g).activeTetromino_eq]

theorem rotateClockwise_blocked {g : Game} (h : (rotateClockwise g).1 = 1) :
    rotateClockwise g = (1, landed g) := by
  rcases rotateClockwise_cases g with ⟨-, he⟩ | ⟨-, he⟩
  · rw [he] at h; cases h
  · exact he

theorem rotateAgainstClockwise_blocked {g : Game} (h : (rotateAgainstClockwise g).1 = 1) :
    rotateAgainstClockwise g = (1, landed g) := by
  rcases rotateAgainstClockwise_cases g with ⟨-, he⟩ | ⟨-, he⟩
  · rw [he] at h; cases h
  · exact he

/-- C16. Blocked rotation is atomic: for every state (values of the C types),
when `rotateClockwise` or `rotateAgainstClockwise` returns 1, the active
tetromino (`x`, `y`, size and the pixel buffer) is exactly as before the call,
and every board cell is exactly as before the call provided the footprint was
merged into the board on entry. -/
theorem rotation_blocked_atomic (g : Game) (hty : WellTyped g) :
    ((rotateClockwise g).1 = 1 →
      (rotateClockwise g).2.activeTetromino = g.activeTetromino ∧
      (FootprintMerged g →
        (∀ X Y : Int, getGameFieldPixel (rotateClockwise g).2 X Y = getGameFieldPixel g X Y) ∧
        (0 ≤ g.width → (rotateClockwise g).2.gameField = g.gameField))) ∧
    ((rotateAgainstClockwise g).1 = 1 →
      (rotateAgainstClockwise g).2.activeTetromino = g.activeTetromino ∧
      (FootprintMerged g →
        (∀ X Y : Int,
          getGameFieldPixel (rotateAgainstClockwise g).2 X Y = getGameFieldPixel g X Y) ∧
        (0 ≤ g.width → (rotateAgainstClockwise g).2.gameField = g.gameField))) := by
  constructor
  · intro h
    rw [rotateClockwise_blocked h]
    exact ⟨(landed_fieldOnly g).activeTetromino_eq, fun hm =>
      ⟨getGameFieldPixel_landed_of_merged hty hm, landed_gameField_of_merged hty hm⟩⟩
  · intro h
    rw [rotateAgainstClockwise_blocked h]
    exact ⟨(landed_fieldOnly g).activeTetromino_eq, fun hm =>
      ⟨getGameFieldPixel_landed_of_merged hty hm, landed_gameField_of_merged hty hm⟩⟩

/-- Witness of C16: the upright bar in the last column cannot turn clockwise,
the wall is in the way; tetromino and board stay as they were. -/
theorem rotation_blocked_atomic_witness :
    (rotateClockwise barAtWallGame).1 = 1 ∧
      (rotateClockwise barAtWallGame).2.activeTetromino = barAtWallGame.activeTetromino ∧
      (rotateClockwise barAtWallGame).2.gameField = barAtWallGame.gameField :=
  have h := (rotation_blocked_atomic barAtWallGame (by decide)).1 (by decide)
  ⟨by decide, h.1, (h.2 (by decide)).2 (by decide)⟩

section storeLemmas
variable {α : Type} (c : α → Prop) [DecidablePred c] (v : α → Nat) (ix : α → Nat)

theorem foldl_store_length (l : List α) (b : List Nat) :
    (l.foldl (store c v ix) b).length = b.length := by
  induction l generalizing b with
  | nil => rfl
  | cons a l ih =>
    rw [List.foldl_cons, ih]
    unfold store
    split_ifs
    · exact List.length_set _ _ _
    · rfl

theorem foldl_store_miss (l : List α) (b : List Nat) (i : Nat)
    (hmiss : ∀ a ∈ l, c a → ix a ≠ i) :
    (l.foldl (store c v ix) b).getD i 0 = b.getD i 0 := by
  induction l generalizing b with
  | nil => rfl
  | cons a l ih =>
    rw [List.foldl_cons, ih _ (fun d hd => hmiss d (List.mem_cons_of_mem _ hd))]
    unfold store
    split_ifs with hc
    · have := hmiss a (List.mem_cons_self _ _) hc
      rw [List.getD_eq_getElem?_getD, List.getD_eq_getElem?_getD, List.getElem?_set, if_neg this]
    · rfl

theorem foldl_store_hit (l : List α) (b : List Nat) (i val : Nat) (hi : i < b.length)
    (hex : ∃ a ∈ l, c a ∧ ix a = i) (hsame : ∀ d ∈ l, c d → ix d = i → v d = val) :
    (l.foldl (store c v ix) b).getD i 0 = val := by
  induction l generalizing b with
  | nil => obtain ⟨a, ha, -⟩ := hex; cases ha
  | cons e l ih =>
    rw [List.foldl_cons]
    have hlen : i < (store c v ix b e).length := by
      unfold store; split_ifs
      · rw [List.length_set]; exact hi
      · exact hi
    by_cases hlater : ∃ d ∈ l, c d ∧ ix d = i
    · exact ih _ hlen hlater (fun d hd => hsame d (List.mem_cons_of_mem _ hd))
    · have hmiss : ∀ d ∈ l, c d → ix d ≠ i := fun d hd hcd hxd => hlater ⟨d, hd, hcd, hxd⟩
      rw [foldl_store_miss c v ix l _ i hmiss]
      obtain ⟨a, ha, hca, hxa⟩ := hex
      have hae : a = e := by
        rcases List.mem_cons.mp ha with h | h
        · exact h
        · exact absurd hxa (hmiss a h hca)
      subst hae
      unfold store
      rw [if_pos hca, List.getD_eq_getElem?_getD, List.getElem?_set, if_pos hxa, if_pos (hxa ▸ hi)]
      exact hsame a (List.mem_cons_self _ _) hca hxa

end storeLemmas

theorem getD_replicate_zero (n i : Nat) : (List.replicate n 0).getD i 0 = 0 := by
  rw [List.getD_eq_getElem?_getD, List.getElem?_replicate]
  split_ifs <;> rfl

theorem rotatedBuffer_eq_foldl (target : Int → Int → Int → Int × Int) (a : ActiveTetromino) :
    rotatedBuffer target a = (cells a.size.toNat).foldl
      (store (fun p : Nat × Nat => flatArrayAs2D a.pixels p.1 p.2 tetrominoMaxSize ≠ 0)
        (fun p => flatArrayAs2D a.pixels p.1 p.2 tetrominoMaxSize)
        (fun p => ((target a.size p.1 p.2).2 * tetrominoMaxSize + (target a.size p.1 p.2).1).toNat))
      (List.replicate tetrominoArrayMaxSize 0) := by
  rw [← foldl_nested]
  rfl

theorem rotatedBuffer_length (target : Int → Int → Int → Int × Int) (a : ActiveTetromino) :
    (rotatedBuffer target a).length = 16 := by
  rw [rotatedBuffer_eq_foldl, foldl_store_length]
  rfl

/-- The buffer after a clockwise turn: inside the `size × size` square the cell
`(X, Y)` holds the old cell `(size - 1 - Y, X)`; every other cell is zero. -/
theorem rotatedBuffer_clockwise (a : ActiveTetromino) (hs : a.size ≤ 4) (X Y : Nat)
    (hX : X < 4) (hY : Y < 4) :
    flatArrayAs2D (rotatedBuffer clockwiseTarget a) X Y tetrominoMaxSize =
      if (X : Int) < a.size ∧ (Y : Int) < a.size then
        flatArrayAs2D a.pixels (a.size - 1 - Y) X tetrominoMaxSize
      else 0 := by
  have hidx : ((Y : Int) * tetrominoMaxSize + X).toNat = Y * 4 + X := by
    show ((Y : Int) * 4 + X).toNat = Y * 4 + X
    omega
  have key : ∀ p ∈ cells a.size.toNat,
      (((clockwiseTarget a.size p.1 p.2).2 * tetrominoMaxSize +
        (clockwiseTarget a.size p.1 p.2).1).toNat = Y * 4 + X ↔
        (p.2 = X ∧ a.size - 1 - (p.1 : Int) = Y)) := by
    intro p hp
    rw [mem_cells] at hp
    rw [clockwiseTarget_eq]
    show ((a.size - 1 - (p.1 : Int)) * 4 + (p.2 : Int)).toNat = Y * 4 + X ↔ _
    omega
  unfold flatArrayAs2D
  rw [hidx, rotatedBuffer_eq_foldl]
  by_cases hin : (X : Int) < a.size ∧ (Y : Int) < a.size
  · rw [if_pos hin]
    have hsrc : ((a.size - 1 - (Y : Int)).toNat, X) ∈ cells a.size.toNat := by
      rw [mem_cells]; simp only; omega
    have hcast : (((a.size - 1 - (Y : Int)).toNat : Nat) : Int) = a.size - 1 - Y := by omega
    by_cases hp : flatArrayAs2D a.pixels (a.size - 1 - Y) X tetrominoMaxSize = 0
    · rw [foldl_store_miss]
      · unfold flatArrayAs2D at hp
        rw [hp]
        exact getD_replicate_zero _ _
      · intro p hpm hc hix
        have := (key p hpm).mp hix
        apply hc
        have h1 : (p.1 : Int) = a.size - 1 - Y := by omega
        have h2 : (p.2 : Int) = X := by omega
        rw [h1, h2]
        exact hp
    · apply foldl_store_hit
      · show Y * 4 + X < (List.replicate 16 0).length
        rw [List.length_replicate]; omega
      · refine ⟨_, hsrc, ?_, (key _ hsrc).mpr ?_⟩
        · simp only; rw [hcast]; exact hp
        · exact ⟨rfl, by rw [hcast]; omega⟩
      · intro p hpm _ hix
        have := (key p hpm).mp hix
        have h1 : (p.1 : Int) = a.size - 1 - Y := by omega
        have h2 : (p.2 : Int) = X := by omega
        show flatArrayAs2D a.pixels p.1 p.2 tetrominoMaxSize = _
        rw [h1, h2]
        rfl
  · rw [if_neg hin, foldl_store_miss]
    · exact getD_replicate_zero _ _
    · intro p hpm _ hix
      have := (key p hpm).mp hix
      rw [mem_cells] at hpm
      omega

/-- The buffer after a counterclockwise turn: inside the `size × size` square the
cell `(X, Y)` holds the old cell `(Y, size - 1 - X)`; every other cell is zero. -/
theorem rotatedBuffer_againstClockwise (a : ActiveTetromino) (hs : a.size ≤ 4) (X Y : Nat)
    (hX : X < 4) (hY : Y < 4) :
    flatArrayAs2D (rotatedBuffer againstClockwiseTarget a) X Y tetrominoMaxSize =
      if (X : Int) < a.size ∧ (Y : Int) < a.size then
        flatArrayAs2D a.pixels Y (a.size - 1 - X) tetrominoMaxSize
      else 0 := by
  have hidx : ((Y : Int) * tetrominoMaxSize + X).toNat = Y * 4 + X := by
    show ((Y : Int) * 4 + X).toNat = Y * 4 + X
    omega
  have key : ∀ p ∈ cells a.size.toNat,
      (((againstClockwiseTarget a.size p.1 p.2).2 * tetrominoMaxSize +
        (againstClockwiseTarget a.size p.1 p.2).1).toNat = Y * 4 + X ↔
        (p.1 = Y ∧ a.size - 1 - (p.2 : Int) = X)) := by
    intro p hp
    rw [mem_cells] at hp
    rw [againstClockwiseTarget_eq]
    show (((p.1 : Int)) * 4 + (a.size - 1 - (p.2 : Int))).toNat = Y * 4 + X ↔ _
    omega
  unfold flatArrayAs2D
  rw [hidx, rotatedBuffer_eq_foldl]
  by_cases hin : (X : Int) < a.size ∧ (Y : Int) < a.size
  · rw [if_pos hin]
    have hsrc : (Y, (a.size - 1 - (X : Int)).toNat) ∈ cells a.size.toNat := by
      rw [mem_cells]; simp only; omega
    have hcast : (((a.size - 1 - (X : Int)).toNat : Nat) : Int) = a.size - 1 - X := by omega
    by_cases hp : flatArrayAs2D a.pixels Y (a.size - 1 - X) tetrominoMaxSize = 0
    · rw [foldl_store_miss]
      · unfold flatArrayAs2D at hp
        rw [hp]
        exact getD_replicate_zero _ _
      · intro p hpm hc hix
        have := (key p hpm).mp hix
        apply hc
        have h1 : (p.1 : Int) = Y := by omega
        have h2 : (p.2 : Int) = a.size - 1 - X := by omega
        rw [h1, h2]
        exact hp
    · apply foldl_store_hit
      · show Y * 4 + X < (List.replicate 16 0).length
        rw [List.length_replicate]; omega
      · refine ⟨_, hsrc, ?_, (key _ hsrc).mpr ?_⟩
        · simp only; rw [hcast]; exact hp
        · exact ⟨rfl, by rw [hcast]; omega⟩
      · intro p hpm _ hix
        have := (key p hpm).mp hix
        have h1 : (p.1 : Int) = Y := by omega
        have h2 : (p.2 : Int) = a.size - 1 - X := by omega
        show flatArrayAs2D a.pixels p.1 p.2 tetrominoMaxSize = _
        rw [h1, h2]
        rfl
  · rw [if_neg hin, foldl_store_miss]
    · exact getD_replicate_zero _ _
    · intro p hpm _ hix
      have := (key p hpm).mp hix
      rw [mem_cells] at hpm
      omega

theorem pixels_ext {p q : List Nat} (hp : p.length = 16) (hq : q.length = 16)
    (h : ∀ X : Nat, X < 4 → ∀ Y : Nat, Y < 4 →
      flatArrayAs2D p X Y tetrominoMaxSize = flatArrayAs2D q X Y tetrominoMaxSize) : p = q := by
  apply List.ext_getElem (by rw [hp, hq])
  intro i h1 h2
  have := h (i % 4) (Nat.mod_lt _ (by decide)) (i / 4) (by omega)
  unfold flatArrayAs2D at this
  have hidx : (((i / 4 : Nat) : Int) * tetrominoMaxSize + ((i % 4 : Nat) : Int)).toNat = i := by
    show (((i / 4 : Nat) : Int) * 4 + ((i % 4 : Nat) : Int)).toNat = i
    omega
  rw [hidx, List.getD_eq_getElem _ _ h1, List.getD_eq_getElem _ _ h2] at this
  exact this

/-- A clockwise turn followed by a counterclockwise turn restores the buffer of a
well-formed shape. -/
theorem rotatedBuffer_round_trip_clockwise (a : ActiveTetromino) (hl : a.pixels.length = 16)
    (hwf : ShapeWellFormed a.size a.pixels) :
    rotatedBuffer againstClockwiseTarget
      { a with pixels := rotatedBuffer clockwiseTarget a } = a.pixels := by
  apply pixels_ext (rotatedBuffer_length _ _) hl
  intro X hX Y hY
  rw [rotatedBuffer_againstClockwise { a with pixels := rotatedBuffer clockwiseTarget a } hwf.1
    X Y hX hY]
  simp only
  by_cases hin : (X : Int) < a.size ∧ (Y : Int) < a.size
  · rw [if_pos hin]
    have h1 : a.size - 1 - (X : Int) = (((a.size - 1 - (X : Int)).toNat : Nat) : Int) := by omega
    rw [h1, rotatedBuffer_clockwise a hwf.1 Y _ hY (by have := hwf.1; omega), ← h1,
      if_pos (by omega)]
    congr 1
    omega
  · rw [if_neg hin]
    exact (hwf.2 X hX Y hY (by omega)).symm

/-- A counterclockwise turn followed by a clockwise turn restores the buffer of a
well-formed shape. -/
theorem rotatedBuffer_round_trip_againstClockwise (a : ActiveTetromino)
    (hl : a.pixels.length = 16) (hwf : ShapeWellFormed a.size a.pixels) :
    rotatedBuffer clockwiseTarget
      { a with pixels := rotatedBuffer againstClockwiseTarget a } = a.pixels := by
  apply pixels_ext (rotatedBuffer_length _ _) hl
  intro X hX Y hY
  rw [rotatedBuffer_clockwise { a with pixels := rotatedBuffer againstClockwiseTarget a } hwf.1
    X Y hX hY]
  simp only
  by_cases hin : (X : Int) < a.size ∧ (Y : Int) < a.size
  · rw [if_pos hin]
    have h1 : a.size - 1 - (Y : Int) = (((a.size - 1 - (Y : Int)).toNat : Nat) : Int) := by omega
    rw [h1, rotatedBuffer_againstClockwise a hwf.1 _ X (by have := hwf.1; omega) hX, ← h1,
      if_pos (by omega)]
    congr 1
    omega
  · rw [if_neg hin]
    exact (hwf.2 X hX Y hY (by omega)).symm

theorem rotateClockwise_rotated {g : Game} (h : (rotateClockwise g).1 = 0) :
    (rotateClockwise g).2.activeTetromino =
      { g.activeTetromino with pixels := rotatedBuffer clockwiseTarget g.activeTetromino } := by
  rcases rotateClockwise_cases g with ⟨-, he⟩ | ⟨-, he⟩
  · rw [he, (push_fieldOnly _).activeTetromino_eq]
  · rw [he] at h; cases h

theorem rotateAgainstClockwise_rotated {g : Game} (h : (rotateAgainstClockwise g).1 = 0) :
    (rotateAgainstClockwise g).2.activeTetromino =
      { g.activeTetromino with
        pixels := rotatedBuffer againstClockwiseTarget g.activeTetromino } := by
  rcases rotateAgainstClockwise_cases g with ⟨-, he⟩ | ⟨-, he⟩
  · rw [he, (push_fieldOnly _).activeTetromino_eq]
  · rw [he] at h; cases h

/-- C17. Rotation round trip: for every state whose active shape is well formed
(size at most 4, in particular in [2, 4], a buffer of 16 cells, cells outside
`size × size` zero), if `rotateClockwise` reports rotated and the immediately
following `rotateAgainstClockwise` reports rotated, the active tetromino (pixel
buffer, `x`, `y` and size) equals its value before the two calls; the same
holds for `rotateAgainstClockwise` followed by `rotateClockwise`. -/
theorem rotation_round_trip (g : Game) (hl : g.activeTetromino.pixels.length = 16)
    (hwf : ShapeWellFormed g.activeTetromino.size g.activeTetromino.pixels) :
    ((rotateClockwise g).1 = 0 → (rotateAgainstClockwise (rotateClockwise g).2).1 = 0 →
      (rotateAgainstClockwise (rotateClockwise g).2).2.activeTetromino = g.activeTetromino) ∧
    ((rotateAgainstClockwise g).1 = 0 → (rotateClockwise (rotateAgainstClockwise g).2).1 = 0 →
      (rotateClockwise (rotateAgainstClockwise g).2).2.activeTetromino = g.activeTetromino) := by
  constructor
  · intro h1 h2
    rw [rotateAgainstClockwise_rotated h2, rotateClockwise_rotated h1]
    have := rotatedBuffer_round_trip_clockwise g.activeTetromino hl hwf
    simp only at this ⊢
    rw [this]
  · intro h1 h2
    rw [rotateClockwise_rotated h2, rotateAgainstClockwise_rotated h1]
    have := rotatedBuffer_round_trip_againstClockwise g.activeTetromino hl hwf
    simp only at this ⊢
    rw [this]

/-- Witness of C17: the T-shaped tetromino turns clockwise and back. -/
theorem rotation_round_trip_witness :
    (rotateClockwise teeGame).1 = 0 ∧
      (rotateClockwise teeGame).2.activeTetromino.pixels =
        [0, 7, 0, 0, 7, 7, 0, 0, 0, 7, 0, 0, 0, 0, 0, 0] ∧
      (rotateAgainstClockwise (rotateClockwise teeGame).2).2.activeTetromino =
        teeGame.activeTetromino :=
  ⟨by decide, by decide,
    (rotation_round_trip teeGame (by decide) (by decide)).1 (by decide) (by decide)⟩

/-- C30. Frame of player input: for every state, `moveLeft`, `moveRight`,
`rotateClockwise` and `rotateAgainstClockwise` leave the status, the score, the
cap, the width, the height and the next shape (size and pixel buffer)
unchanged, whether they report success or blocked; they call neither the
generator nor the score function (the records of the calls are unchanged), and
the callbacks themselves are unchanged. -/
theorem input_frame (g : Game) :
    ((moveLeft g).2.status = g.status ∧ (moveLeft g).2.score = g.score ∧
      (moveLeft g).2.maxScore = g.maxScore ∧ (moveLeft g).2.width = g.width ∧
      (moveLeft g).2.height = g.height ∧ (moveLeft g).2.nextTetromino = g.nextTetromino ∧
      (moveLeft g).2.generated = g.generated ∧ (moveLeft g).2.scoreArgs = g.scoreArgs ∧
      (moveLeft g).2.getNextTetromino = g.getNextTetromino ∧
      (moveLeft g).2.getScoreAddend = g.getScoreAddend) ∧
    ((moveRight g).2.status = g.status ∧ (moveRight g).2.score = g.score ∧
      (moveRight g).2.maxScore = g.maxScore ∧ (moveRight g).2.width = g.width ∧
      (moveRight g).2.height = g.height ∧ (moveRight g).2.nextTetromino = g.nextTetromino ∧
      (moveRight g).2.generated = g.generated ∧ (moveRight g).2.scoreArgs = g.scoreArgs ∧
      (moveRight g).2.getNextTetromino = g.getNextTetromino ∧
      (moveRight g).2.getScoreAddend = g.getScoreAddend) ∧
    ((rotateClockwise g).2.status = g.status ∧ (rotateClockwise g).2.score = g.score ∧
      (rotateClockwise g).2.maxScore = g.maxScore ∧ (rotateClockwise g).2.width = g.width ∧
      (rotateClockwise g).2.height = g.height ∧
      (rotateClockwise g).2.nextTetromino = g.nextTetromino ∧
      (rotateClockwise g).2.generated = g.generated ∧
      (rotateClockwise g).2.scoreArgs = g.scoreArgs ∧
      (rotateClockwise g).2.getNextTetromino = g.getNextTetromino ∧
      (rotateClockwise g).2.getScoreAddend = g.getScoreAddend) ∧
    ((rotateAgainstClockwise g).2.status = g.status ∧
      (rotateAgainstClockwise g).2.score = g.score ∧
      (rotateAgainstClockwise g).2.maxScore = g.maxScore ∧
      (rotateAgainstClockwise g).2.width = g.width ∧
      (rotateAgainstClockwise g).2.height = g.height ∧
      (rotateAgainstClockwise g).2.nextTetromino = g.nextTetromino ∧
      (rotateAgainstClockwise g).2.generated = g.generated ∧
      (rotateAgainstClockwise g).2.scoreArgs = g.scoreArgs ∧
      (rotateAgainstClockwise g).2.getNextTetromino = g.getNextTetromino ∧
      (rotateAgainstClockwise g).2.getScoreAddend = g.getScoreAddend) := by
  have h1 := moveLeft_frame g
  have h2 := moveRight_frame g
  have h3 := rotateClockwise_frame g
  have h4 := rotateAgainstClockwise_frame g
  exact ⟨⟨h1.status_kept, h1.score_kept, h1.maxScore_kept, h1.width_kept, h1.height_kept,
      h1.nextTetromino_kept, h1.generated_kept, h1.scoreArgs_kept, h1.getNextTetromino_kept,
      h1.getScoreAddend_kept⟩,
    ⟨h2.status_kept, h2.score_kept, h2.maxScore_kept, h2.width_kept, h2.height_kept,
      h2.nextTetromino_kept, h2.generated_kept, h2.scoreArgs_kept, h2.getNextTetromino_kept,
      h2.getScoreAddend_kept⟩,
    ⟨h3.status_kept, h3.score_kept, h3.maxScore_kept, h3.width_kept, h3.height_kept,
      h3.nextTetromino_kept, h3.generated_kept, h3.scoreArgs_kept, h3.getNextTetromino_kept,
      h3.getScoreAddend_kept⟩,
    ⟨h4.status_kept, h4.score_kept, h4.maxScore_kept, h4.width_kept, h4.height_kept,
      h4.nextTetromino_kept, h4.generated_kept, h4.scoreArgs_kept, h4.getNextTetromino_kept,
      h4.getScoreAddend_kept⟩⟩

/-- C26. `setPixel`: for every board with its allocated length, pixel value `p`
and coordinates `(x, y)`, if `0 ≤ x < width` and `0 ≤ y < height` then
afterwards the cell at `(x, y)` holds exactly `p`, every other position reads
as before and nothing but the game field has changed; otherwise the whole
state is unchanged. -/
theorem setPixel_spec (g : Game) (hb : BoardOk g) (p : Nat) (x y : Int) :
    (InBoard g x y →
      getGameFieldPixel (setPixel g p x y) x y = p ∧
      (∀ X Y : Int, ¬ (X = x ∧ Y = y) →
        getGameFieldPixel (setPixel g p x y) X Y = getGameFieldPixel g X Y) ∧
      (setPixel g p x y).gameField = g.gameField.set (y * g.width + x).toNat p ∧
      (setPixel g p x y).gameField.length = g.gameField.length ∧
      FieldOnly g (setPixel g p x y)) ∧
    (¬ InBoard g x y → setPixel g p x y = g) := by
  constructor
  · intro hin
    refine ⟨?_, ?_, ?_, ?_, setPixel_fieldOnly g p x y⟩
    · rw [getGameFieldPixel_setPixel hb, if_pos ⟨rfl, rfl, hin⟩]
    · intro X Y hne
      rw [getGameFieldPixel_setPixel hb, if_neg (fun h => hne ⟨h.1, h.2.1⟩)]
    · unfold InBoard at hin
      unfold setPixel flatArrayAs2DSet
      rw [if_neg (by omega), if_neg (by omega), if_neg (by omega)]
    · have := setPixel_boardOk hb p x y
      have hfo := setPixel_fieldOnly g p x y
      unfold BoardOk at this hb
      rw [this, hb, hfo.width_eq, hfo.height_eq]
  · intro hout
    unfold InBoard at hout
    unfold setPixel
    split_ifs <;> first | rfl | omega

/-- Witness of C26: writing 9 at `(1, 2)` of the 4 × 4 board of `fallingGame`. -/
theorem setPixel_spec_witness :
    getGameFieldPixel (setPixel fallingGame 9 1 2) 1 2 = 9 ∧
      (setPixel fallingGame 9 1 2).gameField =
        [0, 0, 0, 0, 0, 0, 0, 0, 0, 9, 0, 0, 0, 0, 0, 0] ∧
      setPixel fallingGame 9 4 2 = fallingGame :=
  have h := setPixel_spec fallingGame (by decide) 9 1 2
  have h2 := setPixel_spec fallingGame (by decide) 9 4 2
  ⟨(h.1 (by decide)).1, (h.1 (by decide)).2.2.1.trans (by decide), h2.2 (by decide)⟩

theorem againstClockwiseTarget_cell (a : ActiveTetromino) (hs : a.size ≤ 4) (sx sy : Nat)
    (hx : (sx : Int) < a.size) (hy : (sy : Int) < a.size) :
    flatArrayAs2D (rotatedBuffer againstClockwiseTarget a)
        (againstClockwiseTarget a.size sx sy).1 (againstClockwiseTarget a.size sx sy).2
        tetrominoMaxSize =
      flatArrayAs2D a.pixels sx sy tetrominoMaxSize := by
  rw [againstClockwiseTarget_eq]
  have h := rotatedBuffer_againstClockwise a hs (a.size - 1 - sy).toNat sx (by omega) (by omega)
  have e : (((a.size - 1 - sy).toNat : Nat) : Int) = a.size - 1 - sy := by omega
  rw [e] at h
  simp only []
  rw [h, if_pos (by omega)]
  congr 1
  omega

theorem clockwiseTarget_cell (a : ActiveTetromino) (hs : a.size ≤ 4) (sx sy : Nat)
    (hx : (sx : Int) < a.size) (hy : (sy : Int) < a.size) :
    flatArrayAs2D (rotatedBuffer clockwiseTarget a)
        (clockwiseTarget a.size sx sy).1 (clockwiseTarget a.size sx sy).2 tetrominoMaxSize =
      flatArrayAs2D a.pixels sx sy tetrominoMaxSize := by
  rw [clockwiseTarget_eq]
  have h := rotatedBuffer_clockwise a hs sy (a.size - 1 - sx).toNat (by omega) (by omega)
  have e : (((a.size - 1 - sx).toNat : Nat) : Int) = a.size - 1 - sx := by omega
  rw [e] at h
  simp only []
  rw [h, if_pos (by omega)]
  congr 1
  omega

theorem rotatedBuffer_outside_clockwise (a : ActiveTetromino) (hs : a.size ≤ 4) (X Y : Nat)
    (hX : X < 4) (hY : Y < 4) (ho : a.size ≤ X ∨ a.size ≤ Y) :
    flatArrayAs2D (rotatedBuffer clockwiseTarget a) X Y tetrominoMaxSize = 0 := by
  rw [rotatedBuffer_clockwise a hs X Y hX hY, if_neg (by omega)]

theorem rotatedBuffer_outside_againstClockwise (a : ActiveTetromino) (hs : a.size ≤ 4) (X Y : Nat)
    (hX : X < 4) (hY : Y < 4) (ho : a.size ≤ X ∨ a.size ≤ Y) :
    flatArrayAs2D (rotatedBuffer againstClockwiseTarget a) X Y tetrominoMaxSize = 0 := by
  rw [rotatedBuffer_againstClockwise a hs X Y hX hY, if_neg (by omega)]

/-- C21. Rotation equals the reference quarter turn.  For every size `n` in
`2 .. 4` and every source cell `0 ≤ sx, sy < n` the target computed by the code
is `(sy, n - 1 - sx)` clockwise and `(n - 1 - sy, sx)` counterclockwise;
rounding does not change the value (twice the rounded result is the doubled
argument of `round`), the target lies inside the `n × n` square and the write
index `ty * 4 + tx` lies inside the 16-cell buffer.  After a successful
`rotateClockwise` the new buffer has 16 cells, holds at the target of every
source cell of the square the old pixel value of that source cell, is zero at
every cell outside the square, and `x`, `y` and `size` are unchanged; likewise
for `rotateAgainstClockwise`. -/
theorem rotation_quarter_turn (g : Game) (hlo : 2 ≤ g.activeTetromino.size)
    (hhi : g.activeTetromino.size ≤ 4) :
    (∀ sx sy : Nat, (sx : Int) < g.activeTetromino.size → (sy : Int) < g.activeTetromino.size →
      clockwiseTarget g.activeTetromino.size sx sy = ((sy : Int), g.activeTetromino.size - 1 - sx) ∧
      againstClockwiseTarget g.activeTetromino.size sx sy =
        (g.activeTetromino.size - 1 - sy, (sx : Int)) ∧
      2 * (clockwiseTarget g.activeTetromino.size sx sy).1 =
        (2 * sy - (g.activeTetromino.size - 1)) + (g.activeTetromino.size - 1) ∧
      2 * (clockwiseTarget g.activeTetromino.size sx sy).2 =
        -(2 * sx - (g.activeTetromino.size - 1)) + (g.activeTetromino.size - 1) ∧
      2 * (againstClockwiseTarget g.activeTetromino.size sx sy).1 =
        -(2 * sy - (g.activeTetromino.size - 1)) + (g.activeTetromino.size - 1) ∧
      2 * (againstClockwiseTarget g.activeTetromino.size sx sy).2 =
        (2 * sx - (g.activeTetromino.size - 1)) + (g.activeTetromino.size - 1) ∧
      (0 ≤ (clockwiseTarget g.activeTetromino.size sx sy).1 ∧
        (clockwiseTarget g.activeTetromino.size sx sy).1 < g.activeTetromino.size ∧
        0 ≤ (clockwiseTarget g.activeTetromino.size sx sy).2 ∧
        (clockwiseTarget g.activeTetromino.size sx sy).2 < g.activeTetromino.size) ∧
      (0 ≤ (againstClockwiseTarget g.activeTetromino.size sx sy).1 ∧
        (againstClockwiseTarget g.activeTetromino.size sx sy).1 < g.activeTetromino.size ∧
        0 ≤ (againstClockwiseTarget g.activeTetromino.size sx sy).2 ∧
        (againstClockwiseTarget g.activeTetromino.size sx sy).2 < g.activeTetromino.size) ∧
      (0 ≤ (clockwiseTarget g.activeTetromino.size sx sy).2 * tetrominoMaxSize +
          (clockwiseTarget g.activeTetromino.size sx sy).1 ∧
        (clockwiseTarget g.activeTetromino.size sx sy).2 * tetrominoMaxSize +
          (clockwiseTarget g.activeTetromino.size sx sy).1 < 16) ∧
      (0 ≤ (againstClockwiseTarget g.activeTetromino.size sx sy).2 * tetrominoMaxSize +
          (againstClockwiseTarget g.activeTetromino.size sx sy).1 ∧
        (againstClockwiseTarget g.activeTetromino.size sx sy).2 * tetrominoMaxSize +
          (againstClockwiseTarget g.activeTetromino.size sx sy).1 < 16)) ∧
    ((rotateClockwise g).1 = 0 →
      (rotateClockwise g).2.activeTetromino.x = g.activeTetromino.x ∧
      (rotateClockwise g).2.activeTetromino.y = g.activeTetromino.y ∧
      (rotateClockwise g).2.activeTetromino.size = g.activeTetromino.size ∧
      (rotateClockwise g).2.activeTetromino.pixels.length = 16 ∧
      (∀ sx sy : Nat, (sx : Int) < g.activeTetromino.size → (sy : Int) < g.activeTetromino.size →
        flatArrayAs2D (rotateClockwise g).2.activeTetromino.pixels
            (clockwiseTarget g.activeTetromino.size sx sy).1
            (clockwiseTarget g.activeTetromino.size sx sy).2 tetrominoMaxSize =
          flatArrayAs2D g.activeTetromino.pixels sx sy tetrominoMaxSize) ∧
      (∀ X Y : Nat, X < 4 → Y < 4 →
        (g.activeTetromino.size ≤ X ∨ g.activeTetromino.size ≤ Y) →
        flatArrayAs2D (rotateClockwise g).2.activeTetromino.pixels X Y tetrominoMaxSize = 0)) ∧
    ((rotateAgainstClockwise g).1 = 0 →
      (rotateAgainstClockwise g).2.activeTetromino.x = g.activeTetromino.x ∧
      (rotateAgainstClockwise g).2.activeTetromino.y = g.activeTetromino.y ∧
      (rotateAgainstClockwise g).2.activeTetromino.size = g.activeTetromino.size ∧
      (rotateAgainstClockwise g).2.activeTetromino.pixels.length = 16 ∧
      (∀ sx sy : Nat, (sx : Int) < g.activeTetromino.size → (sy : Int) < g.activeTetromino.size →
        flatArrayAs2D (rotateAgainstClockwise g).2.activeTetromino.pixels
            (againstClockwiseTarget g.activeTetromino.size sx sy).1
            (againstClockwiseTarget g.activeTetromino.size sx sy).2 tetrominoMaxSize =
          flatArrayAs2D g.activeTetromino.pixels sx sy tetrominoMaxSize) ∧
      (∀ X Y : Nat, X < 4 → Y < 4 →
        (g.activeTetromino.size ≤ X ∨ g.activeTetromino.size ≤ Y) →
        flatArrayAs2D (rotateAgainstClockwise g).2.activeTetromino.pixels X Y
          tetrominoMaxSize = 0)) := by
  refine ⟨?_, ?_, ?_⟩
  · intro sx sy hx hy
    rw [clockwiseTarget_eq, againstClockwiseTarget_eq]
    simp only [tetrominoMaxSize]
    refine ⟨trivial, trivial, ?_, ?_, ?_, ?_, ?_, ?_, ?_, ?_⟩ <;> omega
  · intro h
    rw [rotateClockwise_rotated h]
    exact ⟨rfl, rfl, rfl, rotatedBuffer_length _ _,
      fun sx sy hx hy => clockwiseTarget_cell _ hhi sx sy hx hy,
      fun X Y hX hY ho => rotatedBuffer_outside_clockwise _ hhi X Y hX hY ho⟩
  · intro h
    rw [rotateAgainstClockwise_rotated h]
    exact ⟨rfl, rfl, rfl, rotatedBuffer_length _ _,
      fun sx sy hx hy => againstClockwiseTarget_cell _ hhi sx sy hx hy,
      fun X Y hX hY ho => rotatedBuffer_outside_againstClockwise _ hhi X Y hX hY ho⟩

/-- Witness of C21: the T-shaped tetromino of `teeGame` turned clockwise. -/
theorem rotation_quarter_turn_witness :
    (2 ≤ teeGame.activeTetromino.size ∧ teeGame.activeTetromino.size ≤ 4) ∧
      (rotateClockwise teeGame).1 = 0 ∧
      clockwiseTarget 3 1 0 = (0, 1) ∧
      (rotateClockwise teeGame).2.activeTetromino.pixels =
        [0, 7, 0, 0, 7, 7, 0, 0, 0, 7, 0, 0, 0, 0, 0, 0] ∧
      (rotateClockwise teeGame).2.activeTetromino.x = teeGame.activeTetromino.x :=
  have h := rotation_quarter_turn teeGame (by decide) (by decide)
  ⟨⟨by decide, by decide⟩, by decide, (h.1 1 0 (by decide) (by decide)).1, by decide,
    (h.2.1 (by decide)).1⟩

theorem GoodShape.int8_size {size : Int} {pixels : List Nat} (h : GoodShape size pixels) :
    Int8 size := by
  have := h.1
  have := h.2.2.1
  unfold Int8
  omega

theorem InPlay.started {width height maxScore : Int}
    {gen : Nat → NextTetromino → NextTetromino} {sc : Int → Nat} {g : Game}
    (h : InPlay width height maxScore gen sc g) : Started width height maxScore gen sc g := by
  induction h with
  | first heap g hg => exact Started.afterStart heap g hg
  | thenLeft g _ _ ih => exact Started.afterLeft g ih
  | thenRight g _ _ ih => exact Started.afterRight g ih
  | thenClockwise g _ _ ih => exact Started.afterClockwise g ih
  | thenAgainstClockwise g _ _ ih => exact Started.afterAgainstClockwise g ih
  | thenTick g _ _ ih => exact Started.afterTick g ih

theorem PlayInvariant.of_fieldOnly {gen : Nat → NextTetromino → NextTetromino} {g r : Game}
    (h : PlayInvariant gen g) (hf : FieldOnly g r) (hb : BoardOk r) : PlayInvariant gen r := by
  unfold PlayInvariant WellTyped at *
  rw [hf.width_eq, hf.height_eq, hf.activeTetromino_eq, hf.nextTetromino_eq, hf.score_eq,
    hf.maxScore_eq, hf.getNextTetromino_eq]
  obtain ⟨⟨h1, h2, h3, h4, h5, h6, h7, h8, _, h10, h11⟩, h12⟩ := h
  exact ⟨⟨h1, h2, h3, h4, h5, h6, h7, h8, hb, h10, h11⟩, h12⟩

theorem PlayInvariant.with_active {gen : Nat → NextTetromino → NextTetromino} {g : Game}
    (h : PlayInvariant gen g) (a : ActiveTetromino) (hx : Int8 a.x) (hy : Int8 a.y)
    (hs : GoodShape a.size a.pixels) :
    PlayInvariant gen { g with activeTetromino := a } := by
  unfold PlayInvariant WellTyped at *
  obtain ⟨⟨h1, h2, h3, h4, h5, h6, h7, h8, h9, h10, h11⟩, h12, h13, h14, h15, h16⟩ := h
  have hs4 := hs.2.2.1
  have hs2 := hs.1
  have hsz : Int8 a.size := ⟨by omega, by omega⟩
  exact ⟨⟨h1, h2, hsz, hx, hy, h6, h7, h8, h9, hs.2.1, h11⟩, h12, h13, h14, hs, h16⟩

theorem PlayInvariant.keep_pop {gen : Nat → NextTetromino → NextTetromino} {g : Game}
    (h : PlayInvariant gen g) : PlayInvariant gen (popActiveTetrominoInfo g) :=
  h.of_fieldOnly (pop_fieldOnly g) (pop_boardOk h.1.2.2.2.2.2.2.2.2.1)

theorem PlayInvariant.keep_push {gen : Nat → NextTetromino → NextTetromino} {g : Game}
    (h : PlayInvariant gen g) : PlayInvariant gen (pushActiveTetrominoInfo g) :=
  h.of_fieldOnly (push_fieldOnly g) (push_boardOk h.1.2.2.2.2.2.2.2.2.1)

theorem PlayInvariant.keep_landed {gen : Nat → NextTetromino → NextTetromino} {g : Game}
    (h : PlayInvariant gen g) : PlayInvariant gen (landed g) :=
  h.keep_pop.keep_push

theorem PlayInvariant.keep_moveLeft {gen : Nat → NextTetromino → NextTetromino} {g : Game}
    (h : PlayInvariant gen g) : PlayInvariant gen (moveLeft g).2 := by
  rcases moveLeft_cases h.1 with ⟨_, e⟩ | ⟨_, e⟩
  · rw [e]
    exact (h.keep_pop.with_active { g.activeTetromino with x := toInt8 (g.activeTetromino.x - 1) }
      (toInt8_int8 _) h.1.2.2.2.2.1 h.2.2.2.2.1).keep_push
  · rw [e]; exact h.keep_landed

theorem PlayInvariant.keep_moveRight {gen : Nat → NextTetromino → NextTetromino} {g : Game}
    (h : PlayInvariant gen g) : PlayInvariant gen (moveRight g).2 := by
  rcases moveRight_cases h.1 with ⟨_, e⟩ | ⟨_, e⟩
  · rw [e]
    exact (h.keep_pop.with_active { g.activeTetromino with x := toInt8 (g.activeTetromino.x + 1) }
      (toInt8_int8 _) h.1.2.2.2.2.1 h.2.2.2.2.1).keep_push
  · rw [e]; exact h.keep_landed

theorem goodShape_rotated_clockwise {a : ActiveTetromino} (h : GoodShape a.size a.pixels) :
    GoodShape a.size (rotatedBuffer clockwiseTarget a) :=
  ⟨h.1, rotatedBuffer_length _ _, h.2.2.1,
    fun lx hx ly hy ho => rotatedBuffer_outside_clockwise a h.2.2.1 lx ly hx hy ho⟩

theorem goodShape_rotated_againstClockwise {a : ActiveTetromino} (h : GoodShape a.size a.pixels) :
    GoodShape a.size (rotatedBuffer againstClockwiseTarget a) :=
  ⟨h.1, rotatedBuffer_length _ _, h.2.2.1,
    fun lx hx ly hy ho => rotatedBuffer_outside_againstClockwise a h.2.2.1 lx ly hx hy ho⟩

theorem PlayInvariant.keep_rotateClockwise {gen : Nat → NextTetromino → NextTetromino} {g : Game}
    (h : PlayInvariant gen g) : PlayInvariant gen (rotateClockwise g).2 := by
  rcases rotateClockwise_cases g with ⟨_, e⟩ | ⟨_, e⟩
  · rw [e]
    exact (h.keep_pop.with_active
      { g.activeTetromino with pixels := rotatedBuffer clockwiseTarget g.activeTetromino }
      h.1.2.2.2.1 h.1.2.2.2.2.1 (goodShape_rotated_clockwise h.2.2.2.2.1)).keep_push
  · rw [e]; exact h.keep_landed

theorem PlayInvariant.keep_rotateAgainstClockwise {gen : Nat → NextTetromino → NextTetromino}
    {g : Game} (h : PlayInvariant gen g) : PlayInvariant gen (rotateAgainstClockwise g).2 := by
  rcases rotateAgainstClockwise_cases g with ⟨_, e⟩ | ⟨_, e⟩
  · rw [e]
    exact (h.keep_pop.with_active
      { g.activeTetromino with pixels := rotatedBuffer againstClockwiseTarget g.activeTetromino }
      h.1.2.2.2.1 h.1.2.2.2.2.1 (goodShape_rotated_againstClockwise h.2.2.2.2.1)).keep_push
  · rw [e]; exact h.keep_landed

theorem PlayInvariant.keep_cleanLines {gen : Nat → NextTetromino → NextTetromino} {g : Game}
    (h : PlayInvariant gen g) : PlayInvariant gen (cleanLines g).2 :=
  h.of_fieldOnly (cleanLines_fieldOnly g)
    (cleanLines_spec h.1.2.2.2.2.2.2.2.2.1 (by have := h.2.1; omega) h.1.2.1.2).2.2

theorem PlayInvariant.keep_tick {gen : Nat → NextTetromino → NextTetromino} {g : Game}
    (hgen : GoodGenerator gen) (h : PlayInvariant gen g) : PlayInvariant gen (tick g).2 := by
  rcases tick_cases g with ⟨_, hc, _⟩ | ⟨_, _, _, e⟩ | ⟨_, _, _, _, e⟩ | ⟨_, _, _, _, e⟩
  · rw [tick_moved_state hc]
    exact (h.keep_pop.with_active { g.activeTetromino with y := toInt8 (g.activeTetromino.y - 1) }
      h.1.2.2.2.1 (toInt8_int8 _) h.2.2.2.2.1).keep_push
  · rw [e]
    exact h.keep_landed
  · rw [e]
    have hr := h.keep_landed.keep_cleanLines
    unfold PlayInvariant WellTyped BoardOk at *
    simp only []
    have := (cleanLines_fieldOnly (TetrisEngine.landed g)).maxScore_eq
    have := (landed_fieldOnly g).maxScore_eq
    refine ⟨⟨hr.1.1, hr.1.2.1, hr.1.2.2.1, hr.1.2.2.2.1, hr.1.2.2.2.2.1, hr.1.2.2.2.2.2.1, ?_,
      hr.1.2.2.2.2.2.2.2⟩, hr.2⟩
    exact h.1.2.2.2.2.2.2.2.1
  · rw [e]
    have hr := h.keep_landed.keep_cleanLines
    have hg : (cleanLines (TetrisEngine.landed g)).2.getNextTetromino = gen := hr.2.2.2.1
    have e1 := (cleanLines_fieldOnly (TetrisEngine.landed g)).getNextTetromino_eq
    have e2 := (landed_fieldOnly g).getNextTetromino_eq
    have hgg : g.getNextTetromino = gen := h.2.2.2.1
    unfold PlayInvariant WellTyped BoardOk at *
    simp only []
    have hn := hgen g.generated { g.nextTetromino with pixels := g.activeTetromino.pixels }
    rw [hgg]
    have hnx := h.2.2.2.2.2
    refine ⟨⟨hr.1.1, hr.1.2.1, h.1.2.2.2.2.2.1, toInt8_int8 _, h.1.2.1, hn.int8_size, ?_,
      hr.1.2.2.2.2.2.2.2.1, hr.1.2.2.2.2.2.2.2.2.1, h.1.2.2.2.2.2.2.2.2.2.2, hn.2.1⟩,
      hr.2.1, hr.2.2.1, hg, hnx, hn⟩
    exact Nat.mod_lt _ (by norm_num)

theorem PlayInvariant.keep_startGame {gen : Nat → NextTetromino → NextTetromino} {g : Game}
    (hgen : GoodGenerator gen) (hw : Int8 g.width) (hh : Int8 g.height) (hw4 : 4 ≤ g.width)
    (hh4 : 4 ≤ g.height) (hs : g.score < 4294967296) (hm : g.maxScore < 4294967296)
    (hb : BoardOk g) (hg : g.getNextTetromino = gen) : PlayInvariant gen (startGame g) := by
  unfold PlayInvariant WellTyped BoardOk TetrisEngine.startGame at *
  simp only []
  rw [hg]
  have h1 := hgen g.generated g.nextTetromino
  have h2 := hgen (g.generated + 1)
    { gen g.generated g.nextTetromino with pixels := g.activeTetromino.pixels }
  exact ⟨⟨hw, hh, h1.int8_size, toInt8_int8 _, hh, h2.int8_size, hs, hm, hb, h1.2.1, h2.2.1⟩,
    hw4, hh4, rfl, h1, h2⟩

theorem playInvariant_of_started {width height maxScore : Int}
    {gen : Nat → NextTetromino → NextTetromino} {sc : Int → Nat} (hgen : GoodGenerator gen)
    (hw : 4 ≤ width ∧ width ≤ 127) (hh : 4 ≤ height ∧ height ≤ 127) {g : Game}
    (h : Started width height maxScore gen sc g) : PlayInvariant gen g := by
  induction h with
  | afterStart heap g hg =>
    unfold initGame at hg
    cases heap with
    | none => cases hg
    | some p =>
      obtain ⟨a, n⟩ := p
      simp only [Option.some.injEq] at hg
      subst hg
      refine PlayInvariant.keep_startGame hgen ⟨by simp only []; omega, hw.2⟩
        ⟨by simp only []; omega, hh.2⟩ hw.1 hh.1 (by simp only []; omega) ?_ ?_ rfl
      · simp only []
        omega
      · unfold BoardOk
        simp
  | afterRestart g _ ih =>
    exact PlayInvariant.keep_startGame hgen ih.1.1 ih.1.2.1 ih.2.1 ih.2.2.1 ih.1.2.2.2.2.2.2.1
      ih.1.2.2.2.2.2.2.2.1 ih.1.2.2.2.2.2.2.2.2.1 ih.2.2.2.1
  | afterLeft g _ ih => exact ih.keep_moveLeft
  | afterRight g _ ih => exact ih.keep_moveRight
  | afterClockwise g _ ih => exact ih.keep_rotateClockwise
  | afterAgainstClockwise g _ ih => exact ih.keep_rotateAgainstClockwise
  | afterTick g _ ih => exact ih.keep_tick hgen

theorem moveLeft_shape (g : Game) :
    (moveLeft g).2.activeTetromino.size = g.activeTetromino.size ∧
      (moveLeft g).2.activeTetromino.pixels = g.activeTetromino.pixels ∧
      (moveLeft g).2.activeTetromino.y = g.activeTetromino.y := by
  unfold moveLeft
  simp only []
  split_ifs <;>
    simp only [(push_fieldOnly _).activeTetromino_eq, (pop_fieldOnly g).activeTetromino_eq,
      and_self]

theorem moveRight_shape (g : Game) :
    (moveRight g).2.activeTetromino.size = g.activeTetromino.size ∧
      (moveRight g).2.activeTetromino.pixels = g.activeTetromino.pixels ∧
      (moveRight g).2.activeTetromino.y = g.activeTetromino.y := by
  unfold moveRight
  simp only []
  split_ifs <;>
    simp only [(push_fieldOnly _).activeTetromino_eq, (pop_fieldOnly g).activeTetromino_eq,
      and_self]

theorem landed_activeTetromino (g : Game) : (landed g).activeTetromino = g.activeTetromino :=
  (landed_fieldOnly g).activeTetromino_eq

theorem shapes_of_started {width height maxScore : Int}
    {gen : Nat → NextTetromino → NextTetromino} {sc : Int → Nat} (hgen : GoodGenerator gen)
    {g : Game} (h : Started width height maxScore gen sc g) :
    g.getNextTetromino = gen ∧ GoodShape g.activeTetromino.size g.activeTetromino.pixels ∧
      GoodShape g.nextTetromino.size g.nextTetromino.pixels := by
  induction h with
  | afterStart heap g hg =>
    unfold initGame at hg
    cases heap with
    | none => cases hg
    | some p =>
      obtain ⟨a, n⟩ := p
      simp only [Option.some.injEq] at hg
      subst hg
      exact ⟨rfl, hgen _ _, hgen _ _⟩
  | afterRestart g _ ih =>
    obtain ⟨e, _, _⟩ := ih
    unfold startGame
    simp only []
    rw [e]
    exact ⟨rfl, hgen _ _, hgen _ _⟩
  | afterLeft g _ ih =>
    rw [(moveLeft_frame g).getNextTetromino_kept, (moveLeft_frame g).nextTetromino_kept,
      (moveLeft_shape g).1, (moveLeft_shape g).2.1]
    exact ih
  | afterRight g _ ih =>
    rw [(moveRight_frame g).getNextTetromino_kept, (moveRight_frame g).nextTetromino_kept,
      (moveRight_shape g).1, (moveRight_shape g).2.1]
    exact ih
  | afterClockwise g _ ih =>
    rw [(rotateClockwise_frame g).getNextTetromino_kept,
      (rotateClockwise_frame g).nextTetromino_kept]
    refine ⟨ih.1, ?_, ih.2.2⟩
    rcases rotateClockwise_cases g with ⟨_, e⟩ | ⟨_, e⟩
    · rw [e]
      simp only [(push_fieldOnly _).activeTetromino_eq]
      exact goodShape_rotated_clockwise ih.2.1
    · rw [e]
      simp only [landed_activeTetromino]
      exact ih.2.1
  | afterAgainstClockwise g _ ih =>
    rw [(rotateAgainstClockwise_frame g).getNextTetromino_kept,
      (rotateAgainstClockwise_frame g).nextTetromino_kept]
    refine ⟨ih.1, ?_, ih.2.2⟩
    rcases rotateAgainstClockwise_cases g with ⟨_, e⟩ | ⟨_, e⟩
    · rw [e]
      simp only [(push_fieldOnly _).activeTetromino_eq]
      exact goodShape_rotated_againstClockwise ih.2.1
    · rw [e]
      simp only [landed_activeTetromino]
      exact ih.2.1
  | afterTick g _ ih =>
    rcases tick_cases g with ⟨_, hc, _⟩ | ⟨_, _, _, e⟩ | ⟨_, _, _, _, e⟩ | ⟨_, _, _, _, e⟩
    · rw [tick_moved_state hc]
      simp only [(push_fieldOnly _).activeTetromino_eq, (push_fieldOnly _).nextTetromino_eq,
        (push_fieldOnly _).getNextTetromino_eq, (pop_fieldOnly g).nextTetromino_eq,
        (pop_fieldOnly g).getNextTetromino_eq]
      exact ih
    · rw [e]
      simp only [landed_activeTetromino, (landed_fieldOnly g).nextTetromino_eq,
        (landed_fieldOnly g).getNextTetromino_eq]
      exact ih
    · rw [e]
      simp only [(cleanLines_fieldOnly _).activeTetromino_eq,
        (cleanLines_fieldOnly _).nextTetromino_eq, (cleanLines_fieldOnly _).getNextTetromino_eq,
        landed_activeTetromino, (landed_fieldOnly g).nextTetromino_eq,
        (landed_fieldOnly g).getNextTetromino_eq]
      exact ih
    · rw [e]
      simp only [(cleanLines_fieldOnly _).getNextTetromino_eq,
        (landed_fieldOnly g).getNextTetromino_eq]
      rw [ih.1]
      exact ⟨rfl, ih.2.2, hgen _ _⟩

/-- C25. Shape buffers stay well formed: if the generator always yields shapes
of a size in `2 .. 4` whose 16-cell buffer is zero outside the top-left
`size × size` square, then in every state reachable from `initGame` followed by
`startGame` by any sequence of the public operations, for every board size,
both the active and the next buffer have 16 cells, a size in `2 .. 4` and every
cell outside their `size × size` square equal to zero; in particular a
successful rotation, in either direction, leaves a buffer of 16 cells of which
every cell outside the `size × size` square is zero. -/
theorem shapes_stay_well_formed (width height maxScore : Int)
    (getNextTetrominoFunction : Nat → NextTetromino → NextTetromino)
    (getScoreAddendFunction : Int → Nat) (hgen : GoodGenerator getNextTetrominoFunction)
    (g : Game)
    (h : Started width height maxScore getNextTetrominoFunction getScoreAddendFunction g) :
    (2 ≤ g.activeTetromino.size ∧ g.activeTetromino.size ≤ 4 ∧
      g.activeTetromino.pixels.length = 16 ∧
      ∀ lx : Nat, lx < 4 → ∀ ly : Nat, ly < 4 →
        (g.activeTetromino.size ≤ lx ∨ g.activeTetromino.size ≤ ly) →
        flatArrayAs2D g.activeTetromino.pixels lx ly tetrominoMaxSize = 0) ∧
    (2 ≤ g.nextTetromino.size ∧ g.nextTetromino.size ≤ 4 ∧
      g.nextTetromino.pixels.length = 16 ∧
      ∀ lx : Nat, lx < 4 → ∀ ly : Nat, ly < 4 →
        (g.nextTetromino.size ≤ lx ∨ g.nextTetromino.size ≤ ly) →
        flatArrayAs2D g.nextTetromino.pixels lx ly tetrominoMaxSize = 0) ∧
    ((rotateClockwise g).1 = 0 →
      (rotateClockwise g).2.activeTetromino.size = g.activeTetromino.size ∧
      (rotateClockwise g).2.activeTetromino.pixels.length = 16 ∧
      ∀ lx : Nat, lx < 4 → ∀ ly : Nat, ly < 4 →
        (g.activeTetromino.size ≤ lx ∨ g.activeTetromino.size ≤ ly) →
        flatArrayAs2D (rotateClockwise g).2.activeTetromino.pixels lx ly tetrominoMaxSize = 0) ∧
    ((rotateAgainstClockwise g).1 = 0 →
      (rotateAgainstClockwise g).2.activeTetromino.size = g.activeTetromino.size ∧
      (rotateAgainstClockwise g).2.activeTetromino.pixels.length = 16 ∧
      ∀ lx : Nat, lx < 4 → ∀ ly : Nat, ly < 4 →
        (g.activeTetromino.size ≤ lx ∨ g.activeTetromino.size ≤ ly) →
        flatArrayAs2D (rotateAgainstClockwise g).2.activeTetromino.pixels lx ly
          tetrominoMaxSize = 0) := by
  obtain ⟨_, ha, hn⟩ := shapes_of_started hgen h
  refine ⟨⟨ha.1, ha.2.2.1, ha.2.1, ha.2.2.2⟩, ⟨hn.1, hn.2.2.1, hn.2.1, hn.2.2.2⟩, ?_, ?_⟩
  · intro hr
    rw [rotateClockwise_rotated hr]
    have := goodShape_rotated_clockwise ha
    exact ⟨rfl, this.2.1, this.2.2.2⟩
  · intro hr
    rw [rotateAgainstClockwise_rotated hr]
    have := goodShape_rotated_againstClockwise ha
    exact ⟨rfl, this.2.1, this.2.2.2⟩

/-- Witness of C25: the host example after `startGame` and one `tick`, with the
generator of squares. -/
theorem shapes_stay_well_formed_witness :
    GoodGenerator squareGenerator ∧
      (tick (startGame createdGame)).2.activeTetromino.pixels.length = 16 ∧
      (tick (startGame createdGame)).2.nextTetromino.pixels.length = 16 :=
  have hgen : GoodGenerator squareGenerator :=
    fun _ _ => (by decide : GoodShape squareShape.size squareShape.pixels)
  have h := shapes_stay_well_formed 10 20 1000 squareGenerator hundredPerLine hgen _
    (Started.afterTick _ (Started.afterStart zeroHeap _ initGame_createdGame))
  ⟨hgen, h.1.2.2.1, h.2.1.2.2.1⟩

theorem footprintMerged_push {g : Game} (hty : WellTyped g) :
    FootprintMerged (pushActiveTetrominoInfo g) := by
  unfold FootprintMerged
  rw [(push_fieldOnly g).activeTetromino_eq]
  intro lx hlx ly hly hp hin
  have hin2 : InBoard g (g.activeTetromino.x + lx) (g.activeTetromino.y + ly) := by
    unfold InBoard at *
    rw [(push_fieldOnly g).width_eq, (push_fieldOnly g).height_eq] at hin
    exact hin
  rw [getGameFieldPixel_push hty.2.2.2.2.2.2.2.2.1 hty.2.2.2.1 hty.2.2.2.2.1 hty.2.2.1.2
    hty.1.2 hty.2.1.2 hin2]
  have hc : pieceCell g.activeTetromino (g.activeTetromino.x + lx) (g.activeTetromino.y + ly) =
      flatArrayAs2D g.activeTetromino.pixels lx ly tetrominoMaxSize :=
    pieceCell_of_mem (lx, ly) ((mem_cells _ _).2 ⟨hlx, hly⟩) rfl rfl
  rw [hc, if_pos hp]

theorem footprintMerged_above {g : Game} (hy : g.activeTetromino.y = g.height) :
    FootprintMerged g := by
  unfold FootprintMerged InBoard
  intro lx _ ly _ _ hin
  omega

theorem footprintMerged_of_inPlay {width height maxScore : Int}
    {gen : Nat → NextTetromino → NextTetromino} {sc : Int → Nat} (hgen : GoodGenerator gen)
    (hw : 4 ≤ width ∧ width ≤ 127) (hh : 4 ≤ height ∧ height ≤ 127) {g : Game}
    (h : InPlay width height maxScore gen sc g)
    (hs : g.status ≠ GameStatus.endMaxScoreStatus) : FootprintMerged g := by
  cases h with
  | first heap g hg => exact footprintMerged_above rfl
  | thenLeft g hp _ =>
    have hi := playInvariant_of_started hgen hw hh hp.started
    rcases moveLeft_cases hi.1 with ⟨_, e⟩ | ⟨_, e⟩
    · rw [e]
      exact footprintMerged_push (hi.keep_pop.with_active
        { g.activeTetromino with x := toInt8 (g.activeTetromino.x - 1) }
        (toInt8_int8 _) hi.1.2.2.2.2.1 hi.2.2.2.2.1).1
    · rw [e]; exact footprintMerged_push hi.keep_pop.1
  | thenRight g hp _ =>
    have hi := playInvariant_of_started hgen hw hh hp.started
    rcases moveRight_cases hi.1 with ⟨_, e⟩ | ⟨_, e⟩
    · rw [e]
      exact footprintMerged_push (hi.keep_pop.with_active
        { g.activeTetromino with x := toInt8 (g.activeTetromino.x + 1) }
        (toInt8_int8 _) hi.1.2.2.2.2.1 hi.2.2.2.2.1).1
    · rw [e]; exact footprintMerged_push hi.keep_pop.1
  | thenClockwise g hp _ =>
    have hi := playInvariant_of_started hgen hw hh hp.started
    rcases rotateClockwise_cases g with ⟨_, e⟩ | ⟨_, e⟩
    · rw [e]
      exact footprintMerged_push (hi.keep_pop.with_active
        { g.activeTetromino with pixels := rotatedBuffer clockwiseTarget g.activeTetromino }
        hi.1.2.2.2.1 hi.1.2.2.2.2.1 (goodShape_rotated_clockwise hi.2.2.2.2.1)).1
    · rw [e]; exact footprintMerged_push hi.keep_pop.1
  | thenAgainstClockwise g hp _ =>
    have hi := playInvariant_of_started hgen hw hh hp.started
    rcases rotateAgainstClockwise_cases g with ⟨_, e⟩ | ⟨_, e⟩
    · rw [e]
      exact footprintMerged_push (hi.keep_pop.with_active
        { g.activeTetromino with pixels := rotatedBuffer againstClockwiseTarget g.activeTetromino }
        hi.1.2.2.2.1 hi.1.2.2.2.2.1 (goodShape_rotated_againstClockwise hi.2.2.2.2.1)).1
    · rw [e]; exact footprintMerged_push hi.keep_pop.1
  | thenTick g hp _ =>
    have hi := playInvariant_of_started hgen hw hh hp.started
    rcases tick_cases g with ⟨_, hc, _⟩ | ⟨_, _, _, e⟩ | ⟨_, _, _, _, e⟩ | ⟨_, _, _, _, e⟩
    · rw [tick_moved_state hc]
      exact footprintMerged_push (hi.keep_pop.with_active
        { g.activeTetromino with y := toInt8 (g.activeTetromino.y - 1) }
        hi.1.2.2.2.1 (toInt8_int8 _) hi.2.2.2.2.1).1
    · rw [e]
      exact footprintMerged_push hi.keep_pop.1
    · rw [e] at hs
      exact absurd rfl hs
    · rw [e]
      refine footprintMerged_above ?_
      simp only [(cleanLines_fieldOnly _).height_eq, (landed_fieldOnly g).height_eq]

/-- Counterexample to C22 as stated: with the generator of flat bars on the
4 × 4 board, cap 50 and 100 points per line, the fifth `tick` after `startGame`
(every call made while the status is Playing) locks the bar in row 0, cleans
that row and ends the game as won; in the state it leaves, the active piece
still lies at `(0, 0)` with its cell `(0, 0)` occupied by 1 while the board
cell `(0, 0)` is 0. -/
theorem footprint_not_merged_after_win :
    GoodGenerator flatBarGenerator ∧
    initGame 4 4 50 flatBarGenerator hundredPerLine zeroHeap = some flatBarCreated ∧
    InPlay 4 4 50 flatBarGenerator hundredPerLine
      (tick (tick (tick (tick (tick (startGame flatBarCreated)).2).2).2).2).2 ∧
    (tick (tick (tick (tick (tick (startGame flatBarCreated)).2).2).2).2).1 = 2 ∧
    (tick (tick (tick (tick (tick (startGame flatBarCreated)).2).2).2).2).2.status =
      GameStatus.endMaxScoreStatus ∧
    (tick (tick (tick (tick (tick (startGame flatBarCreated)).2).2).2).2).2.activeTetromino =
      { size := 4, x := 0, y := 0, pixels := flatBarShape.pixels } ∧
    (tick (tick (tick (tick (tick (startGame flatBarCreated)).2).2).2).2).2.gameField =
      List.replicate 16 0 ∧
    flatArrayAs2D (tick (tick (tick (tick (tick
      (startGame flatBarCreated)).2).2).2).2).2.activeTetromino.pixels 0 0 tetrominoMaxSize = 1 ∧
    InBoard (tick (tick (tick (tick (tick (startGame flatBarCreated)).2).2).2).2).2 (0 + 0)
      (0 + 0) ∧
    getGameFieldPixel (tick (tick (tick (tick (tick (startGame flatBarCreated)).2).2).2).2).2
      (0 + 0) (0 + 0) = 0 ∧
    ¬ FootprintMerged (tick (tick (tick (tick (tick (startGame flatBarCreated)).2).2).2).2).2 :=
  ⟨fun _ _ => (by decide : GoodShape flatBarShape.size flatBarShape.pixels), rfl,
    InPlay.thenTick _ (InPlay.thenTick _ (InPlay.thenTick _ (InPlay.thenTick _
      (InPlay.thenTick _ (InPlay.first zeroHeap flatBarCreated rfl) (by decide)) (by decide))
      (by decide)) (by decide)) (by decide),
    by decide, by decide, by decide, by decide, by decide, by decide, by decide, by decide⟩

/-- C22 (amended). The active piece is merged into the board in every state
that is not the won end state: in every state reachable from `initGame`
followed by `startGame` through any sequence of `moveLeft`, `moveRight`,
`rotateClockwise`, `rotateAgainstClockwise` and `tick` made while the status is
Playing, with a generator yielding well-formed shapes of a size in `2 .. 4` and
`4 ≤ width, height ≤ 127`, if the status of the state is not WonMaxScore (so in
particular while it is Playing), then for every occupied local cell `(lx, ly)`
of the active piece whose absolute position `(x + lx, y + ly)` lies inside the
board, the board cell there equals the pixel value of the piece. -/
theorem footprint_merged_in_play (width height maxScore : Int)
    (getNextTetrominoFunction : Nat → NextTetromino → NextTetromino)
    (getScoreAddendFunction : Int → Nat) (hgen : GoodGenerator getNextTetrominoFunction)
    (hw : 4 ≤ width ∧ width ≤ 127) (hh : 4 ≤ height ∧ height ≤ 127) (g : Game)
    (h : InPlay width height maxScore getNextTetrominoFunction getScoreAddendFunction g)
    (hs : g.status ≠ GameStatus.endMaxScoreStatus) :
    ∀ lx : Nat, lx < 4 → ∀ ly : Nat, ly < 4 →
      flatArrayAs2D g.activeTetromino.pixels lx ly tetrominoMaxSize ≠ 0 →
      InBoard g (g.activeTetromino.x + lx) (g.activeTetromino.y + ly) →
      getGameFieldPixel g (g.activeTetromino.x + lx) (g.activeTetromino.y + ly) =
        flatArrayAs2D g.activeTetromino.pixels lx ly tetrominoMaxSize := by
  intro lx hlx ly hly hp hin
  have hm := footprintMerged_of_inPlay hgen hw hh h hs
  have hi := playInvariant_of_started hgen hw hh h.started
  have hwf := hi.2.2.2.2.1.2.2.2
  have h2 := hi.2.2.2.2.1.1
  have hin : (lx : Int) < g.activeTetromino.size ∧ (ly : Int) < g.activeTetromino.size := by
    by_contra hc
    exact hp (hwf lx hlx ly hly (by omega))
  exact hm lx (by omega) ly (by omega) hp ‹_›

/-- Witness of C22 (amended): the flat bar two ticks after `startGame`, lying in
row 2 of the 4 × 4 board. -/
theorem footprint_merged_in_play_witness :
    (tick (tick (startGame flatBarCreated)).2).2.status ≠ GameStatus.endMaxScoreStatus ∧
      (tick (tick (startGame flatBarCreated)).2).2.activeTetromino.y = 2 ∧
      getGameFieldPixel (tick (tick (startGame flatBarCreated)).2).2
        ((tick (tick (startGame flatBarCreated)).2).2.activeTetromino.x + (3 : Nat))
        ((tick (tick (startGame flatBarCreated)).2).2.activeTetromino.y + (0 : Nat)) =
        flatArrayAs2D (tick (tick (startGame flatBarCreated)).2).2.activeTetromino.pixels
          (3 : Nat) (0 : Nat) tetrominoMaxSize :=
  ⟨by decide, by decide,
    footprint_merged_in_play 4 4 50 flatBarGenerator hundredPerLine
      (fun _ _ => (by decide : GoodShape flatBarShape.size flatBarShape.pixels))
      (by decide) (by decide) _
      (InPlay.thenTick _ (InPlay.thenTick _ (InPlay.first zeroHeap flatBarCreated rfl)
        (by decide)) (by decide))
      (by decide) 3 (by decide) 0 (by decide) (by decide) (by decide)⟩

theorem all_map_pair (f : Int → Int × Int) (p : Int × Int → Bool) (l : List Int) :
    (l.map f).all p = l.all (fun v => p (f v)) := by
  induction l with
  | nil => rfl
  | cons a l ih => simp only [List.map_cons, List.all_cons, ih]

theorem clockwisePathFree_eq_all (g : Game) (sx sy : Int) :
    clockwisePathFree g sx sy =
      (clockwisePath g.activeTetromino.size sx sy).all (localCellFree g) := by
  unfold clockwisePathFree clockwisePath columnFree rowFree localCellFree
  simp only []
  split_ifs <;> rw [List.all_append, all_map_pair, all_map_pair]

theorem againstClockwisePathFree_eq_all (g : Game) (sx sy : Int) :
    againstClockwisePathFree g sx sy =
      (againstClockwisePath g.activeTetromino.size sx sy).all (localCellFree g) := by
  unfold againstClockwisePathFree againstClockwisePath columnFree rowFree localCellFree
  simp only []
  split_ifs <;> rw [List.all_append, all_map_pair, all_map_pair]

theorem mem_clockwisePath_box {size sx sy : Int} (hx0 : 0 ≤ sx) (hx : sx < size) (hy0 : 0 ≤ sy)
    (hy : sy < size) {c : Int × Int} (hc : c ∈ clockwisePath size sx sy) :
    0 ≤ c.1 ∧ c.1 < size ∧ 0 ≤ c.2 ∧ c.2 < size := by
  unfold clockwisePath at hc
  rw [clockwiseTarget_eq] at hc
  simp only [] at hc
  split_ifs at hc <;>
    simp only [List.mem_append, List.mem_map, mem_countDown, mem_countUp] at hc <;>
    rcases hc with ⟨v, hv, rfl⟩ | ⟨v, hv, rfl⟩ <;> simp only [] <;> omega

theorem mem_againstClockwisePath_box {size sx sy : Int} (hx0 : 0 ≤ sx) (hx : sx < size)
    (hy0 : 0 ≤ sy) (hy : sy < size) {c : Int × Int} (hc : c ∈ againstClockwisePath size sx sy) :
    0 ≤ c.1 ∧ c.1 < size ∧ 0 ≤ c.2 ∧ c.2 < size := by
  unfold againstClockwisePath at hc
  rw [againstClockwiseTarget_eq] at hc
  simp only [] at hc
  split_ifs at hc <;>
    simp only [List.mem_append, List.mem_map, mem_countDown, mem_countUp] at hc <;>
    rcases hc with ⟨v, hv, rfl⟩ | ⟨v, hv, rfl⟩ <;> simp only [] <;> omega

theorem canActiveTetrominoRotateClockwise_ne_zero_iff (g : Game) :
    canActiveTetrominoRotateClockwise g ≠ 0 ↔
      ∀ sx : Nat, sx < g.activeTetromino.size.toNat → ∀ sy : Nat,
        sy < g.activeTetromino.size.toNat →
        flatArrayAs2D g.activeTetromino.pixels sx sy tetrominoMaxSize ≠ 0 →
        clockwisePathFree g sx sy = true := by
  unfold canActiveTetrominoRotateClockwise
  simp only [List.all_eq_true, List.mem_range]
  constructor
  · intro h sx hx sy hy hp
    split_ifs at h with h'
    · have := h' sy hy sx hx
      rw [if_pos hp] at this
      exact this
    · exact absurd rfl h
  · intro h
    rw [if_pos]
    · decide
    · intro y hy x hx
      split_ifs with hp
      · exact h x hx y hy hp
      · rfl

theorem canActiveTetrominoRotateAgainstClockwise_ne_zero_iff (g : Game) :
    canActiveTetrominoRotateAgainstClockwise g ≠ 0 ↔
      ∀ sx : Nat, sx < g.activeTetromino.size.toNat → ∀ sy : Nat,
        sy < g.activeTetromino.size.toNat →
        flatArrayAs2D g.activeTetromino.pixels sx sy tetrominoMaxSize ≠ 0 →
        againstClockwisePathFree g sx sy = true := by
  unfold canActiveTetrominoRotateAgainstClockwise
  simp only [List.all_eq_true, List.mem_range]
  constructor
  · intro h sx hx sy hy hp
    split_ifs at h with h'
    · have := h' sy hy sx hx
      rw [if_pos hp] at this
      exact this
    · exact absurd rfl h
  · intro h
    rw [if_pos]
    · decide
    · intro y hy x hx
      split_ifs with hp
      · exact h x hx y hy hp
      · rfl

theorem rotateClockwise_eq_zero_iff (g : Game) :
    (rotateClockwise g).1 = 0 ↔
      canActiveTetrominoRotateClockwise (popActiveTetrominoInfo g) ≠ 0 := by
  rcases rotateClockwise_cases g with ⟨h, e⟩ | ⟨h, e⟩
  · rw [e]; exact ⟨fun _ => h, fun _ => rfl⟩
  · rw [e]; exact ⟨fun h' => absurd h' (Nat.succ_ne_zero 0), fun h' => absurd h h'⟩

theorem rotateAgainstClockwise_eq_zero_iff (g : Game) :
    (rotateAgainstClockwise g).1 = 0 ↔
      canActiveTetrominoRotateAgainstClockwise (popActiveTetrominoInfo g) ≠ 0 := by
  rcases rotateAgainstClockwise_cases g with ⟨h, e⟩ | ⟨h, e⟩
  · rw [e]; exact ⟨fun _ => h, fun _ => rfl⟩
  · rw [e]; exact ⟨fun h' => absurd h' (Nat.succ_ne_zero 0), fun h' => absurd h h'⟩

/-- A bounding box that reads as free allows rotation: for every well-typed
state, if on the board without the footprint of the piece the cell read by
`getGameFieldPixel` is empty for all `0 ≤ i, j < size`, the coordinates `x + i`
and `y + j` being narrowed to `int8_t` as the call does, then `rotateClockwise`
and `rotateAgainstClockwise` both return 0.  For every source cell
`0 ≤ sx, sy < size` the check of the code is the conjunction over the cells of
its swept path, and every cell of the path lies inside the `size × size` box,
in both directions. -/
theorem free_box_allows_rotation (g : Game) (hty : WellTyped g)
    (hfree : ∀ i : Nat, i < g.activeTetromino.size.toNat → ∀ j : Nat,
      j < g.activeTetromino.size.toNat →
      cellWithoutPiece g (toInt8 (g.activeTetromino.x + i)) (toInt8 (g.activeTetromino.y + j)) = 0) :
    (rotateClockwise g).1 = 0 ∧ (rotateAgainstClockwise g).1 = 0 ∧
    ∀ sx : Nat, sx < g.activeTetromino.size.toNat → ∀ sy : Nat,
      sy < g.activeTetromino.size.toNat →
      (clockwisePathFree (popActiveTetrominoInfo g) sx sy =
          (clockwisePath g.activeTetromino.size sx sy).all
            (localCellFree (popActiveTetrominoInfo g)) ∧
        ∀ c ∈ clockwisePath g.activeTetromino.size sx sy,
          0 ≤ c.1 ∧ c.1 < g.activeTetromino.size ∧ 0 ≤ c.2 ∧ c.2 < g.activeTetromino.size) ∧
      (againstClockwisePathFree (popActiveTetrominoInfo g) sx sy =
          (againstClockwisePath g.activeTetromino.size sx sy).all
            (localCellFree (popActiveTetrominoInfo g)) ∧
        ∀ c ∈ againstClockwisePath g.activeTetromino.size sx sy,
          0 ≤ c.1 ∧ c.1 < g.activeTetromino.size ∧ 0 ≤ c.2 ∧ c.2 < g.activeTetromino.size) := by
  have hact := (pop_fieldOnly g).activeTetromino_eq
  have hcell : ∀ c : Int × Int, 0 ≤ c.1 ∧ c.1 < g.activeTetromino.size ∧ 0 ≤ c.2 ∧
      c.2 < g.activeTetromino.size → localCellFree (popActiveTetrominoInfo g) c = true := by
    intro c hc
    unfold localCellFree
    rw [hact, getGameFieldPixel_pop_eq hty]
    have := hfree c.1.toNat (by omega) c.2.toNat (by omega)
    have e1 : ((c.1.toNat : Nat) : Int) = c.1 := by omega
    have e2 : ((c.2.toNat : Nat) : Int) = c.2 := by omega
    rw [e1, e2, add_comm, add_comm g.activeTetromino.y] at this
    exact decide_eq_true this
  refine ⟨?_, ?_, ?_⟩
  · rw [rotateClockwise_eq_zero_iff, canActiveTetrominoRotateClockwise_ne_zero_iff, hact]
    intro sx hx sy hy _
    rw [clockwisePathFree_eq_all, hact, List.all_eq_true]
    intro c hc
    exact hcell c (mem_clockwisePath_box (by omega) (by omega) (by omega) (by omega) hc)
  · rw [rotateAgainstClockwise_eq_zero_iff, canActiveTetrominoRotateAgainstClockwise_ne_zero_iff,
      hact]
    intro sx hx sy hy _
    rw [againstClockwisePathFree_eq_all, hact, List.all_eq_true]
    intro c hc
    exact hcell c (mem_againstClockwisePath_box (by omega) (by omega) (by omega) (by omega) hc)
  · intro sx hx sy hy
    refine ⟨⟨?_, fun c hc =>
        mem_clockwisePath_box (by omega) (by omega) (by omega) (by omega) hc⟩,
      ⟨?_, fun c hc =>
        mem_againstClockwisePath_box (by omega) (by omega) (by omega) (by omega) hc⟩⟩
    · rw [clockwisePathFree_eq_all, hact]
    · rw [againstClockwisePathFree_eq_all, hact]

/-- Example of a free bounding box: the T-shaped tetromino of `teeGame`, alone on
its board. -/
theorem free_box_allows_rotation_witness :
    WellTyped teeGame ∧ (rotateClockwise teeGame).1 = 0 ∧
      (rotateAgainstClockwise teeGame).1 = 0 ∧
      clockwisePath 3 2 1 = [(2, 1), (2, 0), (2, 0), (1, 0)] :=
  have h := free_box_allows_rotation teeGame (by decide) (by decide)
  ⟨by decide, h.1, h.2.1, by decide⟩

theorem getGameFieldPixel_eq_zero_bounds {g : Game} {X Y : Int}
    (h : getGameFieldPixel g X Y = 0) : 0 ≤ X ∧ X < g.width ∧ 0 ≤ Y := by
  unfold getGameFieldPixel at h
  split_ifs at h <;> omega

theorem cellWithoutPiece_eq_zero_bounds {g : Game} {X Y : Int}
    (h : cellWithoutPiece g X Y = 0) : 0 ≤ X ∧ X < g.width ∧ 0 ≤ Y := by
  unfold cellWithoutPiece at h
  split_ifs at h <;> omega

theorem WithinWalls.congr {g r : Game} (h : WithinWalls g)
    (ha : r.activeTetromino = g.activeTetromino) (hw : r.width = g.width) : WithinWalls r := by
  unfold WithinWalls at *
  rw [ha, hw]
  exact h

theorem withinWalls_landed {g : Game} (h : WithinWalls g) : WithinWalls (landed g) :=
  h.congr (landed_fieldOnly g).activeTetromino_eq (landed_fieldOnly g).width_eq

theorem withinWalls_moveLeft {gen : Nat → NextTetromino → NextTetromino} {g : Game}
    (hi : PlayInvariant gen g) (h : WithinWalls g) : WithinWalls (moveLeft g).2 := by
  rcases moveLeft_cases hi.1 with ⟨hc, e⟩ | ⟨_, e⟩
  · rw [e]
    unfold WithinWalls
    simp only [(push_fieldOnly _).activeTetromino_eq, (push_fieldOnly _).width_eq,
      (pop_fieldOnly g).width_eq]
    intro lx hlx ly hly hp
    have hb := cellWithoutPiece_eq_zero_bounds (hc lx ly (by omega) (by omega) hp)
    have ho := h lx hlx ly hly hp
    have hx := hi.1.2.2.2.1
    have hw := hi.1.1
    have hs := hi.2.2.2.2.1.2.2.1
    unfold Int8 at hx hw
    unfold toInt8 at hb ⊢
    omega
  · rw [e]; exact withinWalls_landed h

theorem withinWalls_moveRight {gen : Nat → NextTetromino → NextTetromino} {g : Game}
    (hi : PlayInvariant gen g) (h : WithinWalls g) : WithinWalls (moveRight g).2 := by
  rcases moveRight_cases hi.1 with ⟨hc, e⟩ | ⟨_, e⟩
  · rw [e]
    unfold WithinWalls
    simp only [(push_fieldOnly _).activeTetromino_eq, (push_fieldOnly _).width_eq,
      (pop_fieldOnly g).width_eq]
    intro lx hlx ly hly hp
    have hb := cellWithoutPiece_eq_zero_bounds (hc lx ly (by omega) (by omega) hp)
    have ho := h lx hlx ly hly hp
    have hx := hi.1.2.2.2.1
    have hw := hi.1.1
    have hs := hi.2.2.2.2.1.2.2.1
    unfold Int8 at hx hw
    unfold toInt8 at hb ⊢
    omega
  · rw [e]; exact withinWalls_landed h

theorem withinWalls_descent {gen : Nat → NextTetromino → NextTetromino} {g : Game}
    (hi : PlayInvariant gen g) (h : WithinWalls g)
    (hc : canActiveTetrominoMoveDown (popActiveTetrominoInfo g) ≠ 0) :
    WithinWalls (tick g).2 := by
  rw [tick_moved_state hc]
  rw [canActiveTetrominoMoveDown_ne_zero_iff, (pop_fieldOnly g).activeTetromino_eq] at hc
  unfold WithinWalls
  simp only [(push_fieldOnly _).activeTetromino_eq, (push_fieldOnly _).width_eq,
    (pop_fieldOnly g).width_eq]
  intro lx hlx ly hly hp
  have hs := hi.2.2.2.2.1.2.2.1
  have hb := getGameFieldPixel_eq_zero_bounds (hc lx (by omega) ly (by omega) hp)
  have ho := h lx hlx ly hly hp
  have hy := hi.1.2.2.2.2.1
  unfold Int8 at hy
  unfold toInt8 at hb ⊢
  omega

theorem withinWalls_rotateClockwise {gen : Nat → NextTetromino → NextTetromino} {g : Game}
    (hi : PlayInvariant gen g) (h : WithinWalls g) : WithinWalls (rotateClockwise g).2 := by
  rcases rotateClockwise_cases g with ⟨hc, e⟩ | ⟨_, e⟩
  · rw [e]
    rw [canActiveTetrominoRotateClockwise_ne_zero_iff, (pop_fieldOnly g).activeTetromino_eq] at hc
    unfold WithinWalls
    simp only [(push_fieldOnly _).activeTetromino_eq, (push_fieldOnly _).width_eq,
      (pop_fieldOnly g).width_eq]
    intro lx hlx ly hly hp
    have hs := hi.2.2.2.2.1.2.2.1
    rw [rotatedBuffer_clockwise g.activeTetromino hs lx ly (by omega) (by omega),
      if_pos (by omega)] at hp
    have e1 : g.activeTetromino.size - 1 - (ly : Int) =
        (((g.activeTetromino.size - 1 - ly).toNat : Nat) : Int) := by omega
    rw [e1] at hp
    have hfree := hc (g.activeTetromino.size - 1 - ly).toNat (by omega) lx hlx hp
    have ho := h (g.activeTetromino.size - 1 - ly).toNat (by omega) lx hlx hp
    have hx := hi.1.2.2.2.1
    have hy := hi.1.2.2.2.2.1
    have hw := hi.1.1
    unfold Int8 at hx hy hw
    by_cases hd : (((g.activeTetromino.size - 1 - ly).toNat : Nat) : Int) = lx ∧
        2 * (((g.activeTetromino.size - 1 - ly).toNat : Nat) : Int) < g.activeTetromino.size - 1
    · omega
    · have ht := getGameFieldPixel_eq_zero_bounds (clockwisePathFree_target hfree
        (by rw [(pop_fieldOnly g).activeTetromino_eq]; exact hd))
      rw [(pop_fieldOnly g).activeTetromino_eq, (pop_fieldOnly g).width_eq] at ht
      unfold toInt8 at ht
      omega
  · rw [e]; exact withinWalls_landed h

theorem withinWalls_rotateAgainstClockwise {gen : Nat → NextTetromino → NextTetromino}
    {g : Game} (hi : PlayInvariant gen g) (h : WithinWalls g) :
    WithinWalls (rotateAgainstClockwise g).2 := by
  rcases rotateAgainstClockwise_cases g with ⟨hc, e⟩ | ⟨_, e⟩
  · rw [e]
    rw [canActiveTetrominoRotateAgainstClockwise_ne_zero_iff,
      (pop_fieldOnly g).activeTetromino_eq] at hc
    unfold WithinWalls
    simp only [(push_fieldOnly _).activeTetromino_eq, (push_fieldOnly _).width_eq,
      (pop_fieldOnly g).width_eq]
    intro lx hlx ly hly hp
    have hs := hi.2.2.2.2.1.2.2.1
    rw [rotatedBuffer_againstClockwise g.activeTetromino hs lx ly (by omega) (by omega),
      if_pos (by omega)] at hp
    have e1 : g.activeTetromino.size - 1 - (lx : Int) =
        (((g.activeTetromino.size - 1 - lx).toNat : Nat) : Int) := by omega
    rw [e1] at hp
    have hfree := hc ly hly (g.activeTetromino.size - 1 - lx).toNat (by omega) hp
    have hx := hi.1.2.2.2.1
    have hy := hi.1.2.2.2.2.1
    have hw := hi.1.1
    unfold Int8 at hx hy hw
    have ht := getGameFieldPixel_eq_zero_bounds (againstClockwisePathFree_target hfree)
    rw [(pop_fieldOnly g).activeTetromino_eq, (pop_fieldOnly g).width_eq] at ht
    unfold toInt8 at ht
    omega
  · rw [e]; exact withinWalls_landed h

theorem withinWalls_spawn {g : Game} (hw4 : 4 ≤ g.width) (hw : g.width ≤ 127)
    (hh : 0 ≤ g.height) {d : Int} (hd0 : 0 ≤ d) (hd2 : d ≤ 2)
    (hd : g.activeTetromino.size ≤ d + 2)
    (hx : g.activeTetromino.x = toInt8 (g.width.tdiv 2 - d))
    (hy : g.activeTetromino.y = g.height) : WithinWalls g := by
  unfold WithinWalls
  intro lx hlx ly hly _
  rw [hx, hy, tdiv_two, if_pos (by omega)]
  unfold toInt8
  omega

theorem withinWalls_startGame {gen : Nat → NextTetromino → NextTetromino} {g : Game}
    (hi : PlayInvariant gen (startGame g)) : WithinWalls (startGame g) := by
  have hs4 := hi.2.2.2.2.1.2.2.1
  have hs2 := hi.2.2.2.2.1.1
  refine @withinWalls_spawn _ hi.2.1 hi.1.1.2 (by have := hi.2.2.1; omega)
    ((startGame g).activeTetromino.size.tdiv 2) ?_ ?_ ?_ rfl rfl
  all_goals rw [tdiv_two, if_pos (by omega)]; omega

theorem withinWalls_tick {gen : Nat → NextTetromino → NextTetromino} {g : Game}
    (hi : PlayInvariant gen g) (h : WithinWalls g) : WithinWalls (tick g).2 := by
  rcases tick_cases g with ⟨_, hc, _⟩ | ⟨_, _, _, e⟩ | ⟨_, _, _, _, e⟩ | ⟨_, _, _, _, e⟩
  · exact withinWalls_descent hi h hc
  · rw [e]
    exact h.congr (landed_fieldOnly g).activeTetromino_eq (landed_fieldOnly g).width_eq
  · rw [e]
    refine h.congr ?_ ?_
    · simp only [(cleanLines_fieldOnly _).activeTetromino_eq, landed_activeTetromino]
    · simp only [(cleanLines_fieldOnly _).width_eq, (landed_fieldOnly g).width_eq]
  · rw [e]
    have hwe : (cleanLines (landed g)).2.width = g.width := by
      rw [(cleanLines_fieldOnly _).width_eq, (landed_fieldOnly g).width_eq]
    have hhe : (cleanLines (landed g)).2.height = g.height := by
      rw [(cleanLines_fieldOnly _).height_eq, (landed_fieldOnly g).height_eq]
    refine @withinWalls_spawn _ ?_ ?_ ?_ 2 (by decide) (by decide) ?_ ?_ ?_
    rotate_left 4
    · show toInt8 (g.width.tdiv 2 - tetrominoMaxSize.tdiv 2) =
        toInt8 ((cleanLines (landed g)).2.width.tdiv 2 - 2)
      rw [hwe]
      rfl
    · show g.height = (cleanLines (landed g)).2.height
      rw [hhe]
    · simp only [hwe]; exact hi.2.1
    · simp only [hwe]; exact hi.1.1.2
    · simp only [hhe]; have := hi.2.2.1; omega
    · have := hi.2.2.2.2.2.2.2.1
      simp only []
      omega

theorem withinWalls_of_inPlay {width height maxScore : Int}
    {gen : Nat → NextTetromino → NextTetromino} {sc : Int → Nat} (hgen : GoodGenerator gen)
    (hw : 4 ≤ width ∧ width ≤ 127) (hh : 4 ≤ height ∧ height ≤ 127) {g : Game}
    (h : InPlay width height maxScore gen sc g) : WithinWalls g := by
  induction h with
  | first heap g hg =>
    exact withinWalls_startGame
      (playInvariant_of_started hgen hw hh (Started.afterStart heap g hg))
  | thenLeft g hp _ ih =>
    exact withinWalls_moveLeft (playInvariant_of_started hgen hw hh hp.started) ih
  | thenRight g hp _ ih =>
    exact withinWalls_moveRight (playInvariant_of_started hgen hw hh hp.started) ih
  | thenClockwise g hp _ ih =>
    exact withinWalls_rotateClockwise (playInvariant_of_started hgen hw hh hp.started) ih
  | thenAgainstClockwise g hp _ ih =>
    exact withinWalls_rotateAgainstClockwise (playInvariant_of_started hgen hw hh hp.started) ih
  | thenTick g hp _ ih =>
    exact withinWalls_tick (playInvariant_of_started hgen hw hh hp.started) ih

/-- C27. The active piece never enters a wall or the floor: in every state
reachable from `initGame` followed by `startGame` through any sequence of
`moveLeft`, `moveRight`, `rotateClockwise`, `rotateAgainstClockwise` and `tick`
made while the status is Playing, with `4 ≤ width, height ≤ 127` and a
generator yielding well-formed shapes of a size in `2 .. 4`, every occupied
local cell `(lx, ly)` of the active piece satisfies `0 ≤ x + lx < width` and
`y + ly ≥ 0`. -/
theorem active_piece_within_walls (width height maxScore : Int)
    (getNextTetrominoFunction : Nat → NextTetromino → NextTetromino)
    (getScoreAddendFunction : Int → Nat) (hgen : GoodGenerator getNextTetrominoFunction)
    (hw : 4 ≤ width ∧ width ≤ 127) (hh : 4 ≤ height ∧ height ≤ 127) (g : Game)
    (h : InPlay width height maxScore getNextTetrominoFunction getScoreAddendFunction g) :
    ∀ lx : Nat, lx < 4 → ∀ ly : Nat, ly < 4 →
      flatArrayAs2D g.activeTetromino.pixels lx ly tetrominoMaxSize ≠ 0 →
      0 ≤ g.activeTetromino.x + lx ∧ g.activeTetromino.x + lx < g.width ∧
        0 ≤ g.activeTetromino.y + ly := by
  intro lx hlx ly hly hp
  have hm := withinWalls_of_inPlay hgen hw hh h
  have hi := playInvariant_of_started hgen hw hh h.started
  have hwf := hi.2.2.2.2.1.2.2.2
  have h2 := hi.2.2.2.2.1.1
  have hin : (lx : Int) < g.activeTetromino.size ∧ (ly : Int) < g.activeTetromino.size := by
    by_contra hc
    exact hp (hwf lx hlx ly hly (by omega))
  exact hm lx (by omega) ly (by omega) hp

/-- Witness of C27: the flat bar three ticks after `startGame`, in row 1 of the
4 × 4 board, touches both walls without entering them. -/
theorem active_piece_within_walls_witness :
    (tick (tick (tick (startGame flatBarCreated)).2).2).2.activeTetromino.x = 0 ∧
      (tick (tick (tick (startGame flatBarCreated)).2).2).2.activeTetromino.y = 1 ∧
      (0 ≤ (tick (tick (tick (startGame flatBarCreated)).2).2).2.activeTetromino.x + (3 : Nat) ∧
        (tick (tick (tick (startGame flatBarCreated)).2).2).2.activeTetromino.x + (3 : Nat) <
          (tick (tick (tick (startGame flatBarCreated)).2).2).2.width ∧
        0 ≤ (tick (tick (tick (startGame flatBarCreated)).2).2).2.activeTetromino.y + (0 : Nat)) :=
  ⟨by decide, by decide,
    active_piece_within_walls 4 4 50 flatBarGenerator hundredPerLine
      (fun _ _ => (by decide : GoodShape flatBarShape.size flatBarShape.pixels))
      (by decide) (by decide) _
      (InPlay.thenTick _ (InPlay.thenTick _ (InPlay.thenTick _
        (InPlay.first zeroHeap flatBarCreated rfl) (by decide)) (by decide)) (by decide))
      3 (by decide) 0 (by decide) (by decide)⟩

theorem WellTyped.along_fieldOnly {g r : Game} (h : WellTyped g) (hf : FieldOnly g r)
    (hb : BoardOk r) : WellTyped r := by
  unfold WellTyped at *
  rw [hf.width_eq, hf.height_eq, hf.activeTetromino_eq, hf.nextTetromino_eq, hf.score_eq,
    hf.maxScore_eq]
  obtain ⟨h1, h2, h3, h4, h5, h6, h7, h8, _, h10, h11⟩ := h
  exact ⟨h1, h2, h3, h4, h5, h6, h7, h8, hb, h10, h11⟩

theorem WellTyped.replaced {g : Game} (h : WellTyped g) (a : ActiveTetromino)
    (hs : Int8 a.size) (hx : Int8 a.x) (hy : Int8 a.y) (hl : a.pixels.length = 16) :
    WellTyped (pushActiveTetrominoInfo { popActiveTetrominoInfo g with activeTetromino := a }) := by
  have hp : WellTyped (popActiveTetrominoInfo g) :=
    h.along_fieldOnly (pop_fieldOnly g) (pop_boardOk h.2.2.2.2.2.2.2.2.1)
  have hr : WellTyped { popActiveTetrominoInfo g with activeTetromino := a } := by
    unfold WellTyped at hp ⊢
    obtain ⟨h1, h2, h3, h4, h5, h6, h7, h8, h9, h10, h11⟩ := hp
    exact ⟨h1, h2, hs, hx, hy, h6, h7, h8, h9, hl, h11⟩
  exact hr.along_fieldOnly (push_fieldOnly _) (push_boardOk hr.2.2.2.2.2.2.2.2.1)

theorem WellTyped.of_landed {g : Game} (h : WellTyped g) : WellTyped (landed g) :=
  h.along_fieldOnly (landed_fieldOnly g) (landed_boardOk h.2.2.2.2.2.2.2.2.1)

theorem pieceCell_ne_zero {a : ActiveTetromino} {X Y : Int} (h : pieceCell a X Y ≠ 0) :
    ∃ lx ly : Nat, lx < a.size.toNat ∧ ly < a.size.toNat ∧ X = a.x + lx ∧ Y = a.y + ly ∧
      flatArrayAs2D a.pixels lx ly tetrominoMaxSize ≠ 0 := by
  unfold pieceCell at h
  split_ifs at h with hc
  · refine ⟨(X - a.x).toNat, (Y - a.y).toNat, by omega, by omega, by omega, by omega, ?_⟩
    have e1 : (((X - a.x).toNat : Nat) : Int) = X - a.x := by omega
    have e2 : (((Y - a.y).toNat : Nat) : Int) = Y - a.y := by omega
    rw [e1, e2]
    exact h
  · exact absurd rfl h

theorem cellWithoutPiece_inBoard {g : Game} {X Y : Int} (hin : InBoard g X Y) :
    cellWithoutPiece g X Y =
      if pieceCell g.activeTetromino X Y ≠ 0 then 0 else getGameFieldPixel g X Y := by
  unfold cellWithoutPiece getGameFieldPixel
  unfold InBoard at hin
  have h1 : ¬ (X < 0 ∨ X ≥ g.width) := by omega
  have h2 : ¬ Y < 0 := by omega
  have h3 : ¬ Y ≥ g.height := by omega
  simp only [h1, h2, h3, if_false]

theorem cellWithoutPiece_outside {g r : Game} (hw : r.width = g.width) (hh : r.height = g.height)
    {X Y : Int} (hout : ¬ InBoard g X Y) : cellWithoutPiece r X Y = cellWithoutPiece g X Y := by
  unfold cellWithoutPiece
  unfold InBoard at hout
  rw [hw, hh]
  split_ifs <;> first | rfl | omega

/-- The board without the piece is the same after the piece has been replaced
by one whose footprint lands on empty cells of the board without the piece. -/
theorem cellWithoutPiece_replaced {g : Game} (hty : WellTyped g) (a : ActiveTetromino)
    (hax : Int8 a.x) (hay : Int8 a.y) (has : a.size ≤ 127)
    (hland : ∀ X Y : Int, InBoard g X Y → pieceCell a X Y ≠ 0 → cellWithoutPiece g X Y = 0)
    (X Y : Int) :
    cellWithoutPiece
        (pushActiveTetrominoInfo { popActiveTetrominoInfo g with activeTetromino := a }) X Y =
      cellWithoutPiece g X Y := by
  have hw : (pushActiveTetrominoInfo
      { popActiveTetrominoInfo g with activeTetromino := a }).width = g.width := by
    rw [(push_fieldOnly _).width_eq]; exact (pop_fieldOnly g).width_eq
  have hh : (pushActiveTetrominoInfo
      { popActiveTetrominoInfo g with activeTetromino := a }).height = g.height := by
    rw [(push_fieldOnly _).height_eq]; exact (pop_fieldOnly g).height_eq
  by_cases hin : InBoard g X Y
  · have hin2 : InBoard (pushActiveTetrominoInfo
        { popActiveTetrominoInfo g with activeTetromino := a }) X Y := by
      unfold InBoard at *
      rw [hw, hh]
      exact hin
    rw [cellWithoutPiece_inBoard hin2, (push_fieldOnly _).activeTetromino_eq,
      getGameFieldPixel_push_replaced hty a hax hay has hin]
    simp only []
    by_cases hp : pieceCell a X Y ≠ 0
    · rw [if_pos hp, hland X Y hin hp]
    · rw [if_neg hp, if_neg hp, cellWithoutPiece_inBoard hin]
  · exact cellWithoutPiece_outside hw hh hin

theorem cellWithoutPiece_landed {g : Game} (hty : WellTyped g) (X Y : Int) :
    cellWithoutPiece (landed g) X Y = cellWithoutPiece g X Y := by
  by_cases hin : InBoard g X Y
  · have hin2 : InBoard (landed g) X Y := by
      unfold InBoard at *
      rw [(landed_fieldOnly g).width_eq, (landed_fieldOnly g).height_eq]
      exact hin
    rw [cellWithoutPiece_inBoard hin2, cellWithoutPiece_inBoard hin, landed_activeTetromino,
      getGameFieldPixel_landed hty hin]
    split_ifs <;> rfl
  · exact cellWithoutPiece_outside (landed_fieldOnly g).width_eq (landed_fieldOnly g).height_eq hin

theorem cellWithoutPiece_moveLeft {g : Game} (hty : WellTyped g) (X Y : Int) :
    cellWithoutPiece (moveLeft g).2 X Y = cellWithoutPiece g X Y := by
  rcases moveLeft_cases hty with ⟨hc, e⟩ | ⟨_, e⟩
  · rw [e]
    refine cellWithoutPiece_replaced hty
      { g.activeTetromino with x := toInt8 (g.activeTetromino.x - 1) }
      (toInt8_int8 _) hty.2.2.2.2.1 hty.2.2.1.2 ?_ X Y
    intro X Y hin hp
    obtain ⟨lx, ly, hlx, hly, hX, hY, hpix⟩ : ∃ lx ly : Nat,
        lx < g.activeTetromino.size.toNat ∧ ly < g.activeTetromino.size.toNat ∧
        X = toInt8 (g.activeTetromino.x - 1) + lx ∧ Y = g.activeTetromino.y + ly ∧
        flatArrayAs2D g.activeTetromino.pixels lx ly tetrominoMaxSize ≠ 0 :=
      pieceCell_ne_zero hp
    have := hc lx ly (by omega) (by omega) hpix
    have hw := hty.1
    have hh := hty.2.1
    have hs := hty.2.2.1
    unfold InBoard at hin
    unfold Int8 at hw hh hs
    have e1 : toInt8 (g.activeTetromino.x + lx - 1) = X := by
      rw [hX]; unfold toInt8; unfold toInt8 at hX; omega
    have e2 : toInt8 (g.activeTetromino.y + ly) = Y := by
      rw [hY]; unfold toInt8; omega
    rw [e1, e2] at this
    exact this
  · rw [e]; exact cellWithoutPiece_landed hty X Y

theorem cellWithoutPiece_moveRight {g : Game} (hty : WellTyped g) (X Y : Int) :
    cellWithoutPiece (moveRight g).2 X Y = cellWithoutPiece g X Y := by
  rcases moveRight_cases hty with ⟨hc, e⟩ | ⟨_, e⟩
  · rw [e]
    refine cellWithoutPiece_replaced hty
      { g.activeTetromino with x := toInt8 (g.activeTetromino.x + 1) }
      (toInt8_int8 _) hty.2.2.2.2.1 hty.2.2.1.2 ?_ X Y
    intro X Y hin hp
    obtain ⟨lx, ly, hlx, hly, hX, hY, hpix⟩ : ∃ lx ly : Nat,
        lx < g.activeTetromino.size.toNat ∧ ly < g.activeTetromino.size.toNat ∧
        X = toInt8 (g.activeTetromino.x + 1) + lx ∧ Y = g.activeTetromino.y + ly ∧
        flatArrayAs2D g.activeTetromino.pixels lx ly tetrominoMaxSize ≠ 0 :=
      pieceCell_ne_zero hp
    have := hc lx ly (by omega) (by omega) hpix
    have hw := hty.1
    have hh := hty.2.1
    have hs := hty.2.2.1
    unfold InBoard at hin
    unfold Int8 at hw hh hs
    have e1 : toInt8 (g.activeTetromino.x + lx + 1) = X := by
      rw [hX]; unfold toInt8; unfold toInt8 at hX; omega
    have e2 : toInt8 (g.activeTetromino.y + ly) = Y := by
      rw [hY]; unfold toInt8; omega
    rw [e1, e2] at this
    exact this
  · rw [e]; exact cellWithoutPiece_landed hty X Y

theorem cellWithoutPiece_tick_moved {g : Game} (hty : WellTyped g)
    (hs : g.activeTetromino.size ≤ 4) (h : (tick g).1 = 0) (X Y : Int) :
    cellWithoutPiece (tick g).2 X Y = cellWithoutPiece g X Y := by
  have hc := (tick_eq_zero_iff g).1 h
  rw [tick_moved_state hc]
  rw [canActiveTetrominoMoveDown_ne_zero_iff, (pop_fieldOnly g).activeTetromino_eq] at hc
  refine cellWithoutPiece_replaced hty
    { g.activeTetromino with y := toInt8 (g.activeTetromino.y - 1) }
    hty.2.2.2.1 (toInt8_int8 _) hty.2.2.1.2 ?_ X Y
  intro X Y hin hp
  obtain ⟨lx, ly, hlx, hly, hX, hY, hpix⟩ : ∃ lx ly : Nat,
      lx < g.activeTetromino.size.toNat ∧ ly < g.activeTetromino.size.toNat ∧
      X = g.activeTetromino.x + lx ∧ Y = toInt8 (g.activeTetromino.y - 1) + ly ∧
      flatArrayAs2D g.activeTetromino.pixels lx ly tetrominoMaxSize ≠ 0 :=
    pieceCell_ne_zero hp
  have := hc lx (by omega) ly (by omega) hpix
  rw [getGameFieldPixel_pop_eq hty] at this
  have hw := hty.1
  have hh := hty.2.1
  unfold InBoard at hin
  unfold Int8 at hw hh
  have e1 : toInt8 (g.activeTetromino.x + lx) = X := by
    rw [hX]; unfold toInt8; omega
  have e2 : toInt8 (g.activeTetromino.y + ly - 1) = Y := by
    rw [hY]; unfold toInt8; unfold toInt8 at hY; omega
  rw [e1, e2] at this
  exact this

theorem cellWithoutPiece_rotateAgainstClockwise {g : Game} (hty : WellTyped g)
    (hs : g.activeTetromino.size ≤ 4) (X Y : Int) :
    cellWithoutPiece (rotateAgainstClockwise g).2 X Y = cellWithoutPiece g X Y := by
  rcases rotateAgainstClockwise_cases g with ⟨hc, e⟩ | ⟨_, e⟩
  · rw [e]
    rw [canActiveTetrominoRotateAgainstClockwise_ne_zero_iff,
      (pop_fieldOnly g).activeTetromino_eq] at hc
    refine cellWithoutPiece_replaced hty
      { g.activeTetromino with pixels := rotatedBuffer againstClockwiseTarget g.activeTetromino }
      hty.2.2.2.1 hty.2.2.2.2.1 hty.2.2.1.2 ?_ X Y
    intro X Y hin hp
    obtain ⟨lx, ly, hlx, hly, hX, hY, hpix⟩ : ∃ lx ly : Nat,
        lx < g.activeTetromino.size.toNat ∧ ly < g.activeTetromino.size.toNat ∧
        X = g.activeTetromino.x + lx ∧ Y = g.activeTetromino.y + ly ∧
        flatArrayAs2D (rotatedBuffer againstClockwiseTarget g.activeTetromino) lx ly
          tetrominoMaxSize ≠ 0 :=
      pieceCell_ne_zero hp
    rw [rotatedBuffer_againstClockwise g.activeTetromino hs lx ly (by omega) (by omega),
      if_pos (by omega)] at hpix
    have e1 : g.activeTetromino.size - 1 - (lx : Int) =
        (((g.activeTetromino.size - 1 - lx).toNat : Nat) : Int) := by omega
    rw [e1] at hpix
    have hfree := hc ly hly (g.activeTetromino.size - 1 - lx).toNat (by omega) hpix
    have ht := againstClockwisePathFree_target hfree
    rw [(pop_fieldOnly g).activeTetromino_eq, getGameFieldPixel_pop_eq hty] at ht
    have hw := hty.1
    have hh := hty.2.1
    unfold InBoard at hin
    unfold Int8 at hw hh
    have e2 : toInt8 (g.activeTetromino.size - 1 -
        (((g.activeTetromino.size - 1 - lx).toNat : Nat) : Int) + g.activeTetromino.x) = X := by
      rw [hX]; unfold toInt8; omega
    have e3 : toInt8 ((ly : Int) + g.activeTetromino.y) = Y := by
      rw [hY]; unfold toInt8; omega
    rw [e2, e3] at ht
    exact ht
  · rw [e]; exact cellWithoutPiece_landed hty X Y

/-- Locked cells are untouched by every piece motion but a successful clockwise
turn: for every well-typed state with a tetromino of size at most 4,
`moveLeft`, `moveRight` and `rotateAgainstClockwise` (moved or blocked), a
blocked `rotateClockwise` and a `tick` that returns 0 leave the board without
the active piece unchanged, cell for cell. -/
theorem locked_cells_kept (g : Game) (hty : WellTyped g) (hs : g.activeTetromino.size ≤ 4) :
    (∀ X Y : Int, cellWithoutPiece (moveLeft g).2 X Y = cellWithoutPiece g X Y) ∧
    (∀ X Y : Int, cellWithoutPiece (moveRight g).2 X Y = cellWithoutPiece g X Y) ∧
    (∀ X Y : Int, cellWithoutPiece (rotateAgainstClockwise g).2 X Y = cellWithoutPiece g X Y) ∧
    ((rotateClockwise g).1 = 1 →
      ∀ X Y : Int, cellWithoutPiece (rotateClockwise g).2 X Y = cellWithoutPiece g X Y) ∧
    ((tick g).1 = 0 → ∀ X Y : Int, cellWithoutPiece (tick g).2 X Y = cellWithoutPiece g X Y) := by
  refine ⟨cellWithoutPiece_moveLeft hty, cellWithoutPiece_moveRight hty,
    cellWithoutPiece_rotateAgainstClockwise hty hs, fun h X Y => ?_,
    fun h => cellWithoutPiece_tick_moved hty hs h⟩
  rw [rotateClockwise_blocked h]
  exact cellWithoutPiece_landed hty X Y

/-- C23 fails for `rotateClockwise`.  In `hookGame` (a well-typed state with a
well-formed 3 × 3 piece merged into the board) the clockwise rotation reports
success and the board without the active piece is not the same before and
after: the locked cell `(1, 2)` holds 2 before and 0 after, because the turned
piece has been written over it. -/
theorem rotateClockwise_changes_locked_cells :
    WellTyped hookGame ∧ FootprintMerged hookGame ∧
    ShapeWellFormed hookGame.activeTetromino.size hookGame.activeTetromino.pixels ∧
    (rotateClockwise hookGame).1 = 0 ∧
    cellWithoutPiece hookGame 1 2 = 2 ∧
    cellWithoutPiece (rotateClockwise hookGame).2 1 2 = 0 ∧
    (popActiveTetrominoInfo hookGame).gameField =
      [2, 0, 0, 0, 0, 2, 0, 0, 0, 0, 2, 2, 0, 0, 0, 0, 0, 0, 0, 0] ∧
    (popActiveTetrominoInfo (rotateClockwise hookGame).2).gameField =
      [2, 0, 0, 0, 0, 2, 0, 0, 0, 0, 2, 0, 0, 0, 0, 0, 0, 0, 0, 0] := by
  refine ⟨by decide, by decide, by decide, by decide, by decide, by decide, by decide, by decide⟩

theorem getGameFieldPixel_of_merged {g : Game} (hm : FootprintMerged g) (X Y : Int) :
    getGameFieldPixel g X Y =
      if InBoard g X Y ∧ pieceCell g.activeTetromino X Y ≠ 0 then
        pieceCell g.activeTetromino X Y
      else cellWithoutPiece g X Y := by
  by_cases hin : InBoard g X Y
  · by_cases hp : pieceCell g.activeTetromino X Y ≠ 0
    · rw [if_pos ⟨hin, hp⟩, pieceCell_of_merged hm hin hp]
    · rw [if_neg (fun h => hp h.2), cellWithoutPiece_inBoard hin, if_neg hp]
  · rw [if_neg (fun h => hin h.1)]
    unfold cellWithoutPiece getGameFieldPixel
    unfold InBoard at hin
    split_ifs <;> first | rfl | omega

theorem getGameFieldPixel_eq_of_cellWithoutPiece {g r : Game} (hg : FootprintMerged g)
    (hr : FootprintMerged r) (ha : r.activeTetromino = g.activeTetromino)
    (hw : r.width = g.width) (hh : r.height = g.height)
    (hc : ∀ X Y : Int, cellWithoutPiece r X Y = cellWithoutPiece g X Y) (X Y : Int) :
    getGameFieldPixel r X Y = getGameFieldPixel g X Y := by
  rw [getGameFieldPixel_of_merged hg, getGameFieldPixel_of_merged hr, ha, hc]
  have hi : InBoard r X Y ↔ InBoard g X Y := by
    unfold InBoard
    rw [hw, hh]
  simp only [hi]

theorem frameInput_eq {g r : Game} (h : FrameInput g r) (ha : r.activeTetromino = g.activeTetromino)
    (hf : r.gameField = g.gameField) : r = g := by
  unfold FrameInput at h
  rw [h, ha, hf]

theorem canMoveLeft_bounds {g : Game} (hc : CanMoveLeft g) {lx ly : Nat}
    (hlx : lx < g.activeTetromino.size.toNat) (hly : ly < g.activeTetromino.size.toNat)
    (hp : flatArrayAs2D g.activeTetromino.pixels lx ly tetrominoMaxSize ≠ 0) :
    0 ≤ toInt8 (g.activeTetromino.x + lx - 1) ∧ toInt8 (g.activeTetromino.x + lx - 1) < g.width ∧
      0 ≤ toInt8 (g.activeTetromino.y + ly) :=
  cellWithoutPiece_eq_zero_bounds (hc lx ly (by omega) (by omega) hp)

theorem canMoveRight_bounds {g : Game} (hc : CanMoveRight g) {lx ly : Nat}
    (hlx : lx < g.activeTetromino.size.toNat) (hly : ly < g.activeTetromino.size.toNat)
    (hp : flatArrayAs2D g.activeTetromino.pixels lx ly tetrominoMaxSize ≠ 0) :
    0 ≤ toInt8 (g.activeTetromino.x + lx + 1) ∧ toInt8 (g.activeTetromino.x + lx + 1) < g.width ∧
      0 ≤ toInt8 (g.activeTetromino.y + ly) :=
  cellWithoutPiece_eq_zero_bounds (hc lx ly (by omega) (by omega) hp)

theorem cellWithoutPiece_own_cell {g : Game} {lx ly : Nat}
    (hlx : lx < g.activeTetromino.size.toNat) (hly : ly < g.activeTetromino.size.toNat)
    (hp : flatArrayAs2D g.activeTetromino.pixels lx ly tetrominoMaxSize ≠ 0)
    (hx0 : 0 ≤ g.activeTetromino.x + lx) (hx1 : g.activeTetromino.x + lx < g.width)
    (hy0 : 0 ≤ g.activeTetromino.y + ly) :
    cellWithoutPiece g (g.activeTetromino.x + lx) (g.activeTetromino.y + ly) = 0 := by
  have hc : pieceCell g.activeTetromino (g.activeTetromino.x + lx) (g.activeTetromino.y + ly) =
      flatArrayAs2D g.activeTetromino.pixels lx ly tetrominoMaxSize :=
    pieceCell_of_mem (lx, ly) ((mem_cells _ _).2 ⟨hlx, hly⟩) rfl rfl
  unfold cellWithoutPiece
  rw [hc, if_neg (by omega), if_neg (by omega)]
  split_ifs <;> rfl

theorem WellTyped.popped_with {g : Game} (h : WellTyped g) (a : ActiveTetromino)
    (hs : Int8 a.size) (hx : Int8 a.x) (hy : Int8 a.y) (hl : a.pixels.length = 16) :
    WellTyped { popActiveTetrominoInfo g with activeTetromino := a } := by
  have hp : WellTyped (popActiveTetrominoInfo g) :=
    h.along_fieldOnly (pop_fieldOnly g) (pop_boardOk h.2.2.2.2.2.2.2.2.1)
  unfold WellTyped at hp ⊢
  obtain ⟨h1, h2, h3, h4, h5, h6, h7, h8, h9, h10, h11⟩ := hp
  exact ⟨h1, h2, hs, hx, hy, h6, h7, h8, h9, hl, h11⟩

theorem moveRight_after_moveLeft {g : Game} (hty : WellTyped g) (hm : FootprintMerged g)
    (hw : WithinWalls g) (h : (moveLeft g).1 = 0) :
    (moveRight (moveLeft g).2).1 = 0 ∧
      (moveRight (moveLeft g).2).2.activeTetromino = g.activeTetromino ∧
      (∀ X Y : Int, getGameFieldPixel (moveRight (moveLeft g).2).2 X Y = getGameFieldPixel g X Y) := by
  have hx := hty.2.2.2.1
  have hy := hty.2.2.2.2.1
  have hwd := hty.1
  have hsz := hty.2.2.1
  unfold Int8 at hx hy hwd hsz
  rcases moveLeft_cases hty with ⟨hc, e⟩ | ⟨_, e⟩
  swap
  · rw [e] at h; exact absurd h (Nat.succ_ne_zero 0)
  have hkept := cellWithoutPiece_moveLeft hty
  have hact : (moveLeft g).2.activeTetromino =
      { g.activeTetromino with x := toInt8 (g.activeTetromino.x - 1) } := by
    rw [e]; exact (push_fieldOnly _).activeTetromino_eq
  have hty1 : WellTyped (moveLeft g).2 := by
    rw [e]
    exact hty.replaced { g.activeTetromino with x := toInt8 (g.activeTetromino.x - 1) }
      hty.2.2.1 (toInt8_int8 _) hty.2.2.2.2.1 hty.2.2.2.2.2.2.2.2.2.1
  have hcan : CanMoveRight (moveLeft g).2 := by
    unfold CanMoveRight
    rw [hact]
    show ∀ lx ly : Nat, (lx : Int) < g.activeTetromino.size → (ly : Int) < g.activeTetromino.size →
      flatArrayAs2D g.activeTetromino.pixels lx ly tetrominoMaxSize ≠ 0 →
      cellWithoutPiece (moveLeft g).2 (toInt8 (toInt8 (g.activeTetromino.x - 1) + lx + 1))
        (toInt8 (g.activeTetromino.y + ly)) = 0
    intro lx ly hlx hly hp
    rw [hkept]
    have hb := canMoveLeft_bounds hc (by omega : lx < g.activeTetromino.size.toNat)
      (by omega : ly < g.activeTetromino.size.toNat) hp
    have ho := hw lx (by omega) ly (by omega) hp
    have e1 : toInt8 (toInt8 (g.activeTetromino.x - 1) + lx + 1) = g.activeTetromino.x + lx := by
      unfold toInt8; omega
    have e2 : toInt8 (g.activeTetromino.y + ly) = g.activeTetromino.y + ly := by
      unfold toInt8; unfold toInt8 at hb; omega
    rw [e1, e2]
    exact cellWithoutPiece_own_cell (by omega) (by omega) hp ho.1 ho.2.1 ho.2.2
  rcases moveRight_cases hty1 with ⟨_, e2⟩ | ⟨hn, _⟩
  swap
  · exact absurd hcan hn
  have hact2 : (moveRight (moveLeft g).2).2.activeTetromino = g.activeTetromino := by
    rw [e2]
    simp only [(push_fieldOnly _).activeTetromino_eq, hact]
    have e3 : toInt8 (toInt8 (g.activeTetromino.x - 1) + 1) = g.activeTetromino.x := by
      unfold toInt8; omega
    rw [e3]
  refine ⟨by rw [e2], hact2, ?_⟩
  have hm2 : FootprintMerged (moveRight (moveLeft g).2).2 := by
    rw [e2]
    refine footprintMerged_push (hty1.popped_with _ ?_ (toInt8_int8 _) ?_ ?_)
    · rw [hact]; exact hty.2.2.1
    · rw [hact]; exact hty.2.2.2.2.1
    · rw [hact]; exact hty.2.2.2.2.2.2.2.2.2.1
  exact getGameFieldPixel_eq_of_cellWithoutPiece hm hm2 hact2
    ((moveRight_frame _).width_kept.trans (moveLeft_frame g).width_kept)
    ((moveRight_frame _).height_kept.trans (moveLeft_frame g).height_kept)
    (fun X Y => (cellWithoutPiece_moveRight hty1 X Y).trans (hkept X Y))

theorem moveLeft_after_moveRight {g : Game} (hty : WellTyped g) (hm : FootprintMerged g)
    (hw : WithinWalls g) (h : (moveRight g).1 = 0) :
    (moveLeft (moveRight g).2).1 = 0 ∧
      (moveLeft (moveRight g).2).2.activeTetromino = g.activeTetromino ∧
      (∀ X Y : Int, getGameFieldPixel (moveLeft (moveRight g).2).2 X Y = getGameFieldPixel g X Y) := by
  have hx := hty.2.2.2.1
  have hy := hty.2.2.2.2.1
  have hwd := hty.1
  have hsz := hty.2.2.1
  unfold Int8 at hx hy hwd hsz
  rcases moveRight_cases hty with ⟨hc, e⟩ | ⟨_, e⟩
  swap
  · rw [e] at h; exact absurd h (Nat.succ_ne_zero 0)
  have hkept := cellWithoutPiece_moveRight hty
  have hact : (moveRight g).2.activeTetromino =
      { g.activeTetromino with x := toInt8 (g.activeTetromino.x + 1) } := by
    rw [e]; exact (push_fieldOnly _).activeTetromino_eq
  have hty1 : WellTyped (moveRight g).2 := by
    rw [e]
    exact hty.replaced { g.activeTetromino with x := toInt8 (g.activeTetromino.x + 1) }
      hty.2.2.1 (toInt8_int8 _) hty.2.2.2.2.1 hty.2.2.2.2.2.2.2.2.2.1
  have hcan : CanMoveLeft (moveRight g).2 := by
    unfold CanMoveLeft
    rw [hact]
    show ∀ lx ly : Nat, (lx : Int) < g.activeTetromino.size → (ly : Int) < g.activeTetromino.size →
      flatArrayAs2D g.activeTetromino.pixels lx ly tetrominoMaxSize ≠ 0 →
      cellWithoutPiece (moveRight g).2 (toInt8 (toInt8 (g.activeTetromino.x + 1) + lx - 1))
        (toInt8 (g.activeTetromino.y + ly)) = 0
    intro lx ly hlx hly hp
    rw [hkept]
    have hb := canMoveRight_bounds hc (by omega : lx < g.activeTetromino.size.toNat)
      (by omega : ly < g.activeTetromino.size.toNat) hp
    have ho := hw lx (by omega) ly (by omega) hp
    have e1 : toInt8 (toInt8 (g.activeTetromino.x + 1) + lx - 1) = g.activeTetromino.x + lx := by
      unfold toInt8; omega
    have e2 : toInt8 (g.activeTetromino.y + ly) = g.activeTetromino.y + ly := by
      unfold toInt8; unfold toInt8 at hb; omega
    rw [e1, e2]
    exact cellWithoutPiece_own_cell (by omega) (by omega) hp ho.1 ho.2.1 ho.2.2
  rcases moveLeft_cases hty1 with ⟨_, e2⟩ | ⟨hn, _⟩
  swap
  · exact absurd hcan hn
  have hact2 : (moveLeft (moveRight g).2).2.activeTetromino = g.activeTetromino := by
    rw [e2]
    simp only [(push_fieldOnly _).activeTetromino_eq, hact]
    have e3 : toInt8 (toInt8 (g.activeTetromino.x + 1) - 1) = g.activeTetromino.x := by
      unfold toInt8; omega
    rw [e3]
  refine ⟨by rw [e2], hact2, ?_⟩
  have hm2 : FootprintMerged (moveLeft (moveRight g).2).2 := by
    rw [e2]
    refine footprintMerged_push (hty1.popped_with _ ?_ (toInt8_int8 _) ?_ ?_)
    · rw [hact]; exact hty.2.2.1
    · rw [hact]; exact hty.2.2.2.2.1
    · rw [hact]; exact hty.2.2.2.2.2.2.2.2.2.1
  exact getGameFieldPixel_eq_of_cellWithoutPiece hm hm2 hact2
    ((moveLeft_frame _).width_kept.trans (moveRight_frame g).width_kept)
    ((moveLeft_frame _).height_kept.trans (moveRight_frame g).height_kept)
    (fun X Y => (cellWithoutPiece_moveLeft hty1 X Y).trans (hkept X Y))

theorem state_eq_of_cells {g r : Game} (hg : BoardOk g) (hr : BoardOk r) (hf : FrameInput g r)
    (ha : r.activeTetromino = g.activeTetromino) (hpos : 0 ≤ g.width)
    (hc : ∀ X Y : Int, getGameFieldPixel r X Y = getGameFieldPixel g X Y) : r = g :=
  frameInput_eq hf ha
    (gameField_ext hg hr hf.width_kept hf.height_kept hpos (fun X Y _ => hc X Y))

/-- C29. Left/right round trip: for every well-typed state in which the
footprint of the active piece is merged into the board and every occupied cell
of the piece lies between the walls and not below the floor, if `moveLeft`
returns 0 then an immediately following `moveRight` also returns 0 and restores
the piece and every board cell (every position reads as before, and for a
board of nonnegative width the game field and the whole state are the same);
symmetrically for `moveRight` followed by `moveLeft`. -/
theorem left_right_round_trip (g : Game) (hty : WellTyped g) (hm : FootprintMerged g)
    (hw : WithinWalls g) :
    ((moveLeft g).1 = 0 →
      (moveRight (moveLeft g).2).1 = 0 ∧
      (moveRight (moveLeft g).2).2.activeTetromino = g.activeTetromino ∧
      (∀ X Y : Int,
        getGameFieldPixel (moveRight (moveLeft g).2).2 X Y = getGameFieldPixel g X Y) ∧
      (0 ≤ g.width → (moveRight (moveLeft g).2).2.gameField = g.gameField ∧
        (moveRight (moveLeft g).2).2 = g)) ∧
    ((moveRight g).1 = 0 →
      (moveLeft (moveRight g).2).1 = 0 ∧
      (moveLeft (moveRight g).2).2.activeTetromino = g.activeTetromino ∧
      (∀ X Y : Int,
        getGameFieldPixel (moveLeft (moveRight g).2).2 X Y = getGameFieldPixel g X Y) ∧
      (0 ≤ g.width → (moveLeft (moveRight g).2).2.gameField = g.gameField ∧
        (moveLeft (moveRight g).2).2 = g)) := by
  have hb := hty.2.2.2.2.2.2.2.2.1
  constructor
  · intro h
    obtain ⟨h1, h2, h3⟩ := moveRight_after_moveLeft hty hm hw h
    refine ⟨h1, h2, h3, fun hpos => ?_⟩
    have hf : FrameInput g (moveRight (moveLeft g).2).2 :=
      (moveLeft_frame g).comp (moveRight_frame _)
    have hr : BoardOk (moveRight (moveLeft g).2).2 := by
      rcases moveLeft_cases hty with ⟨_, e⟩ | ⟨_, e⟩
      · have hty1 : WellTyped (moveLeft g).2 := by
          rw [e]
          exact hty.replaced { g.activeTetromino with x := toInt8 (g.activeTetromino.x - 1) }
            hty.2.2.1 (toInt8_int8 _) hty.2.2.2.2.1 hty.2.2.2.2.2.2.2.2.2.1
        rcases moveRight_cases hty1 with ⟨_, e2⟩ | ⟨_, e2⟩
        · rw [e2]; exact push_boardOk (pop_boardOk hty1.2.2.2.2.2.2.2.2.1)
        · rw [e2]; exact landed_boardOk hty1.2.2.2.2.2.2.2.2.1
      · rw [e] at h; exact absurd h (Nat.succ_ne_zero 0)
    have := state_eq_of_cells hb hr hf h2 hpos h3
    exact ⟨by rw [this], this⟩
  · intro h
    obtain ⟨h1, h2, h3⟩ := moveLeft_after_moveRight hty hm hw h
    refine ⟨h1, h2, h3, fun hpos => ?_⟩
    have hf : FrameInput g (moveLeft (moveRight g).2).2 :=
      (moveRight_frame g).comp (moveLeft_frame _)
    have hr : BoardOk (moveLeft (moveRight g).2).2 := by
      rcases moveRight_cases hty with ⟨_, e⟩ | ⟨_, e⟩
      · have hty1 : WellTyped (moveRight g).2 := by
          rw [e]
          exact hty.replaced { g.activeTetromino with x := toInt8 (g.activeTetromino.x + 1) }
            hty.2.2.1 (toInt8_int8 _) hty.2.2.2.2.1 hty.2.2.2.2.2.2.2.2.2.1
        rcases moveLeft_cases hty1 with ⟨_, e2⟩ | ⟨_, e2⟩
        · rw [e2]; exact push_boardOk (pop_boardOk hty1.2.2.2.2.2.2.2.2.1)
        · rw [e2]; exact landed_boardOk hty1.2.2.2.2.2.2.2.2.1
      · rw [e] at h; exact absurd h (Nat.succ_ne_zero 0)
    have := state_eq_of_cells hb hr hf h2 hpos h3
    exact ⟨by rw [this], this⟩

/-- Witness of C29: the T-shaped tetromino of `teeGame` moves right and back. -/
theorem left_right_round_trip_witness :
    (WellTyped teeGame ∧ FootprintMerged teeGame ∧ WithinWalls teeGame) ∧
      (moveRight teeGame).1 = 0 ∧ (moveRight teeGame).2.activeTetromino.x = 1 ∧
      (moveLeft (moveRight teeGame).2).1 = 0 ∧ (moveLeft (moveRight teeGame).2).2 = teeGame :=
  have h := (left_right_round_trip teeGame (by decide) (by decide) (by decide)).2 (by decide)
  ⟨⟨by decide, by decide, by decide⟩, by decide, by decide, h.1, (h.2.2.2 (by decide)).2⟩

set_option maxRecDepth 100000 in
/-- C24 fails at height 127.  On the empty 4 × 127 board the upright bar is
spawned by `startGame` at `y = 127`; its cell in local row 2 is checked one row
lower, at the true row `127 + 2 - 1 = 128`, which is above the board and
therefore free, but the coordinate is narrowed to `int8_t`, becomes `-128` and
reads as occupied.  The first `tick` after `startGame` therefore does not
return 0: it returns 3 and the game is lost. -/
theorem first_tick_lost_on_tall_board :
    initGame 4 127 1000 uprightBarGenerator hundredPerLine zeroHeap = some tallCreated ∧
    GoodGenerator uprightBarGenerator ∧
    (startGame tallCreated).activeTetromino =
      { size := 4, x := 0, y := 127, pixels := uprightBarShape.pixels } ∧
    (startGame tallCreated).gameField = List.replicate 508 0 ∧
    getGameFieldPixel (startGame tallCreated) (0 + 0) (127 + 2 - 1) = 0 ∧
    toInt8 (127 + 2 - 1) = -128 ∧
    getGameFieldPixel (startGame tallCreated) (toInt8 (0 + 0)) (toInt8 (127 + 2 - 1)) = 1 ∧
    canActiveTetrominoMoveDown (popActiveTetrominoInfo (startGame tallCreated)) = 0 ∧
    (tick (startGame tallCreated)).1 = 3 ∧
    (tick (startGame tallCreated)).2.status = GameStatus.endPlayerLoose := by
  refine ⟨rfl, fun _ _ => (by decide : GoodShape uprightBarShape.size uprightBarShape.pixels),
    rfl, rfl, by decide, by decide, by decide, ?_, ?_, ?_⟩
  · decide
  · decide
  · decide

theorem cellWithoutPiece_empty_board {g : Game} {n : Nat}
    (he : g.gameField = List.replicate n 0) {X Y : Int} (hx0 : 0 ≤ X) (hx1 : X < g.width)
    (hy0 : 0 ≤ Y) : cellWithoutPiece g X Y = 0 := by
  unfold cellWithoutPiece
  rw [if_neg (by omega), if_neg (by omega), he]
  unfold flatArrayAs2D
  rw [getD_replicate_zero]
  split_ifs <;> rfl

/-- The first `tick` after `startGame` on the empty board of a freshly created
game returns 0 exactly when every occupied cell of the spawned shape has
`height + ly ≤ 128`, that is, when the row below the cell still fits `int8_t`. -/
theorem first_tick_on_empty_board (width height maxScore : Int)
    (getNextTetrominoFunction : Nat → NextTetromino → NextTetromino)
    (getScoreAddendFunction : Int → Nat) (hgen : GoodGenerator getNextTetrominoFunction)
    (hw : 4 ≤ width ∧ width ≤ 127) (hh : 4 ≤ height ∧ height ≤ 127)
    (heap : Option (ActiveTetromino × NextTetromino)) (g : Game)
    (hg : initGame width height maxScore getNextTetrominoFunction getScoreAddendFunction heap =
      some g) :
    (tick (startGame g)).1 = 0 ↔
      ∀ lx : Nat, lx < 4 → ∀ ly : Nat, ly < 4 →
        flatArrayAs2D (startGame g).activeTetromino.pixels lx ly tetrominoMaxSize ≠ 0 →
        height + ly ≤ 128 := by
  have hi := playInvariant_of_started hgen hw hh (Started.afterStart heap g hg)
  have hwalls := withinWalls_startGame hi
  have hfield : (startGame g).gameField = List.replicate (width * height).toNat 0 ∧
      (startGame g).width = width ∧ (startGame g).height = height ∧
      (startGame g).activeTetromino.y = height := by
    unfold initGame at hg
    cases heap with
    | none => cases hg
    | some p =>
      obtain ⟨a, n⟩ := p
      simp only [Option.some.injEq] at hg
      subst hg
      exact ⟨rfl, rfl, rfl, rfl⟩
  obtain ⟨hf, hwe, hhe, hye⟩ := hfield
  have hwf := hi.2.2.2.2.1.2.2.2
  have hs2 := hi.2.2.2.2.1.1
  have hx := hi.1.2.2.2.1
  unfold Int8 at hx
  rw [tick_eq_zero_iff, canActiveTetrominoMoveDown_ne_zero_iff,
    (pop_fieldOnly _).activeTetromino_eq]
  constructor
  · intro h lx hlx ly hly hp
    have hc := h lx hlx ly hly hp
    rw [getGameFieldPixel_pop_eq hi.1] at hc
    have hb := cellWithoutPiece_eq_zero_bounds hc
    rw [hye] at hb
    unfold toInt8 at hb
    omega
  · intro h lx hlx ly hly hp
    have hle := h lx hlx ly hly hp
    have hin : (lx : Int) < (startGame g).activeTetromino.size ∧
        (ly : Int) < (startGame g).activeTetromino.size := by
      by_contra hc
      exact hp (hwf lx hlx ly hly (by omega))
    have ho := hwalls lx (by omega) ly (by omega) hp
    rw [getGameFieldPixel_pop_eq hi.1]
    refine cellWithoutPiece_empty_board hf ?_ ?_ ?_
    · unfold toInt8; omega
    · rw [hwe] at ho ⊢; unfold toInt8; omega
    · rw [hye]; unfold toInt8; omega

set_option maxRecDepth 100000 in
/-- C9 fails on the tallest board.  After `startGame` on the empty 4 × 127 board
the state is Playing and the upright bar, a well-formed shape, stands at
`x = 0`, `y = 127`.  On the board with its footprint removed
`getGameFieldPixel` is empty at `(x + lx, y + ly - 1)` for every occupied local
cell: row 126 is an empty board row and rows 127, 128 and 129 are above the
board.  Yet `tick` does not return 0 and does not lower the piece: it returns
3 and `y` stays 127, because the code narrows row 128 to `-128`. -/
theorem tick_blocked_with_free_cells_below :
    (startGame tallCreated).status = GameStatus.playGameStatus ∧
    (startGame tallCreated).activeTetromino =
      { size := 4, x := 0, y := 127, pixels := uprightBarShape.pixels } ∧
    ShapeWellFormed (startGame tallCreated).activeTetromino.size
      (startGame tallCreated).activeTetromino.pixels ∧
    (popActiveTetrominoInfo (startGame tallCreated)).gameField = List.replicate 508 0 ∧
    (∀ lx : Nat, lx < 4 → ∀ ly : Nat, ly < 4 →
      flatArrayAs2D (startGame tallCreated).activeTetromino.pixels lx ly tetrominoMaxSize ≠ 0 →
      getGameFieldPixel (popActiveTetrominoInfo (startGame tallCreated))
        ((startGame tallCreated).activeTetromino.x + lx)
        ((startGame tallCreated).activeTetromino.y + ly - 1) = 0) ∧
    (tick (startGame tallCreated)).1 = 3 ∧
    (tick (startGame tallCreated)).2.activeTetromino.y = 127 := by
  refine ⟨rfl, rfl, by decide, by decide, by decide, by decide, by decide⟩

set_option maxRecDepth 100000 in
/-- C15 fails on the tallest board.  After `startGame` on the empty 4 × 127
board the upright bar stands at `x = 0`, `y = 127`.  On the
board with its footprint removed `getGameFieldPixel` is empty at
`(x + lx + 1, y + ly)` for every occupied local cell: column 1 is inside the
walls and rows 127 to 130 are above the board.  Yet `moveRight` returns 1 and
leaves `x` at 0, because the code narrows row 128 to `-128`. -/
theorem moveRight_blocked_with_free_cells_beside :
    (startGame tallCreated).activeTetromino =
      { size := 4, x := 0, y := 127, pixels := uprightBarShape.pixels } ∧
    (popActiveTetrominoInfo (startGame tallCreated)).gameField = List.replicate 508 0 ∧
    (∀ lx : Nat, lx < 4 → ∀ ly : Nat, ly < 4 →
      flatArrayAs2D (startGame tallCreated).activeTetromino.pixels lx ly tetrominoMaxSize ≠ 0 →
      getGameFieldPixel (popActiveTetrominoInfo (startGame tallCreated))
        ((startGame tallCreated).activeTetromino.x + lx + 1)
        ((startGame tallCreated).activeTetromino.y + ly) = 0) ∧
    (moveRight (startGame tallCreated)).1 = 1 ∧
    (moveRight (startGame tallCreated)).2.activeTetromino.x = 0 := by
  refine ⟨rfl, by decide, by decide, by decide, by decide⟩

set_option maxRecDepth 100000 in
/-- C28 fails on the tallest board.  After `startGame` on the empty 4 × 127
board the upright bar of size 4 stands at `x = 0`, `y = 127`.
On the board with its footprint removed `getGameFieldPixel` is empty at
`(x + i, y + j)` for all `0 ≤ i, j < 4`: the columns 0 to 3 are inside the
walls and the rows 127 to 130 are above the board.  Yet `rotateClockwise` and
`rotateAgainstClockwise` both return 1, because the code narrows row 128 to
`-128`. -/
theorem rotation_blocked_in_free_box :
    (startGame tallCreated).activeTetromino =
      { size := 4, x := 0, y := 127, pixels := uprightBarShape.pixels } ∧
    (popActiveTetrominoInfo (startGame tallCreated)).gameField = List.replicate 508 0 ∧
    (∀ i : Nat, i < 4 → ∀ j : Nat, j < 4 →
      getGameFieldPixel (popActiveTetrominoInfo (startGame tallCreated))
        ((startGame tallCreated).activeTetromino.x + i)
        ((startGame tallCreated).activeTetromino.y + j) = 0) ∧
    (rotateClockwise (startGame tallCreated)).1 = 1 ∧
    (rotateAgainstClockwise (startGame tallCreated)).1 = 1 := by
  refine ⟨rfl, by decide, by decide, by decide, by decide⟩

theorem toInt8_in_range {v : Int} (h1 : -128 ≤ v) (h2 : v ≤ 127) : toInt8 v = v :=
  toInt8_of_int8 ⟨h1, h2⟩

/-- Where narrowing cannot occur the descent criterion holds at the true
coordinates: for a well-typed state with a well-formed shape, `x ≤ 124` and
`-127 ≤ y ≤ 125`, `tick` returns 0 and lowers `y` by exactly 1 if and only if
the board without the footprint is empty at `(x + lx, y + ly - 1)` for every
occupied local cell. -/
theorem tick_descent_in_range (g : Game) (hty : WellTyped g)
    (hwf : ShapeWellFormed g.activeTetromino.size g.activeTetromino.pixels)
    (hx : g.activeTetromino.x ≤ 124)
    (hy : -127 ≤ g.activeTetromino.y ∧ g.activeTetromino.y ≤ 125) :
    ((tick g).1 = 0 ∧ (tick g).2.activeTetromino.y = g.activeTetromino.y - 1) ↔
      ∀ lx ly : Nat, (lx : Int) < g.activeTetromino.size → (ly : Int) < g.activeTetromino.size →
        flatArrayAs2D g.activeTetromino.pixels lx ly tetrominoMaxSize ≠ 0 →
        cellWithoutPiece g (g.activeTetromino.x + lx) (g.activeTetromino.y + ly - 1) = 0 := by
  have hs := hwf.1
  have hlo := hty.2.2.2.1.1
  have h := (tick_descent_criterion g hty hwf).1
  rw [toInt8_in_range (by omega) (by omega)] at h
  rw [h]
  unfold CanDescend
  refine forall_congr' fun lx => forall_congr' fun ly => ?_
  constructor
  · intro hc hlx hly hp
    have := hc hlx hly hp
    rwa [toInt8_in_range (by omega) (by omega), toInt8_in_range (by omega) (by omega)] at this
  · intro hc hlx hly hp
    rw [toInt8_in_range (by omega) (by omega), toInt8_in_range (by omega) (by omega)]
    exact hc hlx hly hp

/-- Where narrowing cannot occur the criterion of a horizontal move holds at the
true coordinates: for a well-typed state with `size ≤ 4`, `-127 ≤ x ≤ 123` and
`y ≤ 124`, `moveLeft` returns 0 and decreases `x` by exactly 1 if and only if
the board without the footprint is empty at `(x + lx - 1, y + ly)` for every
occupied local cell, and `moveRight` likewise with `x + lx + 1` and `x + 1`. -/
theorem horizontal_move_in_range (g : Game) (hty : WellTyped g)
    (hs : g.activeTetromino.size ≤ 4)
    (hx : -127 ≤ g.activeTetromino.x ∧ g.activeTetromino.x ≤ 123)
    (hy : g.activeTetromino.y ≤ 124) :
    (((moveLeft g).1 = 0 ∧ (moveLeft g).2.activeTetromino.x = g.activeTetromino.x - 1) ↔
      ∀ lx ly : Nat, (lx : Int) < g.activeTetromino.size → (ly : Int) < g.activeTetromino.size →
        flatArrayAs2D g.activeTetromino.pixels lx ly tetrominoMaxSize ≠ 0 →
        cellWithoutPiece g (g.activeTetromino.x + lx - 1) (g.activeTetromino.y + ly) = 0) ∧
    (((moveRight g).1 = 0 ∧ (moveRight g).2.activeTetromino.x = g.activeTetromino.x + 1) ↔
      ∀ lx ly : Nat, (lx : Int) < g.activeTetromino.size → (ly : Int) < g.activeTetromino.size →
        flatArrayAs2D g.activeTetromino.pixels lx ly tetrominoMaxSize ≠ 0 →
        cellWithoutPiece g (g.activeTetromino.x + lx + 1) (g.activeTetromino.y + ly) = 0) := by
  have hylo := hty.2.2.2.2.1.1
  have h := horizontal_move g hty
  have hl := h.1.1
  have hr := h.2.1
  rw [toInt8_in_range (by omega) (by omega)] at hl hr
  rw [hl, hr]
  unfold CanMoveLeft CanMoveRight
  constructor
  · refine forall_congr' fun lx => forall_congr' fun ly => ?_
    constructor
    · intro hc hlx hly hp
      have := hc hlx hly hp
      rwa [toInt8_in_range (by omega) (by omega), toInt8_in_range (by omega) (by omega)] at this
    · intro hc hlx hly hp
      rw [toInt8_in_range (by omega) (by omega), toInt8_in_range (by omega) (by omega)]
      exact hc hlx hly hp
  · refine forall_congr' fun lx => forall_congr' fun ly => ?_
    constructor
    · intro hc hlx hly hp
      have := hc hlx hly hp
      rwa [toInt8_in_range (by omega) (by omega), toInt8_in_range (by omega) (by omega)] at this
    · intro hc hlx hly hp
      rw [toInt8_in_range (by omega) (by omega), toInt8_in_range (by omega) (by omega)]
      exact hc hlx hly hp

/-- Where narrowing cannot occur a free bounding box at the true coordinates
allows rotation: for a well-typed state with `size ≤ 4`, `x ≤ 124` and
`y ≤ 124`, if the board without the footprint is empty at `(x + i, y + j)` for
all `0 ≤ i, j < size`, then both rotations return 0. -/
theorem free_box_in_range (g : Game) (hty : WellTyped g) (hs : g.activeTetromino.size ≤ 4)
    (hx : g.activeTetromino.x ≤ 124) (hy : g.activeTetromino.y ≤ 124)
    (hfree : ∀ i : Nat, i < g.activeTetromino.size.toNat → ∀ j : Nat,
      j < g.activeTetromino.size.toNat →
      cellWithoutPiece g (g.activeTetromino.x + i) (g.activeTetromino.y + j) = 0) :
    (rotateClockwise g).1 = 0 ∧ (rotateAgainstClockwise g).1 = 0 := by
  have hxlo := hty.2.2.2.1.1
  have hylo := hty.2.2.2.2.1.1
  have h := free_box_allows_rotation g hty (fun i hi j hj => by
    rw [toInt8_in_range (by omega) (by omega), toInt8_in_range (by omega) (by omega)]
    exact hfree i hi j hj)
  exact ⟨h.1, h.2.1⟩

end TetrisEngine
